import Mathlib

/-!
# Character animation controller (Assignment5-Character-animation-control/main.cpp)

A shallow embedding of the per-frame body of the render loop of `main`:
the numeric hotkeys (lines 137-146), the `switch (charState)` state machine
(lines 149-370) and the call `animator.UpdateAnimation(deltaTime)` (line 374).

Conventions of the embedding.

* C++ `float` values are exact rationals (`ℚ`); `0.055f`, `0.9f`, `0.7f` are the
  rationals `55/1000`, `9/10`, `7/10`.
* The `Animator` class (`learnopengl/animator.h`) is not part of the sources.  Its
  method `PlayAnimation(a, b, t1, t2, f)` is modelled as storing its five arguments.
  `UpdateAnimation` and `glm::normalize` are parameters of the model (`Library`).
* Every `PlayAnimation` call issued during a frame is appended to `State.calls`, so
  that statements about "the clip requests of a frame" can be made.
* `processInput` only reacts to ESC (closing the window) and `printf` only writes to
  the terminal; neither touches the controller and both are left out.
-/

namespace Assignment5

/-- The enumeration `AnimState` (main.cpp lines 43-54). -/
inductive AnimState where
  | IDLE
  | IDLE_PUNCH
  | PUNCH_IDLE
  | IDLE_KICK
  | KICK_IDLE
  | IDLE_TALK
  | TALK_IDLE
  | IDLE_WALK
  | WALK_IDLE
  | WALK
  deriving DecidableEq, Repr

/-- The animation clips loaded in `main` (lines 110-115). -/
inductive Clip where
  | idleAnimation
  | walkAnimation
  | runAnimation
  | punchAnimation
  | kickAnimation
  | talkAnimation
  deriving DecidableEq, Repr

/-- A `glm::vec3` with exact rational components. -/
structure Vec3 where
  x : ℚ
  y : ℚ
  z : ℚ
  deriving DecidableEq

/-- Component-wise sum, `glm::vec3 + glm::vec3`. -/
def Vec3.add (a b : Vec3) : Vec3 := ⟨a.x + b.x, a.y + b.y, a.z + b.z⟩

/-- Scaling by a scalar, `glm::vec3 * float`. -/
def Vec3.scale (a : Vec3) (c : ℚ) : Vec3 := ⟨a.x * c, a.y * c, a.z * c⟩

/-- The test `glm::length(v) > 0.0f`.  The length is the square root of `v . v`, and a
square root is positive exactly when its argument is, so the test is made on `v . v`. -/
def Vec3.lengthPositive (v : Vec3) : Bool := decide (0 < v.x * v.x + v.y * v.y + v.z * v.z)

/-- The five arguments of one call `PlayAnimation(pAnimation, pAnimation2, time1, time2, blend)`;
`none` stands for the `NULL` secondary clip. -/
structure PlayCall where
  pAnimation : Clip
  pAnimation2 : Option Clip
  time1 : ℚ
  time2 : ℚ
  blend : ℚ
  deriving DecidableEq

/-- The fields of `Animator` that the controller reads or sets: the primary and the
secondary clip, their two cursors `m_CurrentTime` and `m_CurrentTime2`, and the blend
factor. -/
structure Animator where
  m_CurrentAnimation : Clip
  m_CurrentAnimation2 : Option Clip
  m_CurrentTime : ℚ
  m_CurrentTime2 : ℚ
  m_blendAmount : ℚ
  deriving DecidableEq

/-- Modelled from the spec: `Animator::PlayAnimation` lives in `learnopengl/animator.h`,
which is not among the sources.  It stores its five arguments in the animator ("hard
reset of BlendState", a primary cursor, an optional secondary cursor and a blend
factor). -/
def Animator.PlayAnimation (_a : Animator) (c : PlayCall) : Animator :=
  { m_CurrentAnimation := c.pAnimation
    m_CurrentAnimation2 := c.pAnimation2
    m_CurrentTime := c.time1
    m_CurrentTime2 := c.time2
    m_blendAmount := c.blend }

/-- The library functions the frame calls whose code is not among the sources:
`glm::normalize` and `Animator::UpdateAnimation`.  They are parameters of the model. -/
structure Library where
  normalize : Vec3 → Vec3
  UpdateAnimation : Animator → ℚ → Animator

/-- One snapshot of `glfwGetKey(window, KEY) == GLFW_PRESS` for the keys the loop polls. -/
structure Keys where
  KEY_UP : Bool
  KEY_DOWN : Bool
  KEY_LEFT : Bool
  KEY_RIGHT : Bool
  KEY_J : Bool
  KEY_K : Bool
  KEY_T : Bool
  KEY_1 : Bool
  KEY_2 : Bool
  KEY_3 : Bool
  KEY_4 : Bool
  KEY_5 : Bool
  deriving DecidableEq

/-- The variables the loop body reads and writes: the locals `charState`, `blendAmount`
and `animator` of `main`, the globals `characterPosition` and `characterRotation`, and
the `PlayAnimation` calls issued so far in the current frame. -/
structure State where
  charState : AnimState
  blendAmount : ℚ
  animator : Animator
  characterPosition : Vec3
  characterRotation : ℚ
  calls : List PlayCall
  deriving DecidableEq

/-- The constant `float blendRate = 0.055f` (line 119). -/
def blendRate : ℚ := 55 / 1000

/-- The global `float moveSpeed = 2.0f` (line 41). -/
def moveSpeed : ℚ := 2

/-- C `trunc` on rationals: rounding toward zero. -/
def trunc (q : ℚ) : ℤ := if 0 ≤ q then ⌊q⌋ else ⌈q⌉

/-- C `fmod(x, y)`: `x - trunc(x / y) * y`, the remainder with the sign of `x`. -/
def fmod (x y : ℚ) : ℚ := x - (trunc (x / y) : ℚ) * y

/-- One call `animator.PlayAnimation(a, b, t1, t2, f)`: the animator stores the arguments
and the call is recorded. -/
def State.play (s : State) (a : Clip) (b : Option Clip) (t1 t2 f : ℚ) : State :=
  { s with
    animator := s.animator.PlayAnimation ⟨a, b, t1, t2, f⟩
    calls := s.calls ++ [⟨a, b, t1, t2, f⟩] }

/-- The numeric hotkeys, lines 137-146: five independent `if`s, each a full cut to one
clip. -/
def hotkeys (k : Keys) (s : State) : State :=
  let s := if k.KEY_1 then s.play .idleAnimation none 0 0 0 else s
  let s := if k.KEY_2 then s.play .walkAnimation none 0 0 0 else s
  let s := if k.KEY_3 then s.play .punchAnimation none 0 0 0 else s
  let s := if k.KEY_4 then s.play .kickAnimation none 0 0 0 else s
  let s := if k.KEY_5 then s.play .talkAnimation none 0 0 0 else s
  s

/-- The locals `moveDirection` and `isMoving` together with the global
`characterRotation`, as set by the four key tests of the movement blocks. -/
structure MoveVars where
  moveDirection : Vec3
  characterRotation : ℚ
  isMoving : Bool
  deriving DecidableEq

/-- The four key tests of `case IDLE`, lines 158-181. -/
def idleMoveVars (k : Keys) (characterRotation : ℚ) : MoveVars :=
  let m : MoveVars := ⟨⟨0, 0, 0⟩, characterRotation, false⟩
  let m := if k.KEY_UP then
    { m with moveDirection := { m.moveDirection with z := 1 }, characterRotation := 180,
             isMoving := true } else m
  let m := if k.KEY_DOWN then
    { m with moveDirection := { m.moveDirection with z := -1 }, characterRotation := 0,
             isMoving := true } else m
  let m := if k.KEY_LEFT then
    { m with moveDirection := { m.moveDirection with x := 1 }, characterRotation := -90,
             isMoving := true } else m
  let m := if k.KEY_RIGHT then
    { m with moveDirection := { m.moveDirection with x := -1 }, characterRotation := 90,
             isMoving := true } else m
  m

/-- The four key tests of `case WALK`, lines 229-252: every branch assigns `0.0f` to
its component of `moveDirection`. -/
def walkMoveVars (k : Keys) (characterRotation : ℚ) : MoveVars :=
  let m : MoveVars := ⟨⟨0, 0, 0⟩, characterRotation, false⟩
  let m := if k.KEY_UP then
    { m with moveDirection := { m.moveDirection with z := 0 }, characterRotation := 180,
             isMoving := true } else m
  let m := if k.KEY_DOWN then
    { m with moveDirection := { m.moveDirection with z := 0 }, characterRotation := 0,
             isMoving := true } else m
  let m := if k.KEY_LEFT then
    { m with moveDirection := { m.moveDirection with x := 0 }, characterRotation := -90,
             isMoving := true } else m
  let m := if k.KEY_RIGHT then
    { m with moveDirection := { m.moveDirection with x := 0 }, characterRotation := 90,
             isMoving := true } else m
  m

/-- The displacement block shared by `case IDLE` (lines 183-187) and `case WALK`
(lines 254-258): `if (isMoving && glm::length(moveDirection) > 0.0f)` the direction is
normalised and `characterPosition += moveDirection * moveSpeed * deltaTime`.  The
rotation assigned by the key tests is written to the global `characterRotation` here. -/
def applyMove (lib : Library) (m : MoveVars) (deltaTime : ℚ) (s : State) : State :=
  let s := { s with characterRotation := m.characterRotation }
  if m.isMoving && m.moveDirection.lengthPositive then
    let moveDirection := lib.normalize m.moveDirection
    { s with characterPosition :=
        s.characterPosition.add ((moveDirection.scale moveSpeed).scale deltaTime) }
  else s

/-- The body of `case IDLE`, lines 150-212. -/
def caseIDLE (lib : Library) (k : Keys) (deltaTime : ℚ) (s : State) : State :=
  if k.KEY_UP || k.KEY_DOWN || k.KEY_LEFT || k.KEY_RIGHT then
    let s := { s with blendAmount := 0 }
    let s := s.play .idleAnimation (some .walkAnimation) s.animator.m_CurrentTime 0 s.blendAmount
    let m := idleMoveVars k s.characterRotation
    let s := applyMove lib m deltaTime s
    let s := if !m.isMoving then { s with blendAmount := 0, charState := .WALK_IDLE } else s
    { s with charState := .IDLE_WALK }
  else if k.KEY_J then
    let s := { s with blendAmount := 0 }
    let s := s.play .idleAnimation (some .punchAnimation) s.animator.m_CurrentTime 0 s.blendAmount
    { s with charState := .IDLE_PUNCH }
  else if k.KEY_K then
    let s := { s with blendAmount := 0 }
    let s := s.play .idleAnimation (some .kickAnimation) s.animator.m_CurrentTime 0 s.blendAmount
    { s with charState := .IDLE_KICK }
  else if k.KEY_T then
    let s := { s with blendAmount := 0 }
    let s := s.play .idleAnimation (some .talkAnimation) s.animator.m_CurrentTime 0 s.blendAmount
    { s with charState := .IDLE_TALK }
  else s

/-- The body of `case WALK`, lines 225-267. -/
def caseWALK (lib : Library) (k : Keys) (deltaTime : ℚ) (s : State) : State :=
  let s := s.play .walkAnimation none s.animator.m_CurrentTime s.animator.m_CurrentTime2
    s.blendAmount
  let m := walkMoveVars k s.characterRotation
  let s := applyMove lib m deltaTime s
  if !m.isMoving then { s with blendAmount := 0, charState := .WALK_IDLE } else s

/-- The blending block that the eight blending cases repeat verbatim (lines 214-222,
269-277, 281-289, 294-302, 311-319, 324-332, 341-349, 354-362) with their own primary
clip `a`, secondary clip `b` and post-commit state `next`:
the accumulator is incremented and wrapped, the blend is requested, and above `0.9f`
the transition commits to clip `b` alone, started at the secondary cursor's time. -/
def blendStep (a b : Clip) (next : AnimState) (s : State) : State :=
  let s := { s with blendAmount := s.blendAmount + blendRate }
  let s := { s with blendAmount := fmod s.blendAmount 1 }
  let s := s.play a (some b) s.animator.m_CurrentTime s.animator.m_CurrentTime2 s.blendAmount
  if s.blendAmount > 9 / 10 then
    let s := { s with blendAmount := 0 }
    let startTime := s.animator.m_CurrentTime2
    let s := s.play b none startTime 0 s.blendAmount
    { s with charState := next }
  else s

/-- The statement `switch (charState)`, lines 149-370. -/
def switchCharState (lib : Library) (k : Keys) (deltaTime : ℚ) (s : State) : State :=
  match s.charState with
  | .IDLE => caseIDLE lib k deltaTime s
  | .IDLE_WALK => blendStep .idleAnimation .walkAnimation .WALK s
  | .WALK => caseWALK lib k deltaTime s
  | .WALK_IDLE => blendStep .walkAnimation .idleAnimation .IDLE s
  | .IDLE_PUNCH => blendStep .idleAnimation .punchAnimation .PUNCH_IDLE s
  | .PUNCH_IDLE =>
    if s.animator.m_CurrentTime > 7 / 10 then
      blendStep .punchAnimation .idleAnimation .IDLE s
    else s
  | .IDLE_KICK => blendStep .idleAnimation .kickAnimation .KICK_IDLE s
  | .KICK_IDLE =>
    if s.animator.m_CurrentTime > 1 then
      blendStep .kickAnimation .idleAnimation .IDLE s
    else s
  | .IDLE_TALK => blendStep .idleAnimation .talkAnimation .TALK_IDLE s
  | .TALK_IDLE =>
    if s.animator.m_CurrentTime > 3 then
      blendStep .talkAnimation .idleAnimation .IDLE s
    else s

/-- The controller part of one iteration of the render loop, lines 137-370: the hotkeys,
then the state machine.  The record of calls starts empty. -/
def controllerStep (lib : Library) (k : Keys) (deltaTime : ℚ) (s : State) : State :=
  switchCharState lib k deltaTime (hotkeys k { s with calls := [] })

/-- One iteration of the render loop, lines 130-374: the controller step followed by
`animator.UpdateAnimation(deltaTime)`. -/
def frame (lib : Library) (k : Keys) (deltaTime : ℚ) (s : State) : State :=
  let s := controllerStep lib k deltaTime s
  { s with animator := lib.UpdateAnimation s.animator deltaTime }

/-- The state on entry to the render loop (lines 39-40 and 116-118): `Animator
animator(&idleAnimation)`, `charState = IDLE`, `blendAmount = 0.0f`, the character at the
origin with rotation `0`. -/
def initState : State :=
  { charState := .IDLE
    blendAmount := 0
    animator := ⟨.idleAnimation, none, 0, 0, 0⟩
    characterPosition := ⟨0, 0, 0⟩
    characterRotation := 0
    calls := [] }

/-- The states the loop can be in at a frame boundary: the initial state, and the result
of a frame run from such a state with any keys and any frame time. -/
inductive Reachable (lib : Library) : State → Prop where
  | init : Reachable lib initState
  | step (k : Keys) (deltaTime : ℚ) {s : State} :
      Reachable lib s → Reachable lib (frame lib k deltaTime s)

/-- No key pressed. -/
def noKeys : Keys :=
  ⟨false, false, false, false, false, false, false, false, false, false, false, false⟩

/-- Some arrow key is pressed: the condition of line 152. -/
def Keys.anyArrow (k : Keys) : Bool := k.KEY_UP || k.KEY_DOWN || k.KEY_LEFT || k.KEY_RIGHT

/-- Some numeric hotkey `1..5` is pressed. -/
def Keys.anyHotkey (k : Keys) : Bool := k.KEY_1 || k.KEY_2 || k.KEY_3 || k.KEY_4 || k.KEY_5

/-- A stand-in for `glm::normalize` to run the model on concrete inputs: the identity,
which is the normalisation on unit vectors. -/
def normalizeUnit (v : Vec3) : Vec3 := v

/-- A stand-in for `Animator::UpdateAnimation` to run the model on concrete inputs: both
cursors advance by the frame time. -/
def advanceCursors (a : Animator) (dt : ℚ) : Animator :=
  { a with m_CurrentTime := a.m_CurrentTime + dt, m_CurrentTime2 := a.m_CurrentTime2 + dt }

/-- The concrete library used to run the model. -/
def sampleLibrary : Library := ⟨normalizeUnit, advanceCursors⟩

/-- A controller state with the given `charState`, blend accumulator and primary cursor
time; everything else as in `initState`. -/
def stateAt (c : AnimState) (b t : ℚ) : State :=
  { initState with charState := c, blendAmount := b,
                   animator := { initState.animator with m_CurrentTime := t } }

/-- The eight blending states: the four Entering and the four Exiting states. -/
def AnimState.isBlending : AnimState → Bool
  | .IDLE => false
  | .WALK => false
  | _ => true

/-- The commit rule of a blending frame toward `target`: if the incremented and wrapped
blend factor exceeds `0.9` the frame ends in `target` with `blendAmount = 0`, and so not
in the state it started in; if it is at most `0.9` the frame ends in the state it
started in. -/
def CommitsAtThreshold (lib : Library) (k : Keys) (deltaTime : ℚ) (s : State)
    (target : AnimState) : Prop :=
  (9 / 10 < fmod (s.blendAmount + blendRate) 1 →
      (frame lib k deltaTime s).charState = target
        ∧ (frame lib k deltaTime s).blendAmount = 0
        ∧ (frame lib k deltaTime s).charState ≠ s.charState)
    ∧ (fmod (s.blendAmount + blendRate) 1 ≤ 9 / 10 →
      (frame lib k deltaTime s).charState = s.charState)

/-- The clip of the numeric hotkey when exactly one of the keys `1..5` is pressed. -/
def Keys.singleHotkey (k : Keys) : Option Clip :=
  match k.KEY_1, k.KEY_2, k.KEY_3, k.KEY_4, k.KEY_5 with
  | true, false, false, false, false => some .idleAnimation
  | false, true, false, false, false => some .walkAnimation
  | false, false, true, false, false => some .punchAnimation
  | false, false, false, true, false => some .kickAnimation
  | false, false, false, false, true => some .talkAnimation
  | _, _, _, _, _ => none

/-- A state in the middle of the exit blend from walk to idle: accumulator 0.88, walk
cursor at 2, idle (secondary) cursor at 1.25. -/
def exitingWalk : State :=
  { initState with
    charState := .WALK_IDLE
    blendAmount := 88 / 100
    animator := ⟨.walkAnimation, some .idleAnimation, 2, 5 / 4, 88 / 100⟩ }

/-- The range invariant of the controller: the accumulator `blendAmount` lies in
`[0, 0.9]` and every blend factor passed to `PlayAnimation` so far in the frame lies in
`[0, 1]`. -/
def State.InRange (s : State) : Prop :=
  (0 ≤ s.blendAmount ∧ s.blendAmount ≤ 9 / 10)
    ∧ ∀ c ∈ s.calls, 0 ≤ c.blend ∧ c.blend ≤ 1

/-- The state after one frame from the initial state with UP held: IDLE_WALK with the
accumulator at 0. -/
def enteringWalk : State :=
  frame sampleLibrary { noKeys with KEY_UP := true } 1 initState

/-- A state during a punch, past the 0.7 gate: PUNCH_IDLE with the exit blend at 0.88
and the punch cursor at 0.8. -/
def punching : State := stateAt .PUNCH_IDLE (88 / 100) (8 / 10)

/-- A state near the end of the entry blend from idle to walk: accumulator 0.88, idle
cursor at 2, walk (secondary) cursor at 1.25. -/
def enteringWalkLate : State :=
  { initState with
    charState := .IDLE_WALK
    blendAmount := 88 / 100
    animator := ⟨.idleAnimation, some .walkAnimation, 2, 5 / 4, 88 / 100⟩ }

/-- The post-commit state that each blending case of the switch assigns on commit
(`charState = ...`, lines 221, 276, 288, 301, 318, 331, 348, 361).  IDLE and WALK have no
blending block and are mapped to themselves. -/
def commitTarget : AnimState → AnimState
  | .IDLE_WALK => .WALK
  | .WALK_IDLE => .IDLE
  | .IDLE_PUNCH => .PUNCH_IDLE
  | .PUNCH_IDLE => .IDLE
  | .IDLE_KICK => .KICK_IDLE
  | .KICK_IDLE => .IDLE
  | .IDLE_TALK => .TALK_IDLE
  | .TALK_IDLE => .IDLE
  | .IDLE => .IDLE
  | .WALK => .WALK

/-- The frame with keys `k` run from `s` is a blending frame, one that executes a blending
block: `s` is in IDLE_WALK, WALK_IDLE, IDLE_PUNCH, IDLE_KICK or IDLE_TALK, or in
PUNCH_IDLE, KICK_IDLE or TALK_IDLE with the gate test of lines 293, 323, 353 succeeding
on the animator time the hotkeys leave. -/
def runsBlend (k : Keys) (s : State) : Bool :=
  match s.charState with
  | .IDLE => false
  | .WALK => false
  | .PUNCH_IDLE => decide (7 / 10 < (hotkeys k s).animator.m_CurrentTime)
  | .KICK_IDLE => decide (1 < (hotkeys k s).animator.m_CurrentTime)
  | .TALK_IDLE => decide (3 < (hotkeys k s).animator.m_CurrentTime)
  | _ => true

/-- Consecutive iterations of the render loop, one per entry of `inputs` (the keys and
the frame time of that iteration). -/
def run (lib : Library) : List (Keys × ℚ) → State → State
  | [], s => s
  | (k, deltaTime) :: rest, s => run lib rest (frame lib k deltaTime s)

/-- Every frame of the run of `inputs` from `s` is a blending frame. -/
def BlendingFrames (lib : Library) : List (Keys × ℚ) → State → Prop
  | [], _ => True
  | (k, deltaTime) :: rest, s =>
      runsBlend k s = true ∧ BlendingFrames lib rest (frame lib k deltaTime s)

/-- Component-wise difference, `glm::vec3 - glm::vec3`. -/
def Vec3.sub (a b : Vec3) : Vec3 := ⟨a.x - b.x, a.y - b.y, a.z - b.z⟩

/-- The dot product `glm::dot`; `v.dot v` is the square of `glm::length(v)`. -/
def Vec3.dot (a b : Vec3) : ℚ := a.x * b.x + a.y * b.y + a.z * b.z

end Assignment5

/-!
# Crossy-road game (Assignment4-Load-3D-model-camera-following-collision-detection/main.cpp)

A shallow embedding of the game logic: `processInput`, `updateCars`, `checkCollisions`,
`resetGame`, `spawnNewRow`, `canMoveTo`, and the game-state update and camera follow of
the render loop (lines 154-189).

Conventions of the embedding.

* `float` values are exact rationals and `int` values exact integers; a conversion of a
  `float` to `int` truncates toward zero.  The one place where the rounding of a `float`
  operation decides a result of the game, the number of cars of a road row, is modelled
  with the rounding (`toFloat32`).
* `glm::length(v) < c` for a positive constant `c` is the test `v . v < c * c`.
* `distribution(generator)` is a fixed sequence of values, `Game.generator`, of which
  `Game.drawn` have been consumed so far.
* `glfwGetKey` returns `GLFW_PRESS` or `GLFW_RELEASE`; a key is a `Bool`.  The `static`
  flags of `processInput` are fields of the game state.
* Of the camera only `camera.Position` feeds back into the game; yaw and pitch are left
  out, as are rendering and printing.
-/

namespace Assignment4

/-- The constant `MOVE_DISTANCE = 2.0f` (line 36). -/
def MOVE_DISTANCE : ℚ := 2

/-- The constant `CAR_SPEED = 10.0f` (line 37). -/
def CAR_SPEED : ℚ := 10

/-- The constant `GRID_WIDTH = 11` (line 38). -/
def GRID_WIDTH : ℤ := 11

/-- The constant `VISIBLE_ROWS = 15` (line 39). -/
def VISIBLE_ROWS : ℕ := 15

/-- The struct `Car` (lines 52-58). -/
structure Car where
  position : Assignment5.Vec3
  speed : ℚ
  lane : ℤ
  movingRight : Bool
  rowIndex : ℤ

/-- The struct `Tree` (lines 60-62). -/
structure Tree where
  position : Assignment5.Vec3

/-- One snapshot of `glfwGetKey(window, KEY) == GLFW_PRESS` for the keys `processInput`
polls (ESC only closes the window and is left out). -/
structure Input where
  KEY_W : Bool
  KEY_A : Bool
  KEY_S : Bool
  KEY_D : Bool
  KEY_R : Bool

/-- The game variables (lines 65-75), `camera.Position`, and the `static` flags of
`processInput` (lines 324-328). -/
structure Game where
  playerPosition : Assignment5.Vec3
  playerRotation : ℚ
  cars : List Car
  trees : List Tree
  roadRows : List ℤ
  playerScore : ℤ
  gameOver : Bool
  gameSpeed : ℚ
  furthestRow : ℤ
  cameraPosition : Assignment5.Vec3
  wPressed : Bool
  aPressed : Bool
  sPressed : Bool
  dPressed : Bool
  rPressed : Bool
  generator : ℕ → ℚ
  drawn : ℕ

/-- The value the next call `distribution(generator)` returns. -/
def Game.draw (g : Game) : ℚ := g.generator g.drawn

/-- The generator after one call `distribution(generator)`. -/
def Game.advance (g : Game) : Game := { g with drawn := g.drawn + 1 }

/-- The function `canMoveTo` (lines 635-645): no tree within horizontal distance
`TREE_COLLISION_DISTANCE = 1.5` of `newPosition`. -/
def canMoveTo (g : Game) (newPosition : Assignment5.Vec3) : Bool :=
  g.trees.all fun tree =>
    !decide ((newPosition.x - tree.position.x) * (newPosition.x - tree.position.x)
      + (newPosition.z - tree.position.z) * (newPosition.z - tree.position.z)
      < (3 / 2) * (3 / 2))

/-- Rounding of a rational to the nearest integer, ties to the even one: the rounding
mode of IEEE 754 arithmetic. -/
def roundNearestEven (q : ℚ) : ℤ :=
  if q - ⌊q⌋ < 1 / 2 then ⌊q⌋
  else if 1 / 2 < q - ⌊q⌋ then ⌊q⌋ + 1
  else if ⌊q⌋ % 2 = 0 then ⌊q⌋ else ⌊q⌋ + 1

/-- The spacing of the `float` values (IEEE 754 binary32, 24 significant bits) in the
binade of `x`: `2 ^ (e - 23)` for `2 ^ e ≤ |x| < 2 ^ (e + 1)`, and `2 ^ (-149)` below the
smallest normal number `2 ^ (-126)`. -/
def ulp32 (x : ℚ) : ℚ := (2 : ℚ) ^ (max (Int.log 2 |x|) (-126) - 23)

/-- The `float` nearest to `x`, ties to even: the result of a `float` operation whose
exact result is `x` (overflow to infinity left out). -/
def toFloat32 (x : ℚ) : ℚ := (roundNearestEven (x / ulp32 x) : ℚ) * ulp32 x

/-- The value `numCarsPerLane = 1 + (distribution(generator) * 2)` converted to `int`
(line 517).  The draw is a `float`, so the product and the sum are `float` operations:
the product by 2 is exact, the sum is rounded to the nearest `float`, and the conversion
to `int` truncates. -/
def numCarsPerLane (u : ℚ) : ℤ := Assignment5.trunc (toFloat32 (1 + u * 2))

/-- The value `numTrees = 1 + static_cast<int>(distribution(generator) * 3)` (line 544). -/
def numTrees (u : ℚ) : ℤ := 1 + Assignment5.trunc (u * 3)

/-- One iteration `i` of the car loop of `spawnNewRow` (lines 519-540). -/
def spawnCar (rowIndex : ℤ) (rowZ : ℚ) (movingRight : Bool) (g : Game) (i : ℕ) : Game :=
  let speed := CAR_SPEED * (7 / 10 + g.draw * (6 / 10))
  let g := g.advance
  let carSpacing := 6 + g.draw * 8
  let g := g.advance
  let x : ℚ :=
    if movingRight then -(GRID_WIDTH : ℚ) * MOVE_DISTANCE - 20 - (i : ℚ) * carSpacing
    else (GRID_WIDTH : ℚ) * MOVE_DISTANCE + 20 + (i : ℚ) * carSpacing
  let car : Car :=
    { position := ⟨x, 0, rowZ⟩
      speed := speed
      lane := rowIndex * 10
      movingRight := movingRight
      rowIndex := rowIndex }
  { g with cars := g.cars ++ [car] }

/-- One iteration of the tree loop of `spawnNewRow` (lines 546-557). -/
def spawnTree (rowZ : ℚ) (g : Game) (_i : ℕ) : Game :=
  let minX : ℚ := -(GRID_WIDTH : ℚ) * MOVE_DISTANCE * (8 / 10)
  let maxX : ℚ := (GRID_WIDTH : ℚ) * MOVE_DISTANCE * (8 / 10)
  let x := minX + g.draw * (maxX - minX)
  let g := g.advance
  { g with trees := g.trees ++ [⟨⟨x, -1 / 2, rowZ⟩⟩] }

/-- The function `spawnNewRow` (lines 503-563). -/
def spawnNewRow (g : Game) : Game :=
  let rowIndex : ℤ := g.roadRows.length
  let rowZ : ℚ := (rowIndex : ℚ) * MOVE_DISTANCE - 10
  let u := g.draw
  let g := g.advance
  if u < 1 / 2 then
    let movingRight := decide (g.draw < 1 / 2)
    let g := g.advance
    let n := numCarsPerLane g.draw
    let g := g.advance
    let g := (List.range n.toNat).foldl (spawnCar rowIndex rowZ movingRight) g
    { g with roadRows := g.roadRows ++ [1] }
  else
    let v := g.draw
    let g := g.advance
    if v < 4 / 10 then
      let n := numTrees g.draw
      let g := g.advance
      let g := (List.range n.toNat).foldl (spawnTree rowZ) g
      { g with roadRows := g.roadRows ++ [0] }
    else
      { g with roadRows := g.roadRows ++ [0] }

/-- The function `resetGame` (lines 478-501). -/
def resetGame (g : Game) : Game :=
  let g : Game :=
    { g with
      playerPosition := ⟨0, 0, -10⟩
      playerRotation := 0
      cars := []
      trees := []
      roadRows := []
      playerScore := 0
      gameOver := false
      gameSpeed := 1
      furthestRow := 0 }
  let g := { g with
    cameraPosition := ⟨g.playerPosition.x, g.playerPosition.y + 10, g.playerPosition.z - 6⟩ }
  Nat.iterate spawnNewRow (VISIBLE_ROWS * 2) g

/-- The body of the loop of `updateCars` (lines 448-458) for one car. -/
def updateCar (gameSpeed deltaTime : ℚ) (car : Car) : Car :=
  if car.movingRight then
    let x := car.position.x + car.speed * gameSpeed * deltaTime
    let x := if x > (GRID_WIDTH : ℚ) * MOVE_DISTANCE + 20 then
      -(GRID_WIDTH : ℚ) * MOVE_DISTANCE - 20 else x
    { car with position := { car.position with x := x } }
  else
    let x := car.position.x - car.speed * gameSpeed * deltaTime
    let x := if x < -(GRID_WIDTH : ℚ) * MOVE_DISTANCE - 20 then
      (GRID_WIDTH : ℚ) * MOVE_DISTANCE + 20 else x
    { car with position := { car.position with x := x } }

/-- The function `updateCars` (lines 446-460). -/
def updateCars (deltaTime : ℚ) (g : Game) : Game :=
  { g with cars := g.cars.map (updateCar g.gameSpeed deltaTime) }

/-- The function `checkCollisions` (lines 462-476): the game is over once some car is
within `COLLISION_DISTANCE = 1.0` of the player. -/
def checkCollisions (g : Game) : Game :=
  if g.cars.any (fun car =>
      decide ((g.playerPosition.sub car.position).dot (g.playerPosition.sub car.position)
        < 1 * 1)) then
    { g with gameOver := true }
  else g

/-- The W, S, A and D branches of `processInput` (lines 332-389), run when the game is
not over. -/
def processMoves (k : Input) (g : Game) : Game :=
  let g :=
    if k.KEY_W && !g.wPressed then
      let minZ := g.cameraPosition.z + 2
      let nextZ := g.playerPosition.z + MOVE_DISTANCE
      let newPos : Assignment5.Vec3 := ⟨g.playerPosition.x, g.playerPosition.y, nextZ⟩
      let g :=
        if decide (nextZ ≥ minZ) && canMoveTo g newPos then
          { g with playerPosition := { g.playerPosition with z := nextZ }, playerRotation := 0 }
        else g
      { g with wPressed := true }
    else g
  let g := if !k.KEY_W then { g with wPressed := false } else g
  let g :=
    if k.KEY_S && !g.sPressed then
      let minZ := g.cameraPosition.z + 2
      let newPos : Assignment5.Vec3 :=
        ⟨g.playerPosition.x, g.playerPosition.y, g.playerPosition.z - MOVE_DISTANCE⟩
      let g :=
        if decide (g.playerPosition.z - MOVE_DISTANCE ≥ minZ) && canMoveTo g newPos then
          { g with
            playerPosition := { g.playerPosition with z := g.playerPosition.z - MOVE_DISTANCE }
            playerRotation := 180 }
        else g
      { g with sPressed := true }
    else g
  let g := if !k.KEY_S then { g with sPressed := false } else g
  let g :=
    if k.KEY_A && !g.aPressed then
      let halfViewWidth : ℚ := 8
      let minX := g.cameraPosition.x - halfViewWidth
      let newPos : Assignment5.Vec3 :=
        ⟨g.playerPosition.x - MOVE_DISTANCE, g.playerPosition.y, g.playerPosition.z⟩
      let g :=
        if decide (g.playerPosition.x - MOVE_DISTANCE ≥ minX)
            && decide (g.playerPosition.x > -(GRID_WIDTH : ℚ) * MOVE_DISTANCE)
            && canMoveTo g newPos then
          { g with
            playerPosition := { g.playerPosition with x := g.playerPosition.x + MOVE_DISTANCE }
            playerRotation := 90 }
        else g
      { g with aPressed := true }
    else g
  let g := if !k.KEY_A then { g with aPressed := false } else g
  let g :=
    if k.KEY_D && !g.dPressed then
      let halfViewWidth : ℚ := 8
      let maxX := g.cameraPosition.x + halfViewWidth
      let newPos : Assignment5.Vec3 :=
        ⟨g.playerPosition.x + MOVE_DISTANCE, g.playerPosition.y, g.playerPosition.z⟩
      let g :=
        if decide (g.playerPosition.x + MOVE_DISTANCE ≤ maxX)
            && decide (g.playerPosition.x < (GRID_WIDTH : ℚ) * MOVE_DISTANCE)
            && canMoveTo g newPos then
          { g with
            playerPosition := { g.playerPosition with x := g.playerPosition.x - MOVE_DISTANCE }
            playerRotation := -90 }
        else g
      { g with dPressed := true }
    else g
  let g := if !k.KEY_D then { g with dPressed := false } else g
  g

/-- The function `processInput` (lines 318-403): the moves when the game is not over,
then the reset on a new press of R. -/
def processInput (k : Input) (g : Game) : Game :=
  let g := if !g.gameOver then processMoves k g else g
  let g := if k.KEY_R && !g.rPressed then { resetGame g with rPressed := true } else g
  let g := if !k.KEY_R then { g with rPressed := false } else g
  g

/-- The loop `while (currentRow + VISIBLE_ROWS >= roadRows.size()) spawnNewRow();`
(lines 170-172), with a bound on the number of iterations.  The comparison is made in
`size_t`, to which the `int` sum is converted modulo `2^64`. -/
def spawnLoop (currentRow : ℤ) : ℕ → Game → Game
  | 0, g => g
  | fuel + 1, g =>
    if (currentRow + (VISIBLE_ROWS : ℤ)) % 2 ^ 64 ≥ (g.roadRows.length : ℤ) then
      spawnLoop currentRow fuel (spawnNewRow g)
    else g

/-- The game-state update of the render loop (lines 157-173).  Each `spawnNewRow` adds
one row, so the loop runs once per row that is missing. -/
def gameUpdate (deltaTime : ℚ) (g : Game) : Game :=
  if !g.gameOver then
    let g := updateCars deltaTime g
    let g := checkCollisions g
    let currentRow : ℤ := Assignment5.trunc ((g.playerPosition.z + 10) / MOVE_DISTANCE)
    let g :=
      if currentRow > g.furthestRow then
        { g with furthestRow := currentRow, playerScore := currentRow,
                 gameSpeed := g.gameSpeed + 1 / 100 }
      else g
    spawnLoop currentRow
      (((currentRow + (VISIBLE_ROWS : ℤ)) % 2 ^ 64 + 1 - (g.roadRows.length : ℤ)).toNat) g
  else g

/-- The camera follow of the render loop (lines 177-189): `camera.Position` moves toward
the point above and behind the player by `glm::mix(x, y, a) = x * (1 - a) + y * a`, never
backwards in z. -/
def cameraFollow (deltaTime : ℚ) (g : Game) : Game :=
  let targetZ := g.playerPosition.z - 6
  let targetZ := if targetZ < g.cameraPosition.z then g.cameraPosition.z else targetZ
  let target : Assignment5.Vec3 := ⟨g.playerPosition.x, g.playerPosition.y + 10, targetZ⟩
  let a := (5 / 2) * deltaTime
  { g with cameraPosition := (g.cameraPosition.scale (1 - a)).add (target.scale a) }

/-- One iteration of the render loop, lines 148-189: `processInput`, the game-state
update, the camera follow. -/
def gameFrame (k : Input) (deltaTime : ℚ) (g : Game) : Game :=
  cameraFollow deltaTime (gameUpdate deltaTime (processInput k g))

/-- Consecutive iterations of the render loop, one per entry of `inputs`. -/
def runFrames : List (Input × ℚ) → Game → Game
  | [], g => g
  | (k, deltaTime) :: rest, g => runFrames rest (gameFrame k deltaTime g)

/-- The states of the world generator: reached from `resetGame`, run on any game state
whose generator yields values in `[0, 1)`, by calls of `spawnNewRow` and `updateCars`. -/
inductive Reached : Game → Prop where
  | reset (g : Game) (h : ∀ i, 0 ≤ g.generator i ∧ g.generator i < 1) : Reached (resetGame g)
  | spawn {g : Game} : Reached g → Reached (spawnNewRow g)
  | update (deltaTime : ℚ) {g : Game} : Reached g → Reached (updateCars deltaTime g)

/-- The road and safe-row invariant: `roadRows[r] = 1` exactly when some car has
`rowIndex = r`; every car has `y = 0` and `z = rowIndex * MOVE_DISTANCE - 10`; every tree
stands at `z = r * MOVE_DISTANCE - 10` for a row `r` with `roadRows[r] = 0`. -/
def RowInvariant (g : Game) : Prop :=
  (∀ r : ℕ, g.roadRows[r]? = some 1 ↔ ∃ car ∈ g.cars, car.rowIndex = (r : ℤ))
    ∧ (∀ car ∈ g.cars,
        car.position.y = 0 ∧ car.position.z = (car.rowIndex : ℚ) * MOVE_DISTANCE - 10)
    ∧ (∀ tree ∈ g.trees, ∃ r : ℕ,
        g.roadRows[r]? = some 0 ∧ tree.position.z = (r : ℚ) * MOVE_DISTANCE - 10)

/-- The state `g2` differs from `g` at most in what `spawnNewRow` writes: `cars`, `trees`,
`roadRows` and the number of values drawn. -/
def SpawnsOnly (g g2 : Game) : Prop :=
  ∃ cars trees roadRows drawn,
    g2 = { g with cars := cars, trees := trees, roadRows := roadRows, drawn := drawn }

/-- The four movement keys. -/
inductive MoveKey where
  | W
  | A
  | S
  | D
  deriving DecidableEq

/-- The state of a movement key in a snapshot. -/
def Input.pressed (k : Input) : MoveKey → Bool
  | .W => k.KEY_W
  | .A => k.KEY_A
  | .S => k.KEY_S
  | .D => k.KEY_D

/-- The `static` flag of a movement key (`wPressed`, `aPressed`, `sPressed`, `dPressed`). -/
def Game.pressedFlag (g : Game) : MoveKey → Bool
  | .W => g.wPressed
  | .A => g.aPressed
  | .S => g.sPressed
  | .D => g.dPressed

/-- The movement key `m` is pressed in the snapshot and no other movement key is. -/
def Input.onlyMove (k : Input) (m : MoveKey) : Prop :=
  ∀ m2 : MoveKey, k.pressed m2 = decide (m2 = m)

/-- A generator whose first values make row 0 a safe row with one tree at `x = 2`
(draws 0.9, 0.1, 0, 49/88) and every later row a safe row without trees (draws 0.9). -/
def treeDraws (i : ℕ) : ℚ :=
  if i = 1 then 1 / 10 else if i = 2 then 0 else if i = 3 then 49 / 88 else 9 / 10

/-- A game state before the first `resetGame`: the initial values of the globals (lines
65-73), the camera at its constructor position, no key seen yet, generator `treeDraws`. -/
def baseGame : Game :=
  { playerPosition := ⟨0, 0, -10⟩
    playerRotation := 0
    cars := []
    trees := []
    roadRows := []
    playerScore := 0
    gameOver := false
    gameSpeed := 1
    furthestRow := 0
    cameraPosition := ⟨0, 8, 8⟩
    wPressed := false
    aPressed := false
    sPressed := false
    dPressed := false
    rPressed := false
    generator := treeDraws
    drawn := 0 }

/-- The game after `resetGame()` in `main` (line 134) with the generator `treeDraws`:
thirty safe rows, one tree at `(2, -0.5, -10)` in row 0, no car. -/
def treeGame : Game := resetGame baseGame

/-- No key pressed. -/
def noInput : Input := ⟨false, false, false, false, false⟩

/-- Only W pressed. -/
def wHeld : Input := { noInput with KEY_W := true }

/-- W and R pressed. -/
def wHeldReset : Input := { noInput with KEY_W := true, KEY_R := true }

end Assignment4

/-!
# Sphere mesh (Assignment3-3D-Kinetic-sculpture-animation/main.cpp)

A shallow embedding of the two loops of `createSphereVAO` (lines 207-265) and of the
count it returns through `vertexCount`.

Conventions of the embedding.

* `sectorCount` and `stackCount` are natural numbers (with a negative count no loop body
  runs) and `int` arithmetic is exact; it is exact in C++ as long as
  `(stackCount + 1) * (sectorCount + 1)` fits an `int`.
* A value stored as `unsigned int` is reduced modulo `2^32`.
* `float` values are exact rationals; `glm::pi`, `cosf` and `sinf` are parameters.
-/

namespace Assignment3

/-- The conversion of an integer value to `unsigned int`. -/
def toUnsignedInt (n : ℕ) : ℕ := n % 2 ^ 32

/-- The local `float radius = 0.5f` (line 213). -/
def radius : ℚ := 1 / 2

/-- The vertex loop of `createSphereVAO` (lines 214-242): the contents of `vertices`,
eight floats for each pair of a stack `i <= stackCount` and a sector `j <= sectorCount`. -/
def sphereVertices (pi : ℚ) (cosf sinf : ℚ → ℚ) (sectorCount stackCount : ℕ) : List ℚ :=
  (List.range (stackCount + 1)).flatMap fun i =>
    let stackAngle := pi / 2 - (i : ℚ) * pi / (stackCount : ℚ)
    let xy := radius * cosf stackAngle
    let z := radius * sinf stackAngle
    (List.range (sectorCount + 1)).flatMap fun j =>
      let sectorAngle := (j : ℚ) * 2 * pi / (sectorCount : ℚ)
      let x := xy * cosf sectorAngle
      let y := xy * sinf sectorAngle
      let nx := x / radius
      let ny := y / radius
      let nz := z / radius
      let s := (j : ℚ) / (sectorCount : ℚ)
      let t := (i : ℚ) / (stackCount : ℚ)
      [x, y, z, nx, ny, nz, s, t]

/-- The body of the inner index loop (lines 248-261) at stack `i` and sector `j`, where
`k1 = i * (sectorCount + 1) + j` and `k2 = k1 + sectorCount + 1`, both having been
incremented `j` times. -/
def sphereQuad (sectorCount stackCount i j : ℕ) : List ℕ :=
  let k1 := i * (sectorCount + 1) + j
  let k2 := i * (sectorCount + 1) + sectorCount + 1 + j
  (if i ≠ 0 then [toUnsignedInt k1, toUnsignedInt k2, toUnsignedInt (k1 + 1)] else [])
    ++ (if i ≠ stackCount - 1 then
          [toUnsignedInt (k1 + 1), toUnsignedInt k2, toUnsignedInt (k2 + 1)] else [])

/-- The index loop of `createSphereVAO` (lines 244-263): the contents of `indices`. -/
def sphereIndices (sectorCount stackCount : ℕ) : List ℕ :=
  (List.range stackCount).flatMap fun i =>
    (List.range sectorCount).flatMap fun j => sphereQuad sectorCount stackCount i j

/-- The value `vertexCount = (unsigned int)indices.size()` (line 265) that
`createSphereVAO` returns through its reference parameter. -/
def createSphereVAO_vertexCount (sectorCount stackCount : ℕ) : ℕ :=
  toUnsignedInt (sphereIndices sectorCount stackCount).length

end Assignment3

namespace Assignment5

/-! ## Basic facts about the building blocks -/

@[simp] theorem play_charState (s : State) (a : Clip) (b : Option Clip) (t1 t2 f : ℚ) :
    (s.play a b t1 t2 f).charState = s.charState := rfl

@[simp] theorem play_blendAmount (s : State) (a : Clip) (b : Option Clip) (t1 t2 f : ℚ) :
    (s.play a b t1 t2 f).blendAmount = s.blendAmount := rfl

@[simp] theorem play_characterPosition (s : State) (a : Clip) (b : Option Clip) (t1 t2 f : ℚ) :
    (s.play a b t1 t2 f).characterPosition = s.characterPosition := rfl

@[simp] theorem play_characterRotation (s : State) (a : Clip) (b : Option Clip) (t1 t2 f : ℚ) :
    (s.play a b t1 t2 f).characterRotation = s.characterRotation := rfl

@[simp] theorem play_animator (s : State) (a : Clip) (b : Option Clip) (t1 t2 f : ℚ) :
    (s.play a b t1 t2 f).animator = ⟨a, b, t1, t2, f⟩ := rfl

@[simp] theorem play_calls (s : State) (a : Clip) (b : Option Clip) (t1 t2 f : ℚ) :
    (s.play a b t1 t2 f).calls = s.calls ++ [⟨a, b, t1, t2, f⟩] := rfl

@[simp] theorem hotkeys_charState (k : Keys) (s : State) :
    (hotkeys k s).charState = s.charState := by
  simp only [hotkeys]; split_ifs <;> rfl

@[simp] theorem hotkeys_blendAmount (k : Keys) (s : State) :
    (hotkeys k s).blendAmount = s.blendAmount := by
  simp only [hotkeys]; split_ifs <;> rfl

@[simp] theorem hotkeys_characterPosition (k : Keys) (s : State) :
    (hotkeys k s).characterPosition = s.characterPosition := by
  simp only [hotkeys]; split_ifs <;> rfl

@[simp] theorem hotkeys_characterRotation (k : Keys) (s : State) :
    (hotkeys k s).characterRotation = s.characterRotation := by
  simp only [hotkeys]; split_ifs <;> rfl

/-- A pressed hotkey leaves both cursors at `0`; without one the animator is untouched. -/
theorem hotkeys_time (k : Keys) (s : State) :
    (hotkeys k s).animator.m_CurrentTime
      = if k.anyHotkey then 0 else s.animator.m_CurrentTime := by
  rcases k with ⟨_, _, _, _, _, _, _, k1, k2, k3, k4, k5⟩
  cases k1 <;> cases k2 <;> cases k3 <;> cases k4 <;> cases k5 <;> rfl

theorem hotkeys_of_none (k : Keys) (s : State) (h : k.anyHotkey = false) :
    hotkeys k s = s := by
  rcases k with ⟨_, _, _, _, _, _, _, k1, k2, k3, k4, k5⟩
  cases k1 <;> cases k2 <;> cases k3 <;> cases k4 <;> cases k5 <;>
    first | rfl | simp [Keys.anyHotkey] at h

theorem idleMoveVars_isMoving (k : Keys) (r : ℚ) :
    (idleMoveVars k r).isMoving = k.anyArrow := by
  rcases k with ⟨u, d, l, r', _, _, _, _, _, _, _, _⟩
  cases u <;> cases d <;> cases l <;> cases r' <;> rfl

theorem walkMoveVars_isMoving (k : Keys) (r : ℚ) :
    (walkMoveVars k r).isMoving = k.anyArrow := by
  rcases k with ⟨u, d, l, r', _, _, _, _, _, _, _, _⟩
  cases u <;> cases d <;> cases l <;> cases r' <;> rfl

@[simp] theorem applyMove_charState (lib : Library) (m : MoveVars) (dt : ℚ) (s : State) :
    (applyMove lib m dt s).charState = s.charState := by
  simp only [applyMove]; split_ifs <;> rfl

@[simp] theorem applyMove_blendAmount (lib : Library) (m : MoveVars) (dt : ℚ) (s : State) :
    (applyMove lib m dt s).blendAmount = s.blendAmount := by
  simp only [applyMove]; split_ifs <;> rfl

@[simp] theorem applyMove_calls (lib : Library) (m : MoveVars) (dt : ℚ) (s : State) :
    (applyMove lib m dt s).calls = s.calls := by
  simp only [applyMove]; split_ifs <;> rfl

@[simp] theorem applyMove_animator (lib : Library) (m : MoveVars) (dt : ℚ) (s : State) :
    (applyMove lib m dt s).animator = s.animator := by
  simp only [applyMove]; split_ifs <;> rfl

@[simp] theorem frame_charState (lib : Library) (k : Keys) (dt : ℚ) (s : State) :
    (frame lib k dt s).charState = (controllerStep lib k dt s).charState := rfl

@[simp] theorem frame_blendAmount (lib : Library) (k : Keys) (dt : ℚ) (s : State) :
    (frame lib k dt s).blendAmount = (controllerStep lib k dt s).blendAmount := rfl

@[simp] theorem frame_calls (lib : Library) (k : Keys) (dt : ℚ) (s : State) :
    (frame lib k dt s).calls = (controllerStep lib k dt s).calls := rfl

@[simp] theorem frame_characterPosition (lib : Library) (k : Keys) (dt : ℚ) (s : State) :
    (frame lib k dt s).characterPosition = (controllerStep lib k dt s).characterPosition := rfl

theorem switchCharState_IDLE (lib : Library) (k : Keys) (dt : ℚ) (s : State)
    (h : s.charState = .IDLE) : switchCharState lib k dt s = caseIDLE lib k dt s := by
  simp only [switchCharState, h]

theorem switchCharState_WALK (lib : Library) (k : Keys) (dt : ℚ) (s : State)
    (h : s.charState = .WALK) : switchCharState lib k dt s = caseWALK lib k dt s := by
  simp only [switchCharState, h]

theorem switchCharState_IDLE_WALK (lib : Library) (k : Keys) (dt : ℚ) (s : State)
    (h : s.charState = .IDLE_WALK) :
    switchCharState lib k dt s = blendStep .idleAnimation .walkAnimation .WALK s := by
  simp only [switchCharState, h]

theorem switchCharState_WALK_IDLE (lib : Library) (k : Keys) (dt : ℚ) (s : State)
    (h : s.charState = .WALK_IDLE) :
    switchCharState lib k dt s = blendStep .walkAnimation .idleAnimation .IDLE s := by
  simp only [switchCharState, h]

theorem switchCharState_IDLE_PUNCH (lib : Library) (k : Keys) (dt : ℚ) (s : State)
    (h : s.charState = .IDLE_PUNCH) :
    switchCharState lib k dt s = blendStep .idleAnimation .punchAnimation .PUNCH_IDLE s := by
  simp only [switchCharState, h]

theorem switchCharState_IDLE_KICK (lib : Library) (k : Keys) (dt : ℚ) (s : State)
    (h : s.charState = .IDLE_KICK) :
    switchCharState lib k dt s = blendStep .idleAnimation .kickAnimation .KICK_IDLE s := by
  simp only [switchCharState, h]

theorem switchCharState_IDLE_TALK (lib : Library) (k : Keys) (dt : ℚ) (s : State)
    (h : s.charState = .IDLE_TALK) :
    switchCharState lib k dt s = blendStep .idleAnimation .talkAnimation .TALK_IDLE s := by
  simp only [switchCharState, h]

theorem switchCharState_PUNCH_IDLE (lib : Library) (k : Keys) (dt : ℚ) (s : State)
    (h : s.charState = .PUNCH_IDLE) :
    switchCharState lib k dt s
      = if s.animator.m_CurrentTime > 7 / 10 then
          blendStep .punchAnimation .idleAnimation .IDLE s else s := by
  simp only [switchCharState, h]

theorem switchCharState_KICK_IDLE (lib : Library) (k : Keys) (dt : ℚ) (s : State)
    (h : s.charState = .KICK_IDLE) :
    switchCharState lib k dt s
      = if s.animator.m_CurrentTime > 1 then
          blendStep .kickAnimation .idleAnimation .IDLE s else s := by
  simp only [switchCharState, h]

theorem switchCharState_TALK_IDLE (lib : Library) (k : Keys) (dt : ℚ) (s : State)
    (h : s.charState = .TALK_IDLE) :
    switchCharState lib k dt s
      = if s.animator.m_CurrentTime > 3 then
          blendStep .talkAnimation .idleAnimation .IDLE s else s := by
  simp only [switchCharState, h]

theorem trunc_of_nonneg_lt_one (x : ℚ) (h0 : 0 ≤ x) (h1 : x < 1) : trunc x = 0 := by
  unfold trunc
  rw [if_pos h0]
  exact Int.floor_eq_zero_iff.mpr ⟨h0, h1⟩

/-- Below `1` the wrap `fmod(x, 1.0f)` does nothing. -/
theorem fmod_one_of_lt (x : ℚ) (h0 : 0 ≤ x) (h1 : x < 1) : fmod x 1 = x := by
  unfold fmod
  rw [div_one, trunc_of_nonneg_lt_one x h0 h1]
  simp

/-- The commit branch of the blending block. -/
theorem blendStep_commit (a b : Clip) (next : AnimState) (s : State)
    (h : 9 / 10 < fmod (s.blendAmount + blendRate) 1) :
    blendStep a b next s =
      { charState := next
        blendAmount := 0
        animator := ⟨b, none, s.animator.m_CurrentTime2, 0, 0⟩
        characterPosition := s.characterPosition
        characterRotation := s.characterRotation
        calls := s.calls ++
          [⟨a, some b, s.animator.m_CurrentTime, s.animator.m_CurrentTime2,
              fmod (s.blendAmount + blendRate) 1⟩,
            ⟨b, none, s.animator.m_CurrentTime2, 0, 0⟩] } := by
  simp [blendStep, State.play, Animator.PlayAnimation, h]

/-- The non-commit branch of the blending block. -/
theorem blendStep_hold (a b : Clip) (next : AnimState) (s : State)
    (h : fmod (s.blendAmount + blendRate) 1 ≤ 9 / 10) :
    blendStep a b next s =
      { charState := s.charState
        blendAmount := fmod (s.blendAmount + blendRate) 1
        animator := ⟨a, some b, s.animator.m_CurrentTime, s.animator.m_CurrentTime2,
          fmod (s.blendAmount + blendRate) 1⟩
        characterPosition := s.characterPosition
        characterRotation := s.characterRotation
        calls := s.calls ++
          [⟨a, some b, s.animator.m_CurrentTime, s.animator.m_CurrentTime2,
              fmod (s.blendAmount + blendRate) 1⟩] } := by
  simp [blendStep, State.play, Animator.PlayAnimation, not_lt.mpr h]

/-- The cursors after the hotkeys do not depend on the record of calls. -/
theorem hotkeys_animator_calls (k : Keys) (s : State) (l : List PlayCall) :
    (hotkeys k { s with calls := l }).animator = (hotkeys k s).animator := by
  rcases k with ⟨_, _, _, _, _, _, _, k1, k2, k3, k4, k5⟩
  cases k1 <;> cases k2 <;> cases k3 <;> cases k4 <;> cases k5 <;> rfl

/-- A frame whose switch runs the blending block toward `target` obeys the commit rule. -/
theorem commitsAtThreshold_of_blendStep (lib : Library) (k : Keys) (dt : ℚ) (s : State)
    (a b : Clip) (target : AnimState) (hne : target ≠ s.charState)
    (h : controllerStep lib k dt s
      = blendStep a b target (hotkeys k { s with calls := [] })) :
    CommitsAtThreshold lib k dt s target := by
  unfold CommitsAtThreshold
  simp only [frame_charState, frame_blendAmount, h]
  constructor
  · intro hf
    rw [blendStep_commit a b target _ (by simpa using hf)]
    exact ⟨rfl, rfl, hne⟩
  · intro hf
    rw [blendStep_hold a b target _ (by simpa using hf)]
    simp

/-! ## Tie-break in IDLE -/

/-- C1. Priority tie-break: a frame that starts in IDLE with at least one arrow key
pressed ends in IDLE_WALK whatever J, K, T (and every other key) are; it never ends in
IDLE_PUNCH, IDLE_KICK or IDLE_TALK. -/
theorem idle_arrow_tie_break (lib : Library) (k : Keys) (deltaTime : ℚ) (s : State)
    (hs : s.charState = .IDLE)
    (hk : k.KEY_UP = true ∨ k.KEY_DOWN = true ∨ k.KEY_LEFT = true ∨ k.KEY_RIGHT = true) :
    (frame lib k deltaTime s).charState = .IDLE_WALK
      ∧ (frame lib k deltaTime s).charState ≠ .IDLE_PUNCH
      ∧ (frame lib k deltaTime s).charState ≠ .IDLE_KICK
      ∧ (frame lib k deltaTime s).charState ≠ .IDLE_TALK := by
  have hc : (hotkeys k { s with calls := [] }).charState = .IDLE := by simpa using hs
  have hcond : (k.KEY_UP || k.KEY_DOWN || k.KEY_LEFT || k.KEY_RIGHT) = true := by
    rcases hk with h | h | h | h <;> simp [h]
  have h : (frame lib k deltaTime s).charState = .IDLE_WALK := by
    simp only [frame_charState, controllerStep, switchCharState_IDLE lib k deltaTime _ hc,
      caseIDLE, hcond, if_true]
  rw [h]
  exact ⟨rfl, by decide, by decide, by decide⟩

/-- Witness for C1: UP together with J, K and T, from the initial state. -/
theorem idle_arrow_tie_break_witness :
    (frame sampleLibrary
        { noKeys with KEY_UP := true, KEY_J := true, KEY_K := true, KEY_T := true } 1
        initState).charState = .IDLE_WALK :=
  (idle_arrow_tie_break sampleLibrary
    { noKeys with KEY_UP := true, KEY_J := true, KEY_K := true, KEY_T := true } 1 initState
    rfl (Or.inl rfl)).1

/-! ## The minimum-duration gate -/

theorem switchCharState_gate_closed (lib : Library) (k : Keys) (dt : ℚ) (s : State)
    (h : (s.charState = .PUNCH_IDLE ∧ s.animator.m_CurrentTime ≤ 7 / 10)
      ∨ (s.charState = .KICK_IDLE ∧ s.animator.m_CurrentTime ≤ 1)
      ∨ (s.charState = .TALK_IDLE ∧ s.animator.m_CurrentTime ≤ 3)) :
    switchCharState lib k dt s = s := by
  rcases h with ⟨hc, ht⟩ | ⟨hc, ht⟩ | ⟨hc, ht⟩
  · rw [switchCharState_PUNCH_IDLE lib k dt s hc, if_neg (not_lt.mpr ht)]
  · rw [switchCharState_KICK_IDLE lib k dt s hc, if_neg (not_lt.mpr ht)]
  · rw [switchCharState_TALK_IDLE lib k dt s hc, if_neg (not_lt.mpr ht)]

theorem hotkeys_time_le (k : Keys) (s : State) (c : ℚ) (hc : 0 ≤ c)
    (h : s.animator.m_CurrentTime < c) : (hotkeys k s).animator.m_CurrentTime ≤ c := by
  rw [hotkeys_time]
  split_ifs
  · exact hc
  · exact le_of_lt h

/-- C2. Minimum-duration gate: a frame that starts in PUNCH_IDLE (resp. KICK_IDLE,
TALK_IDLE) with the animator's current time below 0.7 (resp. 1.0, 3.0) leaves charState
and blendAmount unchanged, and its state-machine step issues no clip request: the
switch returns the state it received, so the calls of the frame are those of the
hotkeys alone and the exit blend does not start. -/
theorem gate_closed_no_exit (lib : Library) (k : Keys) (deltaTime : ℚ) (s : State)
    (h : (s.charState = .PUNCH_IDLE ∧ s.animator.m_CurrentTime < 7 / 10)
      ∨ (s.charState = .KICK_IDLE ∧ s.animator.m_CurrentTime < 1)
      ∨ (s.charState = .TALK_IDLE ∧ s.animator.m_CurrentTime < 3)) :
    (frame lib k deltaTime s).charState = s.charState
      ∧ (frame lib k deltaTime s).blendAmount = s.blendAmount
      ∧ switchCharState lib k deltaTime (hotkeys k { s with calls := [] })
          = hotkeys k { s with calls := [] }
      ∧ (frame lib k deltaTime s).calls = (hotkeys k { s with calls := [] }).calls := by
  have hsw : switchCharState lib k deltaTime (hotkeys k { s with calls := [] })
      = hotkeys k { s with calls := [] } := by
    apply switchCharState_gate_closed
    rcases h with ⟨hc, ht⟩ | ⟨hc, ht⟩ | ⟨hc, ht⟩
    · exact Or.inl ⟨by simpa using hc, hotkeys_time_le k _ _ (by norm_num) ht⟩
    · exact Or.inr (Or.inl ⟨by simpa using hc, hotkeys_time_le k _ _ (by norm_num) ht⟩)
    · exact Or.inr (Or.inr ⟨by simpa using hc, hotkeys_time_le k _ _ (by norm_num) ht⟩)
  refine ⟨?_, ?_, hsw, ?_⟩
  · simp only [frame_charState, controllerStep, hsw, hotkeys_charState]
  · simp only [frame_blendAmount, controllerStep, hsw, hotkeys_blendAmount]
  · simp only [frame_calls, controllerStep, hsw]

/-- Witness for C2: PUNCH_IDLE at cursor time 0.5 with blend accumulator 0.11. -/
theorem gate_closed_no_exit_witness :
    (frame sampleLibrary noKeys 1 (stateAt .PUNCH_IDLE (11 / 100) (1 / 2))).charState
        = .PUNCH_IDLE
      ∧ (frame sampleLibrary noKeys 1 (stateAt .PUNCH_IDLE (11 / 100) (1 / 2))).blendAmount
        = 11 / 100
      ∧ (frame sampleLibrary noKeys 1 (stateAt .PUNCH_IDLE (11 / 100) (1 / 2))).calls = [] := by
  have h := gate_closed_no_exit sampleLibrary noKeys 1 (stateAt .PUNCH_IDLE (11 / 100) (1 / 2))
    (Or.inl ⟨rfl, by norm_num [stateAt]⟩)
  exact ⟨h.1, h.2.1, h.2.2.2⟩

/-! ## Leaving WALK -/

/-- C7. Walk exit: a frame that starts in WALK ends in WALK_IDLE with blendAmount reset
to 0 if no arrow key is pressed in that frame, and stays in WALK if at least one arrow
key is pressed. -/
theorem walk_exit (lib : Library) (k : Keys) (deltaTime : ℚ) (s : State)
    (hs : s.charState = .WALK) :
    (k.anyArrow = false →
        (frame lib k deltaTime s).charState = .WALK_IDLE
          ∧ (frame lib k deltaTime s).blendAmount = 0)
      ∧ (k.anyArrow = true → (frame lib k deltaTime s).charState = .WALK) := by
  have hc : (hotkeys k { s with calls := [] }).charState = .WALK := by simpa using hs
  simp only [frame_charState, frame_blendAmount, controllerStep,
    switchCharState_WALK lib k deltaTime _ hc, caseWALK, walkMoveVars_isMoving]
  constructor
  · intro hk
    simp [hk]
  · intro hk
    simp [hk, hs]

/-- Witness for C7: from WALK, releasing every key exits, holding LEFT stays. -/
theorem walk_exit_witness :
    ((frame sampleLibrary noKeys 1 (stateAt .WALK 0 0)).charState = .WALK_IDLE
        ∧ (frame sampleLibrary noKeys 1 (stateAt .WALK 0 0)).blendAmount = 0)
      ∧ (frame sampleLibrary { noKeys with KEY_LEFT := true } 1 (stateAt .WALK 0 0)).charState
        = .WALK :=
  ⟨(walk_exit sampleLibrary noKeys 1 (stateAt .WALK 0 0) rfl).1 rfl,
   (walk_exit sampleLibrary { noKeys with KEY_LEFT := true } 1 (stateAt .WALK 0 0) rfl).2 rfl⟩

/-! ## The commit threshold -/

/-- C3. Commit threshold: in each blending state (IDLE_WALK, WALK_IDLE, IDLE_PUNCH,
IDLE_KICK, IDLE_TALK, and PUNCH_IDLE, KICK_IDLE, TALK_IDLE once the gate test on the
animator's current time succeeds), a frame whose incremented blend factor exceeds 0.9
ends in the post-transition state (WALK, IDLE, PUNCH_IDLE, KICK_IDLE, TALK_IDLE, IDLE)
with blendAmount 0 and not in the same blending state; a frame whose incremented factor
is at most 0.9 keeps the state. -/
theorem commit_threshold (lib : Library) (k : Keys) (deltaTime : ℚ) (s : State) :
    (s.charState = .IDLE_WALK → CommitsAtThreshold lib k deltaTime s .WALK)
      ∧ (s.charState = .WALK_IDLE → CommitsAtThreshold lib k deltaTime s .IDLE)
      ∧ (s.charState = .IDLE_PUNCH → CommitsAtThreshold lib k deltaTime s .PUNCH_IDLE)
      ∧ (s.charState = .IDLE_KICK → CommitsAtThreshold lib k deltaTime s .KICK_IDLE)
      ∧ (s.charState = .IDLE_TALK → CommitsAtThreshold lib k deltaTime s .TALK_IDLE)
      ∧ (s.charState = .PUNCH_IDLE → 7 / 10 < (hotkeys k s).animator.m_CurrentTime →
          CommitsAtThreshold lib k deltaTime s .IDLE)
      ∧ (s.charState = .KICK_IDLE → 1 < (hotkeys k s).animator.m_CurrentTime →
          CommitsAtThreshold lib k deltaTime s .IDLE)
      ∧ (s.charState = .TALK_IDLE → 3 < (hotkeys k s).animator.m_CurrentTime →
          CommitsAtThreshold lib k deltaTime s .IDLE) := by
  refine ⟨?_, ?_, ?_, ?_, ?_, ?_, ?_, ?_⟩
  · intro hs
    refine commitsAtThreshold_of_blendStep lib k deltaTime s .idleAnimation .walkAnimation _
      (by rw [hs]; decide) ?_
    exact switchCharState_IDLE_WALK lib k deltaTime _ (by simpa using hs)
  · intro hs
    refine commitsAtThreshold_of_blendStep lib k deltaTime s .walkAnimation .idleAnimation _
      (by rw [hs]; decide) ?_
    exact switchCharState_WALK_IDLE lib k deltaTime _ (by simpa using hs)
  · intro hs
    refine commitsAtThreshold_of_blendStep lib k deltaTime s .idleAnimation .punchAnimation _
      (by rw [hs]; decide) ?_
    exact switchCharState_IDLE_PUNCH lib k deltaTime _ (by simpa using hs)
  · intro hs
    refine commitsAtThreshold_of_blendStep lib k deltaTime s .idleAnimation .kickAnimation _
      (by rw [hs]; decide) ?_
    exact switchCharState_IDLE_KICK lib k deltaTime _ (by simpa using hs)
  · intro hs
    refine commitsAtThreshold_of_blendStep lib k deltaTime s .idleAnimation .talkAnimation _
      (by rw [hs]; decide) ?_
    exact switchCharState_IDLE_TALK lib k deltaTime _ (by simpa using hs)
  · intro hs hg
    refine commitsAtThreshold_of_blendStep lib k deltaTime s .punchAnimation .idleAnimation _
      (by rw [hs]; decide) ?_
    rw [controllerStep, switchCharState_PUNCH_IDLE lib k deltaTime _ (by simpa using hs),
      if_pos (by rw [hotkeys_animator_calls]; exact hg)]
  · intro hs hg
    refine commitsAtThreshold_of_blendStep lib k deltaTime s .kickAnimation .idleAnimation _
      (by rw [hs]; decide) ?_
    rw [controllerStep, switchCharState_KICK_IDLE lib k deltaTime _ (by simpa using hs),
      if_pos (by rw [hotkeys_animator_calls]; exact hg)]
  · intro hs hg
    refine commitsAtThreshold_of_blendStep lib k deltaTime s .talkAnimation .idleAnimation _
      (by rw [hs]; decide) ?_
    rw [controllerStep, switchCharState_TALK_IDLE lib k deltaTime _ (by simpa using hs),
      if_pos (by rw [hotkeys_animator_calls]; exact hg)]

/-- Witness for C3: IDLE_WALK at 0.88 commits to WALK (0.935 > 0.9), and PUNCH_IDLE at
0.11 with the gate open at cursor time 0.8 keeps its state (0.165 <= 0.9). -/
theorem commit_threshold_witness :
    ((frame sampleLibrary noKeys 1 (stateAt .IDLE_WALK (88 / 100) 0)).charState = .WALK
        ∧ (frame sampleLibrary noKeys 1 (stateAt .IDLE_WALK (88 / 100) 0)).blendAmount = 0)
      ∧ (frame sampleLibrary noKeys 1 (stateAt .PUNCH_IDLE (11 / 100) (8 / 10))).charState
        = .PUNCH_IDLE := by
  have h1 := ((commit_threshold sampleLibrary noKeys 1 (stateAt .IDLE_WALK (88 / 100) 0)).1
    rfl).1 (by norm_num [stateAt, blendRate, fmod, trunc])
  have h2 := ((commit_threshold sampleLibrary noKeys 1
    (stateAt .PUNCH_IDLE (11 / 100) (8 / 10))).2.2.2.2.2.1 rfl
    (by norm_num [hotkeys_time, Keys.anyHotkey, noKeys, stateAt, initState])).2
    (by norm_num [stateAt, blendRate, fmod, trunc])
  exact ⟨⟨h1.1, h1.2.1⟩, h2⟩

/-! ## Idle-phase continuity -/

/-- When the blending block toward IDLE, run from a state other than IDLE, ends in IDLE,
it committed: its last call plays clip `b` alone from the secondary cursor's time. -/
theorem blendStep_to_IDLE (a b : Clip) (s : State) (hs : s.charState ≠ .IDLE)
    (hc : (blendStep a b .IDLE s).charState = .IDLE) :
    (blendStep a b .IDLE s).calls.getLast? = some ⟨b, none, s.animator.m_CurrentTime2, 0, 0⟩
      ∧ (blendStep a b .IDLE s).animator = ⟨b, none, s.animator.m_CurrentTime2, 0, 0⟩ := by
  by_cases hf : 9 / 10 < fmod (s.blendAmount + blendRate) 1
  · rw [blendStep_commit a b .IDLE s hf]
    simp
  · rw [blendStep_hold a b .IDLE s (not_lt.mp hf)] at hc
    exact absurd hc hs

/-- C4. Idle-phase continuity: with PlayAnimation storing its five arguments, for every
Exiting commit (a frame from WALK_IDLE, PUNCH_IDLE, KICK_IDLE or TALK_IDLE that ends in
IDLE) the final clip request of the frame is the idle clip alone, started at the time
the secondary (idle) cursor has at the moment of commit, which is what the animator then
holds; without a hotkey in the frame that is the secondary cursor's time at the start of
the frame. -/
theorem exit_commit_keeps_idle_phase (lib : Library) (k : Keys) (deltaTime : ℚ) (s : State)
    (hs : s.charState = .WALK_IDLE ∨ s.charState = .PUNCH_IDLE ∨ s.charState = .KICK_IDLE
      ∨ s.charState = .TALK_IDLE)
    (hc : (frame lib k deltaTime s).charState = .IDLE) :
    (frame lib k deltaTime s).calls.getLast?
        = some ⟨.idleAnimation, none, (hotkeys k s).animator.m_CurrentTime2, 0, 0⟩
      ∧ (controllerStep lib k deltaTime s).animator
        = ⟨.idleAnimation, none, (hotkeys k s).animator.m_CurrentTime2, 0, 0⟩
      ∧ (k.anyHotkey = false →
          (hotkeys k s).animator.m_CurrentTime2 = s.animator.m_CurrentTime2) := by
  have hlast : ∀ a : Clip,
      controllerStep lib k deltaTime s
        = blendStep a .idleAnimation .IDLE (hotkeys k { s with calls := [] }) →
      (frame lib k deltaTime s).calls.getLast?
          = some ⟨.idleAnimation, none, (hotkeys k s).animator.m_CurrentTime2, 0, 0⟩
        ∧ (controllerStep lib k deltaTime s).animator
          = ⟨.idleAnimation, none, (hotkeys k s).animator.m_CurrentTime2, 0, 0⟩ := by
    intro a h
    have hne : (hotkeys k { s with calls := [] }).charState ≠ .IDLE := by
      rcases hs with h' | h' | h' | h' <;> simp [h']
    rw [frame_charState, h] at hc
    have := blendStep_to_IDLE a .idleAnimation _ hne hc
    rw [hotkeys_animator_calls] at this
    rw [frame_calls, h]
    exact this
  have hclosed : controllerStep lib k deltaTime s = hotkeys k { s with calls := [] } →
      False := by
    intro h
    rw [frame_charState, h, hotkeys_charState] at hc
    rcases hs with h' | h' | h' | h' <;> simp [h'] at hc
  have hall : (frame lib k deltaTime s).calls.getLast?
          = some ⟨.idleAnimation, none, (hotkeys k s).animator.m_CurrentTime2, 0, 0⟩
        ∧ (controllerStep lib k deltaTime s).animator
          = ⟨.idleAnimation, none, (hotkeys k s).animator.m_CurrentTime2, 0, 0⟩ := by
    rcases hs with h' | h' | h' | h'
    · exact hlast .walkAnimation
        (switchCharState_WALK_IDLE lib k deltaTime _ (by simpa using h'))
    · have hsw := switchCharState_PUNCH_IDLE lib k deltaTime
        (hotkeys k { s with calls := [] }) (by simpa using h')
      by_cases hg : (hotkeys k { s with calls := [] }).animator.m_CurrentTime > 7 / 10
      · rw [if_pos hg] at hsw
        exact hlast .punchAnimation hsw
      · rw [if_neg hg] at hsw
        exact (hclosed hsw).elim
    · have hsw := switchCharState_KICK_IDLE lib k deltaTime
        (hotkeys k { s with calls := [] }) (by simpa using h')
      by_cases hg : (hotkeys k { s with calls := [] }).animator.m_CurrentTime > 1
      · rw [if_pos hg] at hsw
        exact hlast .kickAnimation hsw
      · rw [if_neg hg] at hsw
        exact (hclosed hsw).elim
    · have hsw := switchCharState_TALK_IDLE lib k deltaTime
        (hotkeys k { s with calls := [] }) (by simpa using h')
      by_cases hg : (hotkeys k { s with calls := [] }).animator.m_CurrentTime > 3
      · rw [if_pos hg] at hsw
        exact hlast .talkAnimation hsw
      · rw [if_neg hg] at hsw
        exact (hclosed hsw).elim
  exact ⟨hall.1, hall.2, fun hk => by rw [hotkeys_of_none k s hk]⟩

/-- The frame run from `exitingWalk` with no key pressed commits to IDLE. -/
theorem exitingWalk_commits : (frame sampleLibrary noKeys 1 exitingWalk).charState = .IDLE := by
  have h : controllerStep sampleLibrary noKeys 1 exitingWalk
      = blendStep .walkAnimation .idleAnimation .IDLE
          (hotkeys noKeys { exitingWalk with calls := [] }) :=
    switchCharState_WALK_IDLE sampleLibrary noKeys 1 _ rfl
  rw [frame_charState, h, blendStep_commit]
  norm_num [exitingWalk, initState, blendRate, fmod, trunc]

/-- Witness for C4: the exit commit from `exitingWalk`, whose idle cursor is at 1.25,
requests the idle clip alone from time 1.25. -/
theorem exit_commit_keeps_idle_phase_witness :
    (frame sampleLibrary noKeys 1 exitingWalk).calls.getLast?
      = some ⟨.idleAnimation, none, 5 / 4, 0, 0⟩ :=
  (exit_commit_keeps_idle_phase sampleLibrary noKeys 1 exitingWalk (Or.inl rfl)
    exitingWalk_commits).1

/-! ## The range invariant -/

theorem inRange_play (s : State) (a : Clip) (b : Option Clip) (t1 t2 f : ℚ)
    (h : s.InRange) (h0 : 0 ≤ f) (h1 : f ≤ 1) : (s.play a b t1 t2 f).InRange := by
  refine ⟨h.1, ?_⟩
  intro c hc
  rw [play_calls, List.mem_append, List.mem_singleton] at hc
  rcases hc with hc | hc
  · exact h.2 c hc
  · subst hc
    exact ⟨h0, h1⟩

theorem inRange_hotkeys (k : Keys) (s : State) (h : s.InRange) : (hotkeys k s).InRange := by
  have step : ∀ (b : Bool) (a : Clip) (t : State), t.InRange →
      (if b then t.play a none 0 0 0 else t).InRange := by
    intro b a t ht
    split_ifs
    · exact inRange_play t a none 0 0 0 ht le_rfl zero_le_one
    · exact ht
  unfold hotkeys
  exact step _ _ _ (step _ _ _ (step _ _ _ (step _ _ _ (step _ _ _ h))))

theorem inRange_applyMove (lib : Library) (m : MoveVars) (dt : ℚ) (s : State)
    (h : s.InRange) : (applyMove lib m dt s).InRange := by
  unfold State.InRange
  rw [applyMove_blendAmount, applyMove_calls]
  exact h

/-- Within the range the increment stays below `1`, so the wrap leaves it alone. -/
theorem fmod_increment (b : ℚ) (h0 : 0 ≤ b) (h1 : b ≤ 9 / 10) :
    fmod (b + blendRate) 1 = b + blendRate := by
  apply fmod_one_of_lt <;> unfold blendRate <;> linarith

theorem inRange_blendStep (a b : Clip) (next : AnimState) (s : State) (h : s.InRange) :
    (blendStep a b next s).InRange := by
  have hf := fmod_increment s.blendAmount h.1.1 h.1.2
  have hr : (0 : ℚ) ≤ blendRate := by unfold blendRate; norm_num
  have hr1 : blendRate ≤ (1 : ℚ) / 10 := by unfold blendRate; norm_num
  by_cases hc : 9 / 10 < fmod (s.blendAmount + blendRate) 1
  · rw [blendStep_commit a b next s hc]
    refine ⟨⟨le_rfl, by norm_num⟩, ?_⟩
    intro c hmem
    simp only [List.mem_append, List.mem_cons, List.mem_singleton, List.not_mem_nil,
      or_false] at hmem
    rcases hmem with hmem | hmem | hmem
    · exact h.2 c hmem
    · subst hmem
      simp only [hf]
      constructor <;> linarith [h.1.1, h.1.2]
    · subst hmem
      exact ⟨le_rfl, zero_le_one⟩
  · rw [blendStep_hold a b next s (not_lt.mp hc)]
    have hle := not_lt.mp hc
    refine ⟨⟨?_, hle⟩, ?_⟩
    · simp only [hf]
      linarith [h.1.1]
    · intro c hmem
      simp only [List.mem_append, List.mem_singleton] at hmem
      rcases hmem with hmem | hmem
      · exact h.2 c hmem
      · subst hmem
        simp only [hf]
        constructor <;> linarith [h.1.1, h.1.2]

theorem inRange_caseIDLE (lib : Library) (k : Keys) (dt : ℚ) (s : State) (h : s.InRange) :
    (caseIDLE lib k dt s).InRange := by
  have h0 : ({ s with blendAmount := 0 } : State).InRange := ⟨⟨le_rfl, by norm_num⟩, h.2⟩
  have hp : ∀ (b : Clip) (t : ℚ),
      (({ s with blendAmount := 0 } : State).play .idleAnimation (some b) t 0 0).InRange :=
    fun b t => inRange_play _ _ _ _ _ _ h0 le_rfl zero_le_one
  unfold caseIDLE
  split_ifs
  · have := inRange_applyMove lib (idleMoveVars k s.characterRotation) dt _
      (hp .walkAnimation s.animator.m_CurrentTime)
    dsimp only
    split_ifs
    · exact ⟨⟨le_rfl, by norm_num⟩, this.2⟩
    · exact ⟨this.1, this.2⟩
  · exact hp .punchAnimation s.animator.m_CurrentTime
  · exact hp .kickAnimation s.animator.m_CurrentTime
  · exact hp .talkAnimation s.animator.m_CurrentTime
  · exact h

theorem inRange_caseWALK (lib : Library) (k : Keys) (dt : ℚ) (s : State) (h : s.InRange) :
    (caseWALK lib k dt s).InRange := by
  have hp := inRange_play s .walkAnimation none s.animator.m_CurrentTime
    s.animator.m_CurrentTime2 s.blendAmount h h.1.1 (by linarith [h.1.2])
  have := inRange_applyMove lib (walkMoveVars k s.characterRotation) dt _ hp
  unfold caseWALK
  dsimp only
  split_ifs
  · exact ⟨⟨le_rfl, by norm_num⟩, this.2⟩
  · exact this

theorem inRange_switchCharState (lib : Library) (k : Keys) (dt : ℚ) (s : State)
    (h : s.InRange) : (switchCharState lib k dt s).InRange := by
  unfold switchCharState
  split
  · exact inRange_caseIDLE lib k dt s h
  · exact inRange_blendStep _ _ _ s h
  · exact inRange_caseWALK lib k dt s h
  · exact inRange_blendStep _ _ _ s h
  · exact inRange_blendStep _ _ _ s h
  · split_ifs
    · exact inRange_blendStep _ _ _ s h
    · exact h
  · exact inRange_blendStep _ _ _ s h
  · split_ifs
    · exact inRange_blendStep _ _ _ s h
    · exact h
  · exact inRange_blendStep _ _ _ s h
  · split_ifs
    · exact inRange_blendStep _ _ _ s h
    · exact h

/-- A frame run from a state whose accumulator is in `[0, 0.9]` ends in range. -/
theorem inRange_frame (lib : Library) (k : Keys) (dt : ℚ) (s : State)
    (h : 0 ≤ s.blendAmount ∧ s.blendAmount ≤ 9 / 10) : (frame lib k dt s).InRange := by
  have h0 : ({ s with calls := [] } : State).InRange :=
    ⟨h, fun c hc => absurd hc (List.not_mem_nil c)⟩
  exact inRange_switchCharState lib k dt _ (inRange_hotkeys k _ h0)

/-- Every reachable state has its accumulator in `[0, 0.9]`. -/
theorem reachable_blendAmount (lib : Library) (s : State) (hr : Reachable lib s) :
    0 ≤ s.blendAmount ∧ s.blendAmount ≤ 9 / 10 := by
  induction hr with
  | init => exact ⟨le_rfl, by norm_num [initState]⟩
  | step k dt _ ih => exact (inRange_frame lib k dt _ ih).1

theorem blendStep_charState (a b : Clip) (next : AnimState) (s : State) :
    (blendStep a b next s).charState
      = if 9 / 10 < fmod (s.blendAmount + blendRate) 1 then next else s.charState := by
  split_ifs with h
  · rw [blendStep_commit a b next s h]
  · rw [blendStep_hold a b next s (not_lt.mp h)]

theorem blendStep_blendAmount (a b : Clip) (next : AnimState) (s : State) :
    (blendStep a b next s).blendAmount
      = if 9 / 10 < fmod (s.blendAmount + blendRate) 1 then 0
        else fmod (s.blendAmount + blendRate) 1 := by
  split_ifs with h
  · rw [blendStep_commit a b next s h]
  · rw [blendStep_hold a b next s (not_lt.mp h)]

theorem blendStep_characterPosition (a b : Clip) (next : AnimState) (s : State) :
    (blendStep a b next s).characterPosition = s.characterPosition := by
  by_cases h : 9 / 10 < fmod (s.blendAmount + blendRate) 1
  · rw [blendStep_commit a b next s h]
  · rw [blendStep_hold a b next s (not_lt.mp h)]

/-- In a blending state the controller step is the hotkeys alone (gate closed) or the
hotkeys followed by the blending block toward a state other than the current one. -/
theorem controllerStep_blending (lib : Library) (k : Keys) (dt : ℚ) (s : State)
    (hb : s.charState.isBlending = true) :
    controllerStep lib k dt s = hotkeys k { s with calls := [] }
      ∨ ∃ a b next, next ≠ s.charState
          ∧ controllerStep lib k dt s = blendStep a b next (hotkeys k { s with calls := [] }) := by
  have h0 : (hotkeys k { s with calls := [] }).charState = s.charState := by simp
  unfold controllerStep
  generalize hotkeys k { s with calls := [] } = s0 at h0 ⊢
  cases hs : s.charState <;> rw [hs] at h0 hb
  · exact absurd hb (by decide)
  · right
    exact ⟨_, _, .PUNCH_IDLE, by decide, switchCharState_IDLE_PUNCH lib k dt _ h0⟩
  · rw [switchCharState_PUNCH_IDLE lib k dt _ h0]
    split_ifs
    · right; exact ⟨_, _, .IDLE, by decide, rfl⟩
    · left; rfl
  · right
    exact ⟨_, _, .KICK_IDLE, by decide, switchCharState_IDLE_KICK lib k dt _ h0⟩
  · rw [switchCharState_KICK_IDLE lib k dt _ h0]
    split_ifs
    · right; exact ⟨_, _, .IDLE, by decide, rfl⟩
    · left; rfl
  · right
    exact ⟨_, _, .TALK_IDLE, by decide, switchCharState_IDLE_TALK lib k dt _ h0⟩
  · rw [switchCharState_TALK_IDLE lib k dt _ h0]
    split_ifs
    · right; exact ⟨_, _, .IDLE, by decide, rfl⟩
    · left; rfl
  · right
    exact ⟨_, _, .WALK, by decide, switchCharState_IDLE_WALK lib k dt _ h0⟩
  · right
    exact ⟨_, _, .IDLE, by decide, switchCharState_WALK_IDLE lib k dt _ h0⟩
  · exact absurd hb (by decide)

/-- The state `enteringWalk` is IDLE_WALK with the accumulator at 0. -/
theorem enteringWalk_charState : enteringWalk.charState = .IDLE_WALK := by decide

/-- The movement branch of `case IDLE` leaves the accumulator at 0. -/
theorem caseIDLE_arrow_blendAmount (lib : Library) (k : Keys) (dt : ℚ) (s : State)
    (hk : k.anyArrow = true) : (caseIDLE lib k dt s).blendAmount = 0 := by
  have hcond : (k.KEY_UP || k.KEY_DOWN || k.KEY_LEFT || k.KEY_RIGHT) = true := hk
  simp only [caseIDLE, hcond, if_true]
  split_ifs <;> simp

theorem enteringWalk_blendAmount : enteringWalk.blendAmount = 0 := by
  unfold enteringWalk
  rw [frame_blendAmount, controllerStep, switchCharState_IDLE _ _ _ _ rfl]
  exact caseIDLE_arrow_blendAmount _ _ _ _ rfl

theorem enteringWalk_reachable : Reachable sampleLibrary enteringWalk :=
  Reachable.step _ _ Reachable.init

/-- The controller step from `enteringWalk` runs the idle-to-walk blending block, which
does not commit at factor 0.055. -/
theorem enteringWalk_step (k : Keys) :
    controllerStep sampleLibrary k 1 enteringWalk
      = blendStep .idleAnimation .walkAnimation .WALK
          (hotkeys k { enteringWalk with calls := [] })
      ∧ fmod ((hotkeys k { enteringWalk with calls := [] }).blendAmount + blendRate) 1
          = 55 / 1000 := by
  constructor
  · exact switchCharState_IDLE_WALK sampleLibrary k 1 _
      (by rw [hotkeys_charState]; exact enteringWalk_charState)
  · rw [hotkeys_blendAmount]
    show fmod (enteringWalk.blendAmount + blendRate) 1 = 55 / 1000
    rw [enteringWalk_blendAmount]
    norm_num [blendRate, fmod, trunc]

/-! ## Monotonicity and range of the blend factor -/

/-- C5. Blend-factor monotonicity: in every state reachable from the initial state, a
frame that starts in a blending state and ends in the same state (no commit) does not
lower blendAmount; the modulo-1.0 wrap leaves the incremented accumulator as it is. -/
theorem blend_monotone_in_phase (lib : Library) (s : State) (hr : Reachable lib s)
    (k : Keys) (deltaTime : ℚ) (hb : s.charState.isBlending = true)
    (hsame : (frame lib k deltaTime s).charState = s.charState) :
    s.blendAmount ≤ (frame lib k deltaTime s).blendAmount
      ∧ fmod (s.blendAmount + blendRate) 1 = s.blendAmount + blendRate := by
  have hinv := reachable_blendAmount lib s hr
  have hf := fmod_increment s.blendAmount hinv.1 hinv.2
  refine ⟨?_, hf⟩
  rcases controllerStep_blending lib k deltaTime s hb with h | ⟨a, b, next, hne, h⟩
  · rw [frame_blendAmount, h, hotkeys_blendAmount]
  · rw [frame_charState, h, blendStep_charState, hotkeys_blendAmount, hotkeys_charState]
      at hsame
    rw [frame_blendAmount, h, blendStep_blendAmount, hotkeys_blendAmount]
    split_ifs with hc
    · rw [if_pos hc] at hsame
      exact absurd hsame hne
    · rw [hf]
      unfold blendRate
      linarith

/-- Witness for C5: the second frame of a walk entry raises the accumulator from 0. -/
theorem blend_monotone_in_phase_witness :
    enteringWalk.blendAmount ≤ (frame sampleLibrary noKeys 1 enteringWalk).blendAmount :=
  (blend_monotone_in_phase sampleLibrary enteringWalk enteringWalk_reachable noKeys 1
    (by decide)
    (by
      rw [frame_charState, (enteringWalk_step noKeys).1, blendStep_charState,
        (enteringWalk_step noKeys).2, if_neg (by norm_num)]
      rfl)).1

/-- C6. Blend-factor range: for every state reachable from the initial state and every
input, each blend factor passed to PlayAnimation during the frame lies in [0, 1], and
blendAmount at the frame boundary lies in [0, 0.9]. -/
theorem blend_factor_range (lib : Library) (s : State) (hr : Reachable lib s)
    (k : Keys) (deltaTime : ℚ) :
    (∀ c ∈ (frame lib k deltaTime s).calls, 0 ≤ c.blend ∧ c.blend ≤ 1)
      ∧ 0 ≤ s.blendAmount ∧ s.blendAmount ≤ 9 / 10 := by
  have hinv := reachable_blendAmount lib s hr
  exact ⟨(inRange_frame lib k deltaTime s hinv).2, hinv.1, hinv.2⟩

/-- Witness for C6: the frames run from `enteringWalk`. -/
theorem blend_factor_range_witness :
    (∀ c ∈ (frame sampleLibrary noKeys 1 enteringWalk).calls, 0 ≤ c.blend ∧ c.blend ≤ 1)
      ∧ 0 ≤ enteringWalk.blendAmount ∧ enteringWalk.blendAmount ≤ 9 / 10 :=
  blend_factor_range sampleLibrary enteringWalk enteringWalk_reachable noKeys 1

/-! ## Displacement -/

theorem idleMoveVars_lengthPositive (k : Keys) (r : ℚ) (hk : k.anyArrow = true) :
    (idleMoveVars k r).moveDirection.lengthPositive = true := by
  rcases k with ⟨u, d, l, r', _, _, _, _, _, _, _, _⟩
  cases u <;> cases d <;> cases l <;> cases r' <;>
    first
      | (simp [Keys.anyArrow] at hk; done)
      | simp [idleMoveVars, Vec3.lengthPositive]

/-- The movement branch of `case IDLE` displaces the character by the normalised key
direction scaled by `moveSpeed` and `deltaTime`. -/
theorem caseIDLE_arrow_characterPosition (lib : Library) (k : Keys) (dt : ℚ) (s : State)
    (hk : k.anyArrow = true) :
    (caseIDLE lib k dt s).characterPosition
      = s.characterPosition.add
          (((lib.normalize (idleMoveVars k s.characterRotation).moveDirection).scale
            moveSpeed).scale dt) := by
  have hcond : (k.KEY_UP || k.KEY_DOWN || k.KEY_LEFT || k.KEY_RIGHT) = true := hk
  have hm : (idleMoveVars k s.characterRotation).isMoving = true := by
    rw [idleMoveVars_isMoving]; exact hk
  have hl := idleMoveVars_lengthPositive k s.characterRotation hk
  simp [caseIDLE, hcond, applyMove, hm, hl]

/-- In `case WALK` every key branch writes `0.0f`, the direction stays zero and the
displacement block never runs: the position is left as it is. -/
theorem caseWALK_characterPosition (lib : Library) (k : Keys) (dt : ℚ) (s : State) :
    (caseWALK lib k dt s).characterPosition = s.characterPosition := by
  have hl : (walkMoveVars k s.characterRotation).moveDirection.lengthPositive = false := by
    rcases k with ⟨u, d, l, r', _, _, _, _, _, _, _, _⟩
    cases u <;> cases d <;> cases l <;> cases r' <;> simp [walkMoveVars, Vec3.lengthPositive]
  simp only [caseWALK, applyMove, play_characterRotation, hl, Bool.and_false]
  split_ifs <;> first | rfl | contradiction

/-- A frame that starts in a blending state does not move the character. -/
theorem blending_characterPosition (lib : Library) (k : Keys) (dt : ℚ) (s : State)
    (hb : s.charState.isBlending = true) :
    (frame lib k dt s).characterPosition = s.characterPosition := by
  rcases controllerStep_blending lib k dt s hb with h | ⟨a, b, next, _, h⟩
  · rw [frame_characterPosition, h, hotkeys_characterPosition]
  · rw [frame_characterPosition, h, blendStep_characterPosition, hotkeys_characterPosition]

theorem enteringWalk_characterPosition : enteringWalk.characterPosition = ⟨0, 0, 2⟩ := by
  unfold enteringWalk
  rw [frame_characterPosition, controllerStep, switchCharState_IDLE _ _ _ _ rfl,
    caseIDLE_arrow_characterPosition sampleLibrary { noKeys with KEY_UP := true } 1 _ rfl]
  simp [idleMoveVars, noKeys, sampleLibrary, normalizeUnit, Vec3.add, Vec3.scale, moveSpeed,
    initState]

/-- C8, counterexample. The state `enteringWalk` is IDLE_WALK with the character at
(0, 0, 2).  A frame of one second with UP held leaves the character at (0, 0, 2); the
claimed advance by moveSpeed * deltaTime = 2 along (0, 0, 1) would put it at (0, 0, 4). -/
theorem walk_displacement_counterexample :
    enteringWalk.charState = .IDLE_WALK
      ∧ enteringWalk.characterPosition = ⟨0, 0, 2⟩
      ∧ (frame sampleLibrary { noKeys with KEY_UP := true } 1 enteringWalk).characterPosition
          = ⟨0, 0, 2⟩
      ∧ (frame sampleLibrary { noKeys with KEY_UP := true } 1 enteringWalk).characterPosition
          ≠ enteringWalk.characterPosition.add
              (((sampleLibrary.normalize ⟨0, 0, 1⟩).scale moveSpeed).scale 1) := by
  have hpos : (frame sampleLibrary { noKeys with KEY_UP := true } 1
      enteringWalk).characterPosition = ⟨0, 0, 2⟩ := by
    rw [blending_characterPosition _ _ _ _ (by decide), enteringWalk_characterPosition]
  refine ⟨enteringWalk_charState, enteringWalk_characterPosition, hpos, ?_⟩
  rw [hpos, enteringWalk_characterPosition]
  intro h
  have hz := congrArg Vec3.z h
  norm_num [sampleLibrary, normalizeUnit, Vec3.add, Vec3.scale, moveSpeed] at hz

/-- C8, amended. A frame that starts in IDLE with an arrow key held advances
characterPosition by moveSpeed * deltaTime along the normalised movement direction; a
frame that starts in one of the eight blending states leaves characterPosition as it
is, whatever keys are held. -/
theorem walk_displacement_amended (lib : Library) (k : Keys) (deltaTime : ℚ) (s : State) :
    (s.charState = .IDLE → k.anyArrow = true →
        (frame lib k deltaTime s).characterPosition
          = s.characterPosition.add
              (((lib.normalize (idleMoveVars k s.characterRotation).moveDirection).scale
                moveSpeed).scale deltaTime))
      ∧ (s.charState.isBlending = true →
        (frame lib k deltaTime s).characterPosition = s.characterPosition) := by
  refine ⟨?_, blending_characterPosition lib k deltaTime s⟩
  intro hs hk
  rw [frame_characterPosition, controllerStep,
    switchCharState_IDLE lib k deltaTime _ (by simpa using hs),
    caseIDLE_arrow_characterPosition lib k deltaTime _ hk, hotkeys_characterPosition,
    hotkeys_characterRotation]

/-- Witness for C8 amended: from the initial state, one second with UP held moves the
character by 2 along (0, 0, 1). -/
theorem walk_displacement_amended_witness :
    (frame sampleLibrary { noKeys with KEY_UP := true } 1 initState).characterPosition
      = initState.characterPosition.add
          (((sampleLibrary.normalize
              (idleMoveVars { noKeys with KEY_UP := true }
                initState.characterRotation).moveDirection).scale moveSpeed).scale 1) :=
  (walk_displacement_amended sampleLibrary { noKeys with KEY_UP := true } 1 initState).1
    rfl rfl

/-! ## Numeric hotkeys -/

/-- With exactly one hotkey pressed the hotkey block is one full cut to its clip. -/
theorem hotkeys_single (k : Keys) (s : State) (c : Clip) (hk : k.singleHotkey = some c) :
    hotkeys k s = s.play c none 0 0 0 := by
  rcases k with ⟨_, _, _, _, _, _, _, k1, k2, k3, k4, k5⟩
  cases k1 <;> cases k2 <;> cases k3 <;> cases k4 <;> cases k5 <;>
    simp only [Keys.singleHotkey, Option.some.injEq, reduceCtorEq] at hk <;>
    subst hk <;> rfl

theorem singleHotkey_anyHotkey (k : Keys) (c : Clip) (hk : k.singleHotkey = some c) :
    k.anyHotkey = true := by
  rcases k with ⟨_, _, _, _, _, _, _, k1, k2, k3, k4, k5⟩
  cases k1 <;> cases k2 <;> cases k3 <;> cases k4 <;> cases k5 <;>
    first
      | rfl
      | simp [Keys.singleHotkey] at hk

/-- With no arrow key and none of J, K, T pressed, `case IDLE` does nothing. -/
theorem caseIDLE_no_key (lib : Library) (k : Keys) (dt : ℚ) (s : State)
    (ha : k.anyArrow = false) (hj : k.KEY_J = false) (hk : k.KEY_K = false)
    (ht : k.KEY_T = false) : caseIDLE lib k dt s = s := by
  have hcond : (k.KEY_UP || k.KEY_DOWN || k.KEY_LEFT || k.KEY_RIGHT) = false := ha
  simp [caseIDLE, hcond, hj, hk, ht]

/-- C9, counterexample. The state `enteringWalk` is IDLE_WALK.  A frame with exactly the
hotkey 3 (punch) pressed ends with the blend of idle into walk at factor 0.055 as the
final clip request and as the animator's setting, not with the punch clip alone at blend
factor 0. -/
theorem hotkey_override_counterexample :
    ({ noKeys with KEY_3 := true } : Keys).singleHotkey = some .punchAnimation
      ∧ (frame sampleLibrary { noKeys with KEY_3 := true } 1 enteringWalk).calls.getLast?
          = some ⟨.idleAnimation, some .walkAnimation, 0, 0, 55 / 1000⟩
      ∧ (controllerStep sampleLibrary { noKeys with KEY_3 := true } 1 enteringWalk).animator
          = ⟨.idleAnimation, some .walkAnimation, 0, 0, 55 / 1000⟩ := by
  have hstep := enteringWalk_step { noKeys with KEY_3 := true }
  have hk : hotkeys { noKeys with KEY_3 := true } { enteringWalk with calls := [] }
      = ({ enteringWalk with calls := [] } : State).play .punchAnimation none 0 0 0 :=
    hotkeys_single _ _ _ rfl
  refine ⟨rfl, ?_, ?_⟩
  · rw [frame_calls, hstep.1, blendStep_hold _ _ _ _ (by rw [hstep.2]; norm_num), hstep.2, hk]
    simp
  · rw [hstep.1, blendStep_hold _ _ _ _ (by rw [hstep.2]; norm_num), hstep.2, hk]
    simp

/-- C9, amended. With PlayAnimation storing its arguments, in a frame with exactly one
numeric hotkey 1..5 pressed the hotkey block sets the animator to that hotkey's clip
alone, with no secondary clip, blend factor 0 and start time 0, as the first clip request
of the frame; this is still the animator's setting and the only clip request at the end
of the controller step when the frame starts in PUNCH_IDLE, KICK_IDLE or TALK_IDLE, or in
IDLE with no arrow key and none of J, K, T pressed. -/
theorem hotkey_override_amended (lib : Library) (k : Keys) (deltaTime : ℚ) (s : State)
    (c : Clip) (hk : k.singleHotkey = some c) :
    (hotkeys k { s with calls := [] }).animator = ⟨c, none, 0, 0, 0⟩
      ∧ (hotkeys k { s with calls := [] }).calls = [⟨c, none, 0, 0, 0⟩]
      ∧ (s.charState = .PUNCH_IDLE ∨ s.charState = .KICK_IDLE ∨ s.charState = .TALK_IDLE
          ∨ (s.charState = .IDLE ∧ k.anyArrow = false ∧ k.KEY_J = false ∧ k.KEY_K = false
              ∧ k.KEY_T = false) →
        (controllerStep lib k deltaTime s).animator = ⟨c, none, 0, 0, 0⟩
          ∧ (frame lib k deltaTime s).calls = [⟨c, none, 0, 0, 0⟩]) := by
  have hh := hotkeys_single k { s with calls := [] } c hk
  have ha : (hotkeys k { s with calls := [] }).animator = ⟨c, none, 0, 0, 0⟩ := by
    rw [hh]; rfl
  have hcalls : (hotkeys k { s with calls := [] }).calls = [⟨c, none, 0, 0, 0⟩] := by
    rw [hh]; rfl
  refine ⟨ha, hcalls, ?_⟩
  intro hs
  have hsw : switchCharState lib k deltaTime (hotkeys k { s with calls := [] })
      = hotkeys k { s with calls := [] } := by
    have ht : (hotkeys k { s with calls := [] }).animator.m_CurrentTime = 0 := by rw [ha]
    rcases hs with h | h | h | ⟨h, h1, h2, h3, h4⟩
    · exact switchCharState_gate_closed lib k deltaTime _
        (Or.inl ⟨by simpa using h, by rw [ht]; norm_num⟩)
    · exact switchCharState_gate_closed lib k deltaTime _
        (Or.inr (Or.inl ⟨by simpa using h, by rw [ht]; norm_num⟩))
    · exact switchCharState_gate_closed lib k deltaTime _
        (Or.inr (Or.inr ⟨by simpa using h, by rw [ht]; norm_num⟩))
    · rw [switchCharState_IDLE lib k deltaTime _ (by simpa using h)]
      exact caseIDLE_no_key lib k deltaTime _ h1 h2 h3 h4
  rw [frame_calls, controllerStep, hsw]
  exact ⟨ha, hcalls⟩

/-- Witness for C9 amended: hotkey 3 during a punch cuts to the punch clip from time 0. -/
theorem hotkey_override_amended_witness :
    (controllerStep sampleLibrary { noKeys with KEY_3 := true } 1 punching).animator
        = ⟨.punchAnimation, none, 0, 0, 0⟩
      ∧ (frame sampleLibrary { noKeys with KEY_3 := true } 1 punching).calls
        = [⟨.punchAnimation, none, 0, 0, 0⟩] :=
  (hotkey_override_amended sampleLibrary { noKeys with KEY_3 := true } 1 punching
    .punchAnimation rfl).2.2 (Or.inl rfl)

/-! ## Keys and the punch gate -/

/-- The state and accumulator after a frame from PUNCH_IDLE, in terms of the test "some
hotkey is pressed". -/
theorem punch_frame_eq (lib : Library) (k : Keys) (dt : ℚ) (s : State)
    (hs : s.charState = .PUNCH_IDLE) :
    (frame lib k dt s).charState
        = (if (if k.anyHotkey then 0 else s.animator.m_CurrentTime) > 7 / 10 then
            (if 9 / 10 < fmod (s.blendAmount + blendRate) 1 then .IDLE else .PUNCH_IDLE)
          else .PUNCH_IDLE)
      ∧ (frame lib k dt s).blendAmount
        = (if (if k.anyHotkey then 0 else s.animator.m_CurrentTime) > 7 / 10 then
            (if 9 / 10 < fmod (s.blendAmount + blendRate) 1 then 0
              else fmod (s.blendAmount + blendRate) 1)
          else s.blendAmount) := by
  rw [frame_charState, frame_blendAmount, controllerStep,
    switchCharState_PUNCH_IDLE lib k dt _ (by simpa using hs), hotkeys_time]
  split_ifs <;>
    simp only [blendStep_charState, blendStep_blendAmount, hotkeys_charState,
      hotkeys_blendAmount, hs, if_true, if_false, and_self] <;>
    simp_all

/-- C10, counterexample. From `punching` (PUNCH_IDLE, punch cursor at 0.8, exit blend at
0.88) a frame with no key pressed commits the exit to IDLE, while the same frame with
hotkey 1 pressed stays in PUNCH_IDLE with the accumulator still at 0.88: a key blocks the
exit from the punch. -/
theorem punch_gate_keys_counterexample :
    punching.charState = .PUNCH_IDLE
      ∧ (frame sampleLibrary noKeys 1 punching).charState = .IDLE
      ∧ (frame sampleLibrary noKeys 1 punching).blendAmount = 0
      ∧ (frame sampleLibrary { noKeys with KEY_1 := true } 1 punching).charState = .PUNCH_IDLE
      ∧ (frame sampleLibrary { noKeys with KEY_1 := true } 1 punching).blendAmount
          = 88 / 100 := by
  have h1 := punch_frame_eq sampleLibrary noKeys 1 punching rfl
  have h2 := punch_frame_eq sampleLibrary { noKeys with KEY_1 := true } 1 punching rfl
  refine ⟨rfl, ?_, ?_, ?_, ?_⟩
  · rw [h1.1]
    norm_num [Keys.anyHotkey, noKeys, punching, stateAt, initState, blendRate, fmod, trunc]
  · rw [h1.2]
    norm_num [Keys.anyHotkey, noKeys, punching, stateAt, initState, blendRate, fmod, trunc]
  · rw [h2.1]
    norm_num [Keys.anyHotkey, noKeys]
  · rw [h2.2]
    norm_num [Keys.anyHotkey, noKeys, punching, stateAt, initState]

/-- C10, amended. For every frame that starts in PUNCH_IDLE and every two key snapshots
that agree on whether some numeric hotkey 1..5 is pressed, running the frame from the
same controller and animator state yields the same charState and blendAmount: the arrow
keys and J, K, T never block or delay the exit from the punch. -/
theorem punch_gate_keys_amended (lib : Library) (k1 k2 : Keys) (deltaTime : ℚ) (s : State)
    (hs : s.charState = .PUNCH_IDLE) (hk : k1.anyHotkey = k2.anyHotkey) :
    (frame lib k1 deltaTime s).charState = (frame lib k2 deltaTime s).charState
      ∧ (frame lib k1 deltaTime s).blendAmount = (frame lib k2 deltaTime s).blendAmount := by
  have h1 := punch_frame_eq lib k1 deltaTime s hs
  have h2 := punch_frame_eq lib k2 deltaTime s hs
  rw [h1.1, h1.2, h2.1, h2.2, hk]
  exact ⟨rfl, rfl⟩

/-- Witness for C10 amended: every arrow key and J, K, T pressed against no key at all,
from `punching`. -/
theorem punch_gate_keys_amended_witness :
    (frame sampleLibrary
        ⟨true, true, true, true, true, true, true, false, false, false, false, false⟩ 1
        punching).charState
      = (frame sampleLibrary noKeys 1 punching).charState
    ∧ (frame sampleLibrary
        ⟨true, true, true, true, true, true, true, false, false, false, false, false⟩ 1
        punching).blendAmount
      = (frame sampleLibrary noKeys 1 punching).blendAmount :=
  punch_gate_keys_amended sampleLibrary
    ⟨true, true, true, true, true, true, true, false, false, false, false, false⟩ noKeys 1
    punching rfl rfl

/-! ## Entering a motion from IDLE -/

/-- The movement branch of `case IDLE` issues one call: the blend of idle, at the
animator's current time, into walk from time 0 with factor 0. -/
theorem caseIDLE_arrow_calls (lib : Library) (k : Keys) (dt : ℚ) (s : State)
    (hk : k.anyArrow = true) :
    (caseIDLE lib k dt s).calls
      = s.calls ++ [⟨.idleAnimation, some .walkAnimation, s.animator.m_CurrentTime, 0, 0⟩] := by
  have hcond : (k.KEY_UP || k.KEY_DOWN || k.KEY_LEFT || k.KEY_RIGHT) = true := hk
  simp only [caseIDLE, hcond, if_true]
  split_ifs <;> simp

/-- C11. Entering walk: a frame that starts in IDLE with at least one arrow key pressed
ends with blendAmount 0, and the clip request its state machine issues, the last of the
frame, is the blend from idle (primary, at the animator's current time) to walk
(secondary, from time 0) with factor 0; without a hotkey it is the only request of the
frame and the idle time is the one the frame started with. -/
theorem idle_arrow_enters_walk (lib : Library) (k : Keys) (deltaTime : ℚ) (s : State)
    (hs : s.charState = .IDLE) (hk : k.anyArrow = true) :
    (frame lib k deltaTime s).blendAmount = 0
      ∧ (frame lib k deltaTime s).calls
        = (hotkeys k { s with calls := [] }).calls
          ++ [⟨.idleAnimation, some .walkAnimation, (hotkeys k s).animator.m_CurrentTime, 0, 0⟩]
      ∧ (k.anyHotkey = false →
          (frame lib k deltaTime s).calls
            = [⟨.idleAnimation, some .walkAnimation, s.animator.m_CurrentTime, 0, 0⟩]) := by
  have hsw : controllerStep lib k deltaTime s
      = caseIDLE lib k deltaTime (hotkeys k { s with calls := [] }) :=
    switchCharState_IDLE lib k deltaTime _ (by simpa using hs)
  have hcalls : (frame lib k deltaTime s).calls
      = (hotkeys k { s with calls := [] }).calls
        ++ [⟨.idleAnimation, some .walkAnimation,
              (hotkeys k s).animator.m_CurrentTime, 0, 0⟩] := by
    rw [frame_calls, hsw, caseIDLE_arrow_calls lib k deltaTime _ hk, hotkeys_animator_calls]
  refine ⟨?_, hcalls, ?_⟩
  · rw [frame_blendAmount, hsw]
    exact caseIDLE_arrow_blendAmount lib k deltaTime _ hk
  · intro hn
    rw [hcalls, hotkeys_of_none k _ hn, hotkeys_of_none k _ hn]
    rfl

/-- Witness for C11: UP held from the initial state. -/
theorem idle_arrow_enters_walk_witness :
    (frame sampleLibrary { noKeys with KEY_UP := true } 1 initState).blendAmount = 0
      ∧ (frame sampleLibrary { noKeys with KEY_UP := true } 1 initState).calls
        = [⟨.idleAnimation, some .walkAnimation, 0, 0, 0⟩] :=
  have h := idle_arrow_enters_walk sampleLibrary { noKeys with KEY_UP := true } 1 initState
    rfl rfl
  ⟨h.1, h.2.2 rfl⟩

/-- An action branch of `case IDLE`: with no arrow key, the first pressed key among J,
K, T selects the clip `b` and the state `next`. -/
theorem caseIDLE_action (lib : Library) (k : Keys) (dt : ℚ) (s : State)
    (ha : k.anyArrow = false) :
    (k.KEY_J = true →
        caseIDLE lib k dt s
          = { (({ s with blendAmount := 0 } : State).play .idleAnimation
                (some .punchAnimation) s.animator.m_CurrentTime 0 0) with
              charState := .IDLE_PUNCH })
      ∧ (k.KEY_J = false → k.KEY_K = true →
        caseIDLE lib k dt s
          = { (({ s with blendAmount := 0 } : State).play .idleAnimation
                (some .kickAnimation) s.animator.m_CurrentTime 0 0) with
              charState := .IDLE_KICK })
      ∧ (k.KEY_J = false → k.KEY_K = false → k.KEY_T = true →
        caseIDLE lib k dt s
          = { (({ s with blendAmount := 0 } : State).play .idleAnimation
                (some .talkAnimation) s.animator.m_CurrentTime 0 0) with
              charState := .IDLE_TALK }) := by
  have hcond : (k.KEY_UP || k.KEY_DOWN || k.KEY_LEFT || k.KEY_RIGHT) = false := ha
  refine ⟨?_, ?_, ?_⟩
  · intro hj
    simp [caseIDLE, hcond, hj]
  · intro hj hk
    simp [caseIDLE, hcond, hj, hk]
  · intro hj hk ht
    simp [caseIDLE, hcond, hj, hk, ht]

/-- C12. Entering an action: a frame that starts in IDLE with no arrow key pressed ends
in IDLE_PUNCH if J is pressed, otherwise in IDLE_KICK if K is pressed, otherwise in
IDLE_TALK if T is pressed, otherwise in IDLE; in the three action cases blendAmount is 0
and the clip request of the state machine, the last of the frame, blends idle at the
animator's current time into the action clip from time 0 with factor 0. -/
theorem idle_action_entry (lib : Library) (k : Keys) (deltaTime : ℚ) (s : State)
    (hs : s.charState = .IDLE) (ha : k.anyArrow = false) :
    (k.KEY_J = true →
        (frame lib k deltaTime s).charState = .IDLE_PUNCH
          ∧ (frame lib k deltaTime s).blendAmount = 0
          ∧ (frame lib k deltaTime s).calls
            = (hotkeys k { s with calls := [] }).calls
              ++ [⟨.idleAnimation, some .punchAnimation,
                    (hotkeys k s).animator.m_CurrentTime, 0, 0⟩])
      ∧ (k.KEY_J = false → k.KEY_K = true →
        (frame lib k deltaTime s).charState = .IDLE_KICK
          ∧ (frame lib k deltaTime s).blendAmount = 0
          ∧ (frame lib k deltaTime s).calls
            = (hotkeys k { s with calls := [] }).calls
              ++ [⟨.idleAnimation, some .kickAnimation,
                    (hotkeys k s).animator.m_CurrentTime, 0, 0⟩])
      ∧ (k.KEY_J = false → k.KEY_K = false → k.KEY_T = true →
        (frame lib k deltaTime s).charState = .IDLE_TALK
          ∧ (frame lib k deltaTime s).blendAmount = 0
          ∧ (frame lib k deltaTime s).calls
            = (hotkeys k { s with calls := [] }).calls
              ++ [⟨.idleAnimation, some .talkAnimation,
                    (hotkeys k s).animator.m_CurrentTime, 0, 0⟩])
      ∧ (k.KEY_J = false → k.KEY_K = false → k.KEY_T = false →
        (frame lib k deltaTime s).charState = .IDLE
          ∧ (frame lib k deltaTime s).blendAmount = s.blendAmount
          ∧ (frame lib k deltaTime s).calls = (hotkeys k { s with calls := [] }).calls) := by
  have hsw : controllerStep lib k deltaTime s
      = caseIDLE lib k deltaTime (hotkeys k { s with calls := [] }) :=
    switchCharState_IDLE lib k deltaTime _ (by simpa using hs)
  have hact := caseIDLE_action lib k deltaTime (hotkeys k { s with calls := [] }) ha
  have ht := hotkeys_animator_calls k s []
  simp only [frame_charState, frame_blendAmount, frame_calls, hsw]
  refine ⟨?_, ?_, ?_, ?_⟩
  · intro hj
    rw [hact.1 hj, ← ht]
    exact ⟨rfl, rfl, rfl⟩
  · intro hj hk
    rw [hact.2.1 hj hk, ← ht]
    exact ⟨rfl, rfl, rfl⟩
  · intro hj hk hT
    rw [hact.2.2 hj hk hT, ← ht]
    exact ⟨rfl, rfl, rfl⟩
  · intro hj hk hT
    rw [caseIDLE_no_key lib k deltaTime _ ha hj hk hT]
    exact ⟨by simpa using hs, by simp, rfl⟩

/-- Witness for C12: J and K together from the initial state enter the punch; K and T
together enter the kick. -/
theorem idle_action_entry_witness :
    ((frame sampleLibrary { noKeys with KEY_J := true, KEY_K := true } 1 initState).charState
        = .IDLE_PUNCH
      ∧ (frame sampleLibrary { noKeys with KEY_J := true, KEY_K := true } 1 initState).calls
        = [⟨.idleAnimation, some .punchAnimation, 0, 0, 0⟩])
    ∧ (frame sampleLibrary { noKeys with KEY_K := true, KEY_T := true } 1 initState).charState
        = .IDLE_KICK :=
  have h1 := (idle_action_entry sampleLibrary { noKeys with KEY_J := true, KEY_K := true } 1
    initState rfl rfl).1 rfl
  have h2 := (idle_action_entry sampleLibrary { noKeys with KEY_K := true, KEY_T := true } 1
    initState rfl rfl).2.1 rfl rfl
  ⟨⟨h1.1, h1.2.2⟩, h2.1⟩

/-! ## The entering commit -/

/-- When the blending block ends in its post-commit state `next`, other than the state
it ran from, it committed: its last call plays clip `b` alone, with factor 0, from the
secondary cursor's time, and that is what the animator holds. -/
theorem blendStep_to_next (a b : Clip) (next : AnimState) (s : State)
    (hs : s.charState ≠ next) (hc : (blendStep a b next s).charState = next) :
    (blendStep a b next s).calls.getLast? = some ⟨b, none, s.animator.m_CurrentTime2, 0, 0⟩
      ∧ (blendStep a b next s).animator = ⟨b, none, s.animator.m_CurrentTime2, 0, 0⟩ := by
  by_cases hf : 9 / 10 < fmod (s.blendAmount + blendRate) 1
  · rw [blendStep_commit a b next s hf]
    simp
  · rw [blendStep_hold a b next s (not_lt.mp hf)] at hc
    exact absurd hc hs

/-- The entering commit of one motion: a frame whose switch is the blending block toward
`next` and that ends in `next`. -/
theorem frame_commit_last (lib : Library) (k : Keys) (dt : ℚ) (s : State) (a b : Clip)
    (next : AnimState) (hne : s.charState ≠ next)
    (hsw : controllerStep lib k dt s = blendStep a b next (hotkeys k { s with calls := [] }))
    (hc : (frame lib k dt s).charState = next) :
    (frame lib k dt s).calls.getLast?
        = some ⟨b, none, (hotkeys k s).animator.m_CurrentTime2, 0, 0⟩
      ∧ (controllerStep lib k dt s).animator
        = ⟨b, none, (hotkeys k s).animator.m_CurrentTime2, 0, 0⟩ := by
  rw [frame_charState, hsw] at hc
  have h := blendStep_to_next a b next _ (by simpa using hne) hc
  rw [hotkeys_animator_calls] at h
  rw [frame_calls, hsw]
  exact h

/-- C13. Entering commit: with PlayAnimation storing its arguments, for every commit out
of IDLE_WALK, IDLE_PUNCH, IDLE_KICK or IDLE_TALK (a frame from that state that ends in
WALK, PUNCH_IDLE, KICK_IDLE, TALK_IDLE) the final clip request of the frame plays only
the former secondary clip (walk, punch, kick, talk), with no secondary clip and blend
factor 0, from the time the secondary cursor has at the commit; the animator then holds
exactly that, and without a hotkey in the frame the time is the secondary cursor's time
at the start of the frame. -/
theorem entering_commit_plays_secondary (lib : Library) (k : Keys) (deltaTime : ℚ)
    (s : State) :
    (s.charState = .IDLE_WALK → (frame lib k deltaTime s).charState = .WALK →
        (frame lib k deltaTime s).calls.getLast?
            = some ⟨.walkAnimation, none, (hotkeys k s).animator.m_CurrentTime2, 0, 0⟩
          ∧ (controllerStep lib k deltaTime s).animator
            = ⟨.walkAnimation, none, (hotkeys k s).animator.m_CurrentTime2, 0, 0⟩)
      ∧ (s.charState = .IDLE_PUNCH → (frame lib k deltaTime s).charState = .PUNCH_IDLE →
        (frame lib k deltaTime s).calls.getLast?
            = some ⟨.punchAnimation, none, (hotkeys k s).animator.m_CurrentTime2, 0, 0⟩
          ∧ (controllerStep lib k deltaTime s).animator
            = ⟨.punchAnimation, none, (hotkeys k s).animator.m_CurrentTime2, 0, 0⟩)
      ∧ (s.charState = .IDLE_KICK → (frame lib k deltaTime s).charState = .KICK_IDLE →
        (frame lib k deltaTime s).calls.getLast?
            = some ⟨.kickAnimation, none, (hotkeys k s).animator.m_CurrentTime2, 0, 0⟩
          ∧ (controllerStep lib k deltaTime s).animator
            = ⟨.kickAnimation, none, (hotkeys k s).animator.m_CurrentTime2, 0, 0⟩)
      ∧ (s.charState = .IDLE_TALK → (frame lib k deltaTime s).charState = .TALK_IDLE →
        (frame lib k deltaTime s).calls.getLast?
            = some ⟨.talkAnimation, none, (hotkeys k s).animator.m_CurrentTime2, 0, 0⟩
          ∧ (controllerStep lib k deltaTime s).animator
            = ⟨.talkAnimation, none, (hotkeys k s).animator.m_CurrentTime2, 0, 0⟩)
      ∧ (k.anyHotkey = false →
          (hotkeys k s).animator.m_CurrentTime2 = s.animator.m_CurrentTime2) := by
  refine ⟨?_, ?_, ?_, ?_, fun hk => by rw [hotkeys_of_none k s hk]⟩
  · intro hs hc
    exact frame_commit_last lib k deltaTime s .idleAnimation .walkAnimation .WALK
      (by rw [hs]; decide)
      (switchCharState_IDLE_WALK lib k deltaTime _ (by simpa using hs)) hc
  · intro hs hc
    exact frame_commit_last lib k deltaTime s .idleAnimation .punchAnimation .PUNCH_IDLE
      (by rw [hs]; decide)
      (switchCharState_IDLE_PUNCH lib k deltaTime _ (by simpa using hs)) hc
  · intro hs hc
    exact frame_commit_last lib k deltaTime s .idleAnimation .kickAnimation .KICK_IDLE
      (by rw [hs]; decide)
      (switchCharState_IDLE_KICK lib k deltaTime _ (by simpa using hs)) hc
  · intro hs hc
    exact frame_commit_last lib k deltaTime s .idleAnimation .talkAnimation .TALK_IDLE
      (by rw [hs]; decide)
      (switchCharState_IDLE_TALK lib k deltaTime _ (by simpa using hs)) hc

/-- The frame run from `enteringWalkLate` with no key pressed commits to WALK. -/
theorem enteringWalkLate_commits :
    (frame sampleLibrary noKeys 1 enteringWalkLate).charState = .WALK := by
  have h : controllerStep sampleLibrary noKeys 1 enteringWalkLate
      = blendStep .idleAnimation .walkAnimation .WALK
          (hotkeys noKeys { enteringWalkLate with calls := [] }) :=
    switchCharState_IDLE_WALK sampleLibrary noKeys 1 _ rfl
  rw [frame_charState, h, blendStep_commit]
  norm_num [enteringWalkLate, initState, blendRate, fmod, trunc]

/-- Witness for C13: the commit from `enteringWalkLate`, whose walk cursor is at 1.25,
requests the walk clip alone from time 1.25. -/
theorem entering_commit_plays_secondary_witness :
    (frame sampleLibrary noKeys 1 enteringWalkLate).calls.getLast?
      = some ⟨.walkAnimation, none, 5 / 4, 0, 0⟩ :=
  ((entering_commit_plays_secondary sampleLibrary noKeys 1 enteringWalkLate).1 rfl
    enteringWalkLate_commits).1

/-! ## The first frames of a walk entry -/

/-- C14, counterexample. Starting from the initial state (IDLE, blendAmount 0), after the
first frame with UP held the state is IDLE_WALK but the blend factor is 0, both in the
accumulator and in the clip request, not one increment 0.055. -/
theorem first_frame_factor_counterexample :
    initState.charState = .IDLE ∧ initState.blendAmount = 0
      ∧ (frame sampleLibrary { noKeys with KEY_UP := true } 1 initState).charState
          = .IDLE_WALK
      ∧ (frame sampleLibrary { noKeys with KEY_UP := true } 1 initState).blendAmount = 0
      ∧ (frame sampleLibrary { noKeys with KEY_UP := true } 1 initState).blendAmount
          ≠ 55 / 1000
      ∧ (frame sampleLibrary { noKeys with KEY_UP := true } 1 initState).calls
          = [⟨.idleAnimation, some .walkAnimation, 0, 0, 0⟩] := by
  have hb : (frame sampleLibrary { noKeys with KEY_UP := true } 1 initState).blendAmount
      = 0 := enteringWalk_blendAmount
  have hsw : controllerStep sampleLibrary { noKeys with KEY_UP := true } 1 initState
      = caseIDLE sampleLibrary { noKeys with KEY_UP := true } 1
          (hotkeys { noKeys with KEY_UP := true } { initState with calls := [] }) :=
    switchCharState_IDLE _ _ _ _ rfl
  refine ⟨rfl, rfl, enteringWalk_charState, hb, ?_, ?_⟩
  · rw [hb]; norm_num
  · rw [frame_calls, hsw,
      caseIDLE_arrow_calls sampleLibrary { noKeys with KEY_UP := true } 1 _ rfl]
    rfl

/-- C14, amended. Starting in IDLE (with blendAmount 0 or any other value), after the
first frame in which forward (UP) is held the state is IDLE_WALK and the blend factor is
0; after the next frame, whatever its keys, the state is still IDLE_WALK and the blend
factor equals one increment, 0.055. -/
theorem first_frames_factor_amended (lib : Library) (k k2 : Keys) (deltaTime dt2 : ℚ)
    (s : State) (hs : s.charState = .IDLE) (hk : k.KEY_UP = true) :
    (frame lib k deltaTime s).charState = .IDLE_WALK
      ∧ (frame lib k deltaTime s).blendAmount = 0
      ∧ (frame lib k2 dt2 (frame lib k deltaTime s)).charState = .IDLE_WALK
      ∧ (frame lib k2 dt2 (frame lib k deltaTime s)).blendAmount = 55 / 1000 := by
  have ha : k.anyArrow = true := by simp [Keys.anyArrow, hk]
  have hsw : controllerStep lib k deltaTime s
      = caseIDLE lib k deltaTime (hotkeys k { s with calls := [] }) :=
    switchCharState_IDLE lib k deltaTime _ (by simpa using hs)
  have h1 : (frame lib k deltaTime s).charState = .IDLE_WALK := by
    have hcond : (k.KEY_UP || k.KEY_DOWN || k.KEY_LEFT || k.KEY_RIGHT) = true := ha
    simp only [frame_charState, hsw, caseIDLE, hcond, if_true]
  have h2 : (frame lib k deltaTime s).blendAmount = 0 := by
    rw [frame_blendAmount, hsw]
    exact caseIDLE_arrow_blendAmount lib k deltaTime _ ha
  have hsw2 : controllerStep lib k2 dt2 (frame lib k deltaTime s)
      = blendStep .idleAnimation .walkAnimation .WALK
          (hotkeys k2 { frame lib k deltaTime s with calls := [] }) :=
    switchCharState_IDLE_WALK lib k2 dt2 _ (by rw [hotkeys_charState]; exact h1)
  have hf : fmod ((hotkeys k2 { frame lib k deltaTime s with calls := [] }).blendAmount
      + blendRate) 1 = 55 / 1000 := by
    rw [hotkeys_blendAmount]
    show fmod ((frame lib k deltaTime s).blendAmount + blendRate) 1 = 55 / 1000
    rw [h2]
    norm_num [blendRate, fmod, trunc]
  refine ⟨h1, h2, ?_, ?_⟩
  · rw [frame_charState, hsw2, blendStep_charState, hf, if_neg (by norm_num),
      hotkeys_charState]
    exact h1
  · rw [frame_blendAmount, hsw2, blendStep_blendAmount, hf, if_neg (by norm_num)]

/-- Witness for C14 amended: two frames with UP held from the initial state. -/
theorem first_frames_factor_amended_witness :
    (frame sampleLibrary { noKeys with KEY_UP := true } 1 initState).blendAmount = 0
      ∧ (frame sampleLibrary { noKeys with KEY_UP := true } 1
          (frame sampleLibrary { noKeys with KEY_UP := true } 1 initState)).blendAmount
        = 55 / 1000 :=
  have h := first_frames_factor_amended sampleLibrary { noKeys with KEY_UP := true }
    { noKeys with KEY_UP := true } 1 1 initState rfl rfl
  ⟨h.2.1, h.2.2.2⟩

/-! ## Counting the frames of a blend phase -/

/-- A blending frame is the hotkeys followed by the blending block toward the
post-commit state of the current state. -/
theorem controllerStep_runsBlend (lib : Library) (k : Keys) (dt : ℚ) (s : State)
    (h : runsBlend k s = true) :
    ∃ a b, controllerStep lib k dt s
      = blendStep a b (commitTarget s.charState) (hotkeys k { s with calls := [] }) := by
  have h0 : (hotkeys k { s with calls := [] }).charState = s.charState := by simp
  have ht : (hotkeys k { s with calls := [] }).animator.m_CurrentTime
      = (hotkeys k s).animator.m_CurrentTime := by rw [hotkeys_animator_calls]
  unfold controllerStep
  unfold runsBlend at h
  generalize hotkeys k { s with calls := [] } = s0 at h0 ht ⊢
  cases hs : s.charState <;> rw [hs] at h0 h
  · simp at h
  · exact ⟨_, _, switchCharState_IDLE_PUNCH lib k dt _ h0⟩
  · have hg : s0.animator.m_CurrentTime > 7 / 10 := by rw [ht]; simpa using h
    exact ⟨.punchAnimation, .idleAnimation, by
      rw [switchCharState_PUNCH_IDLE lib k dt _ h0, if_pos hg]; rfl⟩
  · exact ⟨_, _, switchCharState_IDLE_KICK lib k dt _ h0⟩
  · have hg : s0.animator.m_CurrentTime > 1 := by rw [ht]; simpa using h
    exact ⟨.kickAnimation, .idleAnimation, by
      rw [switchCharState_KICK_IDLE lib k dt _ h0, if_pos hg]; rfl⟩
  · exact ⟨_, _, switchCharState_IDLE_TALK lib k dt _ h0⟩
  · have hg : s0.animator.m_CurrentTime > 3 := by rw [ht]; simpa using h
    exact ⟨.talkAnimation, .idleAnimation, by
      rw [switchCharState_TALK_IDLE lib k dt _ h0, if_pos hg]; rfl⟩
  · exact ⟨_, _, switchCharState_IDLE_WALK lib k dt _ h0⟩
  · exact ⟨_, _, switchCharState_WALK_IDLE lib k dt _ h0⟩
  · simp at h

/-- The state and the accumulator after a blending frame. -/
theorem frame_runsBlend (lib : Library) (k : Keys) (dt : ℚ) (s : State)
    (h : runsBlend k s = true) :
    (frame lib k dt s).charState
        = (if 9 / 10 < fmod (s.blendAmount + blendRate) 1 then commitTarget s.charState
            else s.charState)
      ∧ (frame lib k dt s).blendAmount
        = (if 9 / 10 < fmod (s.blendAmount + blendRate) 1 then 0
            else fmod (s.blendAmount + blendRate) 1) := by
  obtain ⟨a, b, hsw⟩ := controllerStep_runsBlend lib k dt s h
  rw [frame_charState, frame_blendAmount, hsw, blendStep_charState, blendStep_blendAmount,
    hotkeys_blendAmount, hotkeys_charState]
  exact ⟨rfl, rfl⟩

theorem runsBlend_isBlending (k : Keys) (s : State) (h : runsBlend k s = true) :
    s.charState.isBlending = true := by
  unfold runsBlend at h
  cases hs : s.charState <;> rw [hs] at h <;> first | rfl | simp at h

theorem commitTarget_ne (c : AnimState) (h : c.isBlending = true) : commitTarget c ≠ c := by
  cases c <;> first | decide | exact absurd h (by decide)

/-- After `m` increments from 0, with `m` at most 15, the next one does not commit. -/
theorem fmod_increment_hold (m : ℕ) (hm : m ≤ 15) :
    fmod (55 / 1000 * (m : ℚ) + blendRate) 1 = 55 / 1000 * ((m + 1 : ℕ) : ℚ)
      ∧ ¬ 9 / 10 < fmod (55 / 1000 * (m : ℚ) + blendRate) 1 := by
  have hm' : (m : ℚ) ≤ 15 := by exact_mod_cast hm
  have h0 : (0 : ℚ) ≤ (m : ℚ) := Nat.cast_nonneg m
  have hf : fmod (55 / 1000 * (m : ℚ) + blendRate) 1 = 55 / 1000 * (m : ℚ) + blendRate := by
    apply fmod_one_of_lt <;> unfold blendRate <;> linarith
  rw [hf]
  constructor
  · unfold blendRate; push_cast; ring
  · unfold blendRate; linarith

/-- The seventeenth increment from 0 gives 0.935, above the threshold. -/
theorem fmod_increment_commit :
    fmod (55 / 1000 * ((16 : ℕ) : ℚ) + blendRate) 1 = 935 / 1000
      ∧ 9 / 10 < fmod (55 / 1000 * ((16 : ℕ) : ℚ) + blendRate) 1 := by
  have hf : fmod (55 / 1000 * ((16 : ℕ) : ℚ) + blendRate) 1 = 935 / 1000 := by
    norm_num [blendRate, fmod, trunc]
  rw [hf]
  exact ⟨rfl, by norm_num⟩

/-- The count of blending frames, from an accumulator that has had `m` increments. -/
theorem run_blend_core (lib : Library) :
    ∀ (inputs : List (Keys × ℚ)) (s : State) (m : ℕ),
      s.blendAmount = 55 / 1000 * (m : ℚ) → m ≤ 16 → BlendingFrames lib inputs s →
      (m + inputs.length ≤ 16 →
          (run lib inputs s).charState = s.charState
            ∧ (run lib inputs s).blendAmount = 55 / 1000 * ((m + inputs.length : ℕ) : ℚ))
        ∧ (m + inputs.length = 17 →
          (run lib inputs s).charState = commitTarget s.charState
            ∧ (run lib inputs s).blendAmount = 0) := by
  intro inputs
  induction inputs with
  | nil =>
    intro s m hb hm _
    refine ⟨fun _ => ⟨rfl, by simpa [run] using hb⟩, fun h => ?_⟩
    simp only [List.length_nil, Nat.add_zero] at h
    omega
  | cons x rest ih =>
    obtain ⟨k, dt⟩ := x
    intro s m hb hm hbf
    obtain ⟨hrun, hrest⟩ := hbf
    have hfr := frame_runsBlend lib k dt s hrun
    rw [hb] at hfr
    simp only [List.length_cons, run]
    by_cases h15 : m ≤ 15
    · obtain ⟨hval, hno⟩ := fmod_increment_hold m h15
      rw [if_neg hno, if_neg hno, hval] at hfr
      have ih' := ih (frame lib k dt s) (m + 1) hfr.2 (by omega) hrest
      rw [hfr.1] at ih'
      refine ⟨fun h => ?_, fun h => ?_⟩
      · have := ih'.1 (by omega)
        rw [show m + (rest.length + 1) = m + 1 + rest.length by omega]
        exact this
      · exact ih'.2 (by omega)
    · have hm16 : m = 16 := by omega
      subst hm16
      obtain ⟨_, hyes⟩ := fmod_increment_commit
      rw [if_pos hyes, if_pos hyes] at hfr
      refine ⟨fun h => by omega, fun h => ?_⟩
      have hnil : rest = [] := List.length_eq_zero.mp (by omega)
      subst hnil
      exact ⟨hfr.1, hfr.2⟩

/-- From IDLE_WALK, WALK_IDLE, IDLE_PUNCH, IDLE_KICK or IDLE_TALK every frame is a
blending frame until the commit, whatever the keys and the library do. -/
theorem blendingFrames_of_ungated (lib : Library) :
    ∀ (inputs : List (Keys × ℚ)) (s : State) (m : ℕ),
      (s.charState = .IDLE_WALK ∨ s.charState = .WALK_IDLE ∨ s.charState = .IDLE_PUNCH
        ∨ s.charState = .IDLE_KICK ∨ s.charState = .IDLE_TALK) →
      s.blendAmount = 55 / 1000 * (m : ℚ) → m + inputs.length ≤ 17 →
      BlendingFrames lib inputs s := by
  intro inputs
  induction inputs with
  | nil => intro _ _ _ _ _; exact trivial
  | cons x rest ih =>
    obtain ⟨k, dt⟩ := x
    intro s m hs hb hlen
    simp only [List.length_cons] at hlen
    have hrun : runsBlend k s = true := by
      unfold runsBlend
      rcases hs with h | h | h | h | h <;> rw [h]
    refine ⟨hrun, ?_⟩
    have hfr := frame_runsBlend lib k dt s hrun
    rw [hb] at hfr
    by_cases h15 : m ≤ 15
    · obtain ⟨hval, hno⟩ := fmod_increment_hold m h15
      rw [if_neg hno, if_neg hno, hval] at hfr
      exact ih (frame lib k dt s) (m + 1) (by rw [hfr.1]; exact hs) hfr.2 (by omega)
    · have hnil : rest = [] := List.length_eq_zero.mp (by omega)
      subst hnil
      exact trivial

/-- C15. Number of increments to commit: with blend rate 0.055 in exact arithmetic, a
blend phase that starts in a blending state with blendAmount 0 stays in that state for
16 blending frames, with blendAmount = 0.055 * n after the n-th (n at most 16), and
commits on the 17th, ending in the post-commit state with blendAmount 0; the factor
computed in that 17th frame is fmod(0.88 + 0.055, 1) = 0.935, above 0.9. -/
theorem seventeen_blending_frames (lib : Library) (inputs : List (Keys × ℚ)) (s : State)
    (hb : s.blendAmount = 0) (hf : BlendingFrames lib inputs s) :
    (inputs.length ≤ 16 →
        (run lib inputs s).charState = s.charState
          ∧ (run lib inputs s).blendAmount = 55 / 1000 * (inputs.length : ℚ))
      ∧ (inputs.length = 17 →
        (run lib inputs s).charState = commitTarget s.charState
          ∧ (run lib inputs s).charState ≠ s.charState
          ∧ (run lib inputs s).blendAmount = 0)
      ∧ fmod (55 / 1000 * 16 + blendRate) 1 = 935 / 1000
      ∧ (9 : ℚ) / 10 < 935 / 1000 := by
  have core := run_blend_core lib inputs s 0 (by simpa using hb) (by omega) hf
  simp only [Nat.zero_add] at core
  refine ⟨core.1, fun h => ?_, ?_, by norm_num⟩
  · obtain ⟨hc, hz⟩ := core.2 h
    refine ⟨hc, ?_, hz⟩
    rw [hc]
    apply commitTarget_ne
    cases inputs with
    | nil => simp at h
    | cons x rest => exact runsBlend_isBlending x.1 s hf.1
  · norm_num [blendRate, fmod, trunc]

/-- Witness for C15: seventeen frames without keys from `enteringWalk` (IDLE_WALK with
the accumulator at 0) end in WALK; sixteen leave it in IDLE_WALK at 0.88. -/
theorem seventeen_blending_frames_witness :
    ((run sampleLibrary (List.replicate 16 (noKeys, 1)) enteringWalk).charState
          = enteringWalk.charState
        ∧ (run sampleLibrary (List.replicate 16 (noKeys, 1)) enteringWalk).blendAmount
          = 55 / 1000 * 16)
      ∧ (run sampleLibrary (List.replicate 17 (noKeys, 1)) enteringWalk).charState = .WALK :=
  have h16 := (seventeen_blending_frames sampleLibrary (List.replicate 16 (noKeys, 1))
    enteringWalk enteringWalk_blendAmount
    (blendingFrames_of_ungated sampleLibrary _ enteringWalk 0
      (Or.inl enteringWalk_charState) (by simpa using enteringWalk_blendAmount)
      (by simp))).1 (by simp)
  have h17 := (seventeen_blending_frames sampleLibrary (List.replicate 17 (noKeys, 1))
    enteringWalk enteringWalk_blendAmount
    (blendingFrames_of_ungated sampleLibrary _ enteringWalk 0
      (Or.inl enteringWalk_charState) (by simpa using enteringWalk_blendAmount)
      (by simp))).2.1 (by simp)
  ⟨⟨h16.1, by simpa using h16.2⟩, by rw [h17.1, enteringWalk_charState]; rfl⟩

/-! ## The step relation -/

/-- The state `case IDLE` ends in. -/
theorem caseIDLE_charState (lib : Library) (k : Keys) (dt : ℚ) (s : State) :
    (caseIDLE lib k dt s).charState
      = if k.anyArrow then .IDLE_WALK
        else if k.KEY_J then .IDLE_PUNCH
        else if k.KEY_K then .IDLE_KICK
        else if k.KEY_T then .IDLE_TALK
        else s.charState := by
  unfold caseIDLE Keys.anyArrow
  split_ifs <;> rfl

/-- The accumulator `case IDLE` ends with. -/
theorem caseIDLE_blendAmount (lib : Library) (k : Keys) (dt : ℚ) (s : State) :
    (caseIDLE lib k dt s).blendAmount
      = if k.anyArrow then 0
        else if k.KEY_J then 0
        else if k.KEY_K then 0
        else if k.KEY_T then 0
        else s.blendAmount := by
  by_cases ha : k.anyArrow = true
  · rw [if_pos ha]
    exact caseIDLE_arrow_blendAmount lib k dt s ha
  · rw [if_neg ha]
    have hcond : (k.KEY_UP || k.KEY_DOWN || k.KEY_LEFT || k.KEY_RIGHT) = false := by
      simpa [Keys.anyArrow] using ha
    simp only [caseIDLE, hcond]
    split_ifs <;> first | rfl | contradiction

/-- The state `case WALK` ends in. -/
theorem caseWALK_charState (lib : Library) (k : Keys) (dt : ℚ) (s : State) :
    (caseWALK lib k dt s).charState = if k.anyArrow then s.charState else .WALK_IDLE := by
  simp only [caseWALK, walkMoveVars_isMoving, play_characterRotation]
  cases k.anyArrow <;> simp

/-- The accumulator `case WALK` ends with. -/
theorem caseWALK_blendAmount (lib : Library) (k : Keys) (dt : ℚ) (s : State) :
    (caseWALK lib k dt s).blendAmount = if k.anyArrow then s.blendAmount else 0 := by
  simp only [caseWALK, walkMoveVars_isMoving, play_characterRotation]
  cases k.anyArrow <;> simp

/-- In a blending state a frame that is not a blending frame has its gate closed: the
switch does nothing. -/
theorem controllerStep_gate_closed (lib : Library) (k : Keys) (dt : ℚ) (s : State)
    (hb : s.charState.isBlending = true) (h : runsBlend k s = false) :
    controllerStep lib k dt s = hotkeys k { s with calls := [] } := by
  have h0 : (hotkeys k { s with calls := [] }).charState = s.charState := by simp
  have ht : (hotkeys k { s with calls := [] }).animator.m_CurrentTime
      = (hotkeys k s).animator.m_CurrentTime := by rw [hotkeys_animator_calls]
  unfold controllerStep
  unfold runsBlend at h
  generalize hotkeys k { s with calls := [] } = s0 at h0 ht ⊢
  cases hs : s.charState <;> rw [hs] at h0 h hb
  · exact absurd hb (by decide)
  · simp at h
  · exact switchCharState_gate_closed lib k dt s0
      (Or.inl ⟨h0, by rw [ht]; simpa using h⟩)
  · simp at h
  · exact switchCharState_gate_closed lib k dt s0
      (Or.inr (Or.inl ⟨h0, by rw [ht]; simpa using h⟩))
  · simp at h
  · exact switchCharState_gate_closed lib k dt s0
      (Or.inr (Or.inr ⟨h0, by rw [ht]; simpa using h⟩))
  · simp at h
  · simp at h
  · exact absurd hb (by decide)

/-- A frame from a blending state ends in the same state or in its post-commit state. -/
theorem frame_blending_charState (lib : Library) (k : Keys) (dt : ℚ) (s : State)
    (hb : s.charState.isBlending = true) :
    (frame lib k dt s).charState = s.charState
      ∨ (frame lib k dt s).charState = commitTarget s.charState := by
  cases hrun : runsBlend k s
  · left
    rw [frame_charState, controllerStep_gate_closed lib k dt s hb hrun, hotkeys_charState]
  · rw [(frame_runsBlend lib k dt s hrun).1]
    split_ifs
    · right; rfl
    · left; rfl

/-- C16. Step relation: for every state and input, the successor of IDLE is one of IDLE,
IDLE_WALK, IDLE_PUNCH, IDLE_KICK, IDLE_TALK, and never WALK_IDLE; of IDLE_WALK one of
IDLE_WALK, WALK; of WALK one of WALK, WALK_IDLE; of WALK_IDLE one of WALK_IDLE, IDLE; of
IDLE_X one of IDLE_X, X_IDLE and of X_IDLE one of X_IDLE, IDLE, for X in punch, kick,
talk. -/
theorem step_relation (lib : Library) (k : Keys) (deltaTime : ℚ) (s : State) :
    (s.charState = .IDLE →
        ((frame lib k deltaTime s).charState = .IDLE
          ∨ (frame lib k deltaTime s).charState = .IDLE_WALK
          ∨ (frame lib k deltaTime s).charState = .IDLE_PUNCH
          ∨ (frame lib k deltaTime s).charState = .IDLE_KICK
          ∨ (frame lib k deltaTime s).charState = .IDLE_TALK)
        ∧ (frame lib k deltaTime s).charState ≠ .WALK_IDLE)
      ∧ (s.charState = .IDLE_WALK →
        (frame lib k deltaTime s).charState = .IDLE_WALK
          ∨ (frame lib k deltaTime s).charState = .WALK)
      ∧ (s.charState = .WALK →
        (frame lib k deltaTime s).charState = .WALK
          ∨ (frame lib k deltaTime s).charState = .WALK_IDLE)
      ∧ (s.charState = .WALK_IDLE →
        (frame lib k deltaTime s).charState = .WALK_IDLE
          ∨ (frame lib k deltaTime s).charState = .IDLE)
      ∧ (s.charState = .IDLE_PUNCH →
        (frame lib k deltaTime s).charState = .IDLE_PUNCH
          ∨ (frame lib k deltaTime s).charState = .PUNCH_IDLE)
      ∧ (s.charState = .PUNCH_IDLE →
        (frame lib k deltaTime s).charState = .PUNCH_IDLE
          ∨ (frame lib k deltaTime s).charState = .IDLE)
      ∧ (s.charState = .IDLE_KICK →
        (frame lib k deltaTime s).charState = .IDLE_KICK
          ∨ (frame lib k deltaTime s).charState = .KICK_IDLE)
      ∧ (s.charState = .KICK_IDLE →
        (frame lib k deltaTime s).charState = .KICK_IDLE
          ∨ (frame lib k deltaTime s).charState = .IDLE)
      ∧ (s.charState = .IDLE_TALK →
        (frame lib k deltaTime s).charState = .IDLE_TALK
          ∨ (frame lib k deltaTime s).charState = .TALK_IDLE)
      ∧ (s.charState = .TALK_IDLE →
        (frame lib k deltaTime s).charState = .TALK_IDLE
          ∨ (frame lib k deltaTime s).charState = .IDLE) := by
  have hblend : ∀ c : AnimState, c.isBlending = true → s.charState = c →
      (frame lib k deltaTime s).charState = c
        ∨ (frame lib k deltaTime s).charState = commitTarget c := by
    intro c hc hs
    have := frame_blending_charState lib k deltaTime s (by rw [hs]; exact hc)
    rw [hs] at this
    exact this
  refine ⟨?_, hblend _ rfl, ?_, hblend _ rfl, hblend _ rfl, hblend _ rfl, hblend _ rfl,
    hblend _ rfl, hblend _ rfl, hblend _ rfl⟩
  · intro hs
    have hc : (frame lib k deltaTime s).charState
        = if k.anyArrow then .IDLE_WALK
          else if k.KEY_J then .IDLE_PUNCH
          else if k.KEY_K then .IDLE_KICK
          else if k.KEY_T then .IDLE_TALK
          else .IDLE := by
      rw [frame_charState, controllerStep,
        switchCharState_IDLE lib k deltaTime _ (by simpa using hs), caseIDLE_charState,
        hotkeys_charState]
      simp only [hs]
    rw [hc]
    split_ifs <;> simp
  · intro hs
    have hc : (frame lib k deltaTime s).charState
        = if k.anyArrow then .WALK else .WALK_IDLE := by
      rw [frame_charState, controllerStep,
        switchCharState_WALK lib k deltaTime _ (by simpa using hs), caseWALK_charState,
        hotkeys_charState]
      simp only [hs]
    rw [hc]
    split_ifs <;> simp

/-- Witness for C16: from the initial state with every arrow key pressed the successor
is IDLE_WALK, not WALK_IDLE. -/
theorem step_relation_witness :
    (frame sampleLibrary
        { noKeys with KEY_UP := true, KEY_DOWN := true, KEY_LEFT := true, KEY_RIGHT := true }
        1 initState).charState ≠ .WALK_IDLE :=
  ((step_relation sampleLibrary
    { noKeys with KEY_UP := true, KEY_DOWN := true, KEY_LEFT := true, KEY_RIGHT := true }
    1 initState).1 rfl).2

/-! ## The blend increment and the frame time -/

/-- The state and the accumulator the switch ends with do not depend on `deltaTime`. -/
theorem switchCharState_deltaTime (lib : Library) (k : Keys) (dt1 dt2 : ℚ) (s : State) :
    (switchCharState lib k dt1 s).charState = (switchCharState lib k dt2 s).charState
      ∧ (switchCharState lib k dt1 s).blendAmount
        = (switchCharState lib k dt2 s).blendAmount := by
  cases hs : s.charState
  · rw [switchCharState_IDLE lib k dt1 s hs, switchCharState_IDLE lib k dt2 s hs,
      caseIDLE_charState, caseIDLE_charState, caseIDLE_blendAmount, caseIDLE_blendAmount]
    exact ⟨rfl, rfl⟩
  · rw [switchCharState_IDLE_PUNCH lib k dt1 s hs, switchCharState_IDLE_PUNCH lib k dt2 s hs]
    exact ⟨rfl, rfl⟩
  · rw [switchCharState_PUNCH_IDLE lib k dt1 s hs, switchCharState_PUNCH_IDLE lib k dt2 s hs]
    exact ⟨rfl, rfl⟩
  · rw [switchCharState_IDLE_KICK lib k dt1 s hs, switchCharState_IDLE_KICK lib k dt2 s hs]
    exact ⟨rfl, rfl⟩
  · rw [switchCharState_KICK_IDLE lib k dt1 s hs, switchCharState_KICK_IDLE lib k dt2 s hs]
    exact ⟨rfl, rfl⟩
  · rw [switchCharState_IDLE_TALK lib k dt1 s hs, switchCharState_IDLE_TALK lib k dt2 s hs]
    exact ⟨rfl, rfl⟩
  · rw [switchCharState_TALK_IDLE lib k dt1 s hs, switchCharState_TALK_IDLE lib k dt2 s hs]
    exact ⟨rfl, rfl⟩
  · rw [switchCharState_IDLE_WALK lib k dt1 s hs, switchCharState_IDLE_WALK lib k dt2 s hs]
    exact ⟨rfl, rfl⟩
  · rw [switchCharState_WALK_IDLE lib k dt1 s hs, switchCharState_WALK_IDLE lib k dt2 s hs]
    exact ⟨rfl, rfl⟩
  · rw [switchCharState_WALK lib k dt1 s hs, switchCharState_WALK lib k dt2 s hs,
      caseWALK_charState, caseWALK_charState, caseWALK_blendAmount, caseWALK_blendAmount]
    exact ⟨rfl, rfl⟩

/-- A frame from a blending state with the accumulator at 0 never commits: it ends in
the same state, with the accumulator at one increment if the blending block ran and
still at 0 if a gate kept it from running. -/
theorem frame_from_zero (lib : Library) (k : Keys) (dt : ℚ) (s : State)
    (hb : s.charState.isBlending = true) (h0 : s.blendAmount = 0) :
    (frame lib k dt s).charState = s.charState
      ∧ (frame lib k dt s).blendAmount = if runsBlend k s then 55 / 1000 else 0 := by
  have hf : fmod (s.blendAmount + blendRate) 1 = 55 / 1000 := by
    rw [h0]; norm_num [blendRate, fmod, trunc]
  cases hrun : runsBlend k s
  · rw [frame_charState, frame_blendAmount, controllerStep_gate_closed lib k dt s hb hrun,
      hotkeys_charState, hotkeys_blendAmount]
    exact ⟨rfl, by simpa using h0⟩
  · obtain ⟨hc, hbl⟩ := frame_runsBlend lib k dt s hrun
    rw [hf, if_neg (by norm_num)] at hc hbl
    exact ⟨hc, by simpa using hbl⟩

/-- The frame after `enteringWalk` stays in IDLE_WALK, whatever its keys. -/
theorem enteringWalk_holds (k : Keys) (dt : ℚ) :
    (frame sampleLibrary k dt enteringWalk).charState = enteringWalk.charState :=
  (frame_from_zero sampleLibrary k dt enteringWalk (by decide) enteringWalk_blendAmount).1

/-- C17. Fixed per-call blend increment: in a blending frame that does not commit, run
from a state the loop can reach, blendAmount after the frame equals blendAmount before
plus 0.055, whatever deltaTime is; and for every state, input and animator state,
charState and blendAmount after a frame are the same for any two values of deltaTime. -/
theorem fixed_blend_increment (lib : Library) (k : Keys) (deltaTime dt2 : ℚ) (s : State) :
    (Reachable lib s → runsBlend k s = true →
        (frame lib k deltaTime s).charState = s.charState →
        (frame lib k deltaTime s).blendAmount = s.blendAmount + 55 / 1000)
      ∧ (frame lib k deltaTime s).charState = (frame lib k dt2 s).charState
      ∧ (frame lib k deltaTime s).blendAmount = (frame lib k dt2 s).blendAmount := by
  refine ⟨?_, ?_⟩
  · intro hr hrun hsame
    have hinv := reachable_blendAmount lib s hr
    have hf := fmod_increment s.blendAmount hinv.1 hinv.2
    obtain ⟨hc, hbl⟩ := frame_runsBlend lib k deltaTime s hrun
    by_cases hcommit : 9 / 10 < fmod (s.blendAmount + blendRate) 1
    · rw [if_pos hcommit] at hc
      rw [hc] at hsame
      exact absurd hsame (commitTarget_ne _ (runsBlend_isBlending k s hrun))
    · rw [if_neg hcommit, hf] at hbl
      rw [hbl]
      rfl
  · exact switchCharState_deltaTime lib k deltaTime dt2 _

/-- Witness for C17: the frame after `enteringWalk` adds 0.055, with a frame time of one
second as with one of a thousand seconds. -/
theorem fixed_blend_increment_witness :
    (frame sampleLibrary noKeys 1 enteringWalk).blendAmount
        = enteringWalk.blendAmount + 55 / 1000
      ∧ (frame sampleLibrary noKeys 1 enteringWalk).blendAmount
        = (frame sampleLibrary noKeys 1000 enteringWalk).blendAmount :=
  have h := fixed_blend_increment sampleLibrary noKeys 1 1000 enteringWalk
  ⟨h.1 enteringWalk_reachable (by decide) (enteringWalk_holds noKeys 1), h.2.2⟩

/-- C18, counterexample. No library, keys, frame time and blending state with the
accumulator at 0 give a frame that leaves the state, so no deltaTime makes a single
frame commit; in particular a stalled frame of a million seconds from `enteringWalk`
stays in IDLE_WALK with the accumulator at 0.055. -/
theorem stalled_frame_counterexample :
    (¬ ∃ (lib : Library) (k : Keys) (deltaTime : ℚ) (s : State),
        s.charState.isBlending = true ∧ s.blendAmount = 0
          ∧ (frame lib k deltaTime s).charState ≠ s.charState)
      ∧ (frame sampleLibrary noKeys 1000000 enteringWalk).charState = .IDLE_WALK
      ∧ (frame sampleLibrary noKeys 1000000 enteringWalk).blendAmount = 55 / 1000 := by
  refine ⟨?_, ?_, ?_⟩
  · rintro ⟨lib, k, dt, s, hb, h0, hne⟩
    exact hne (frame_from_zero lib k dt s hb h0).1
  · rw [enteringWalk_holds, enteringWalk_charState]
  · rw [(frame_from_zero sampleLibrary noKeys 1000000 enteringWalk (by decide)
      enteringWalk_blendAmount).2, if_pos (by decide)]

/-- C18, amended. Stalled frame: however large deltaTime is, a single frame starting in
an Entering or Exiting state with blendAmount 0 does not commit; it ends in the same
state with blendAmount 0.055 when the blending block runs, and with blendAmount 0 when
the minimum-duration gate keeps it from running. -/
theorem stalled_frame_amended (lib : Library) (k : Keys) (deltaTime : ℚ) (s : State)
    (hb : s.charState.isBlending = true) (h0 : s.blendAmount = 0) :
    (frame lib k deltaTime s).charState = s.charState
      ∧ (runsBlend k s = true → (frame lib k deltaTime s).blendAmount = 55 / 1000)
      ∧ (runsBlend k s = false → (frame lib k deltaTime s).blendAmount = 0) := by
  obtain ⟨hc, hbl⟩ := frame_from_zero lib k deltaTime s hb h0
  refine ⟨hc, fun h => ?_, fun h => ?_⟩
  · rw [hbl, if_pos h]
  · rw [hbl, h]
    rfl

/-- Witness for C18 amended: a frame of a million seconds run from `exitingWalk` with
its accumulator put back to 0. -/
theorem stalled_frame_amended_witness :
    (frame sampleLibrary noKeys 1000000 { exitingWalk with blendAmount := 0 }).charState
        = .WALK_IDLE
      ∧ (frame sampleLibrary noKeys 1000000 { exitingWalk with blendAmount := 0 }).blendAmount
        = 55 / 1000 :=
  have h := stalled_frame_amended sampleLibrary noKeys 1000000
    { exitingWalk with blendAmount := 0 } rfl rfl
  ⟨h.1, h.2.1 rfl⟩

/-! ## The displacement of the frame that leaves IDLE -/

@[simp] theorem frame_characterRotation (lib : Library) (k : Keys) (dt : ℚ) (s : State) :
    (frame lib k dt s).characterRotation = (controllerStep lib k dt s).characterRotation := rfl

/-- The hotkey block reads the keys 1..5 only. -/
theorem hotkeys_congr (k1 k2 : Keys) (s : State) (h1 : k1.KEY_1 = k2.KEY_1)
    (h2 : k1.KEY_2 = k2.KEY_2) (h3 : k1.KEY_3 = k2.KEY_3) (h4 : k1.KEY_4 = k2.KEY_4)
    (h5 : k1.KEY_5 = k2.KEY_5) : hotkeys k1 s = hotkeys k2 s := by
  unfold hotkeys
  rw [h1, h2, h3, h4, h5]

/-- In a blending state the switch does not read the keys. -/
theorem switchCharState_blending_keys (lib : Library) (k1 k2 : Keys) (dt : ℚ) (s : State)
    (hb : s.charState.isBlending = true) :
    switchCharState lib k1 dt s = switchCharState lib k2 dt s := by
  cases hs : s.charState <;> rw [hs] at hb
  · exact absurd hb (by decide)
  · rw [switchCharState_IDLE_PUNCH lib k1 dt s hs, switchCharState_IDLE_PUNCH lib k2 dt s hs]
  · rw [switchCharState_PUNCH_IDLE lib k1 dt s hs, switchCharState_PUNCH_IDLE lib k2 dt s hs]
  · rw [switchCharState_IDLE_KICK lib k1 dt s hs, switchCharState_IDLE_KICK lib k2 dt s hs]
  · rw [switchCharState_KICK_IDLE lib k1 dt s hs, switchCharState_KICK_IDLE lib k2 dt s hs]
  · rw [switchCharState_IDLE_TALK lib k1 dt s hs, switchCharState_IDLE_TALK lib k2 dt s hs]
  · rw [switchCharState_TALK_IDLE lib k1 dt s hs, switchCharState_TALK_IDLE lib k2 dt s hs]
  · rw [switchCharState_IDLE_WALK lib k1 dt s hs, switchCharState_IDLE_WALK lib k2 dt s hs]
  · rw [switchCharState_WALK_IDLE lib k1 dt s hs, switchCharState_WALK_IDLE lib k2 dt s hs]
  · exact absurd hb (by decide)

/-- C20. Movement and action keys are ignored outside IDLE and WALK: for a frame that
starts in one of the eight blending states, the resulting charState, blendAmount,
characterPosition and characterRotation (indeed the whole resulting state) are the same
for any two key snapshots that agree on the numeric hotkeys 1..5, whatever their arrow
keys and J, K, T are. -/
theorem blending_ignores_keys (lib : Library) (k1 k2 : Keys) (deltaTime : ℚ) (s : State)
    (hb : s.charState.isBlending = true)
    (h1 : k1.KEY_1 = k2.KEY_1) (h2 : k1.KEY_2 = k2.KEY_2) (h3 : k1.KEY_3 = k2.KEY_3)
    (h4 : k1.KEY_4 = k2.KEY_4) (h5 : k1.KEY_5 = k2.KEY_5) :
    (frame lib k1 deltaTime s).charState = (frame lib k2 deltaTime s).charState
      ∧ (frame lib k1 deltaTime s).blendAmount = (frame lib k2 deltaTime s).blendAmount
      ∧ (frame lib k1 deltaTime s).characterPosition
        = (frame lib k2 deltaTime s).characterPosition
      ∧ (frame lib k1 deltaTime s).characterRotation
        = (frame lib k2 deltaTime s).characterRotation
      ∧ frame lib k1 deltaTime s = frame lib k2 deltaTime s := by
  have h : frame lib k1 deltaTime s = frame lib k2 deltaTime s := by
    unfold frame controllerStep
    rw [hotkeys_congr k1 k2 _ h1 h2 h3 h4 h5,
      switchCharState_blending_keys lib k1 k2 deltaTime _ (by simpa using hb)]
  rw [h]
  exact ⟨rfl, rfl, rfl, rfl, rfl⟩

/-- Witness for C20: every arrow key and J, K, T pressed against no key at all, from
`exitingWalk`. -/
theorem blending_ignores_keys_witness :
    frame sampleLibrary
        ⟨true, true, true, true, true, true, true, false, false, false, false, false⟩ 1
        exitingWalk
      = frame sampleLibrary noKeys 1 exitingWalk :=
  (blending_ignores_keys sampleLibrary
    ⟨true, true, true, true, true, true, true, false, false, false, false, false⟩ noKeys 1
    exitingWalk rfl rfl rfl rfl rfl rfl).2.2.2.2

end Assignment5

namespace Assignment3

/-! ## The sphere mesh -/

/-- The length of a `flatMap` whose pieces all have the same length. -/
theorem length_flatMap_const {α β : Type} (l : List α) (f : α → List β) (c : ℕ)
    (h : ∀ a ∈ l, (f a).length = c) : (l.flatMap f).length = l.length * c := by
  induction l with
  | nil => simp
  | cons a l ih =>
    rw [List.flatMap_cons, List.length_append, h a (List.mem_cons_self a l),
      ih (fun b hb => h b (List.mem_cons_of_mem a hb)), List.length_cons]
    ring

theorem toUnsignedInt_le (n : ℕ) : toUnsignedInt n ≤ n := Nat.mod_le n _

/-- Every index of the quad at stack `i` and sector `j < sectorCount` is below
`(i + 2) * (sectorCount + 1)`. -/
theorem sphereQuad_lt (sectorCount stackCount i j : ℕ) (hj : j < sectorCount) :
    ∀ idx ∈ sphereQuad sectorCount stackCount i j, idx < (i + 2) * (sectorCount + 1) := by
  have e : (i + 2) * (sectorCount + 1) = i * (sectorCount + 1) + 2 * sectorCount + 2 := by
    ring
  have h1 := toUnsignedInt_le (i * (sectorCount + 1) + j)
  have h2 := toUnsignedInt_le (i * (sectorCount + 1) + j + 1)
  have h3 := toUnsignedInt_le (i * (sectorCount + 1) + sectorCount + 1 + j)
  have h4 := toUnsignedInt_le (i * (sectorCount + 1) + sectorCount + 1 + j + 1)
  intro idx hidx
  rw [e]
  unfold sphereQuad at hidx
  simp only [List.mem_append] at hidx
  generalize i * (sectorCount + 1) = p at *
  rcases hidx with hidx | hidx <;> split_ifs at hidx <;>
    simp only [List.mem_cons, List.mem_singleton, List.not_mem_nil, or_false] at hidx <;>
    rcases hidx with rfl | rfl | rfl <;> omega

theorem sphereQuad_length (sectorCount stackCount i j : ℕ) :
    (sphereQuad sectorCount stackCount i j).length
      = (if i ≠ 0 then 3 else 0) + (if i ≠ stackCount - 1 then 3 else 0) := by
  unfold sphereQuad
  simp only [List.length_append]
  split_ifs <;> rfl

/-- Over the stacks `i < T`: how many triangles are emitted, three indices each, when
the first is skipped at `i = 0` and the second at `i = n`. -/
theorem stack_sum (n : ℕ) : ∀ T : ℕ,
    ((List.range T).map
        (fun i => (if i ≠ 0 then 3 else 0) + (if i ≠ n then 3 else 0))).sum
      = 3 * (T - 1) + (if n < T then 3 * (T - 1) else 3 * T) := by
  intro T
  induction T with
  | zero => simp
  | succ T ih =>
    rw [List.range_succ, List.map_append, List.sum_append, ih]
    simp only [List.map_cons, List.map_nil, List.sum_cons, List.sum_nil]
    split_ifs <;> omega

/-- The number of indices the index loop emits. -/
theorem sphereIndices_length (sectorCount stackCount : ℕ) :
    (sphereIndices sectorCount stackCount).length = 6 * sectorCount * (stackCount - 1) := by
  unfold sphereIndices
  rw [List.length_flatMap]
  have hinner : (List.length ∘ fun i =>
      (List.range sectorCount).flatMap fun j => sphereQuad sectorCount stackCount i j)
      = fun i => sectorCount
          * ((if i ≠ 0 then 3 else 0) + (if i ≠ stackCount - 1 then 3 else 0)) := by
    funext i
    simp only [Function.comp]
    rw [length_flatMap_const _ _ _ (fun j _ => sphereQuad_length sectorCount stackCount i j),
      List.length_range]
  rw [hinner, List.sum_map_mul_left, stack_sum (stackCount - 1) stackCount]
  rcases Nat.eq_zero_or_pos stackCount with h | h
  · subst h; simp
  · rw [if_pos (by omega)]
    ring

/-- C26. Sphere indices are in bounds: for every sectorCount and stackCount, in
particular those at least 1, every index the index loop of createSphereVAO emits is less
than (stackCount + 1) * (sectorCount + 1), which is the number of vertices the vertex
loop generated, at 8 floats each. -/
theorem sphere_indices_in_bounds (pi : ℚ) (cosf sinf : ℚ → ℚ)
    (sectorCount stackCount : ℕ) :
    (∀ idx ∈ sphereIndices sectorCount stackCount,
        idx < (stackCount + 1) * (sectorCount + 1))
      ∧ (sphereVertices pi cosf sinf sectorCount stackCount).length
        = 8 * ((stackCount + 1) * (sectorCount + 1)) := by
  constructor
  · intro idx hidx
    unfold sphereIndices at hidx
    simp only [List.mem_flatMap, List.mem_range] at hidx
    obtain ⟨i, hi, j, hj, hmem⟩ := hidx
    have h1 := sphereQuad_lt sectorCount stackCount i j hj idx hmem
    have h2 : (i + 2) * (sectorCount + 1) ≤ (stackCount + 1) * (sectorCount + 1) :=
      Nat.mul_le_mul_right _ (by omega)
    omega
  · unfold sphereVertices
    rw [length_flatMap_const _ _ (8 * (sectorCount + 1)), List.length_range]
    · ring
    · intro i _
      simp only []
      rw [length_flatMap_const (List.range (sectorCount + 1)) _ 8 (by intro j _; rfl),
        List.length_range]
      ring

/-- The count returned through `vertexCount`, in closed form. -/
theorem createSphereVAO_vertexCount_eq (sectorCount stackCount : ℕ) :
    createSphereVAO_vertexCount sectorCount stackCount
      = (6 * sectorCount * (stackCount - 1)) % 2 ^ 32 := by
  unfold createSphereVAO_vertexCount toUnsignedInt
  rw [sphereIndices_length]

/-- C27, counterexample. For sectorCount = stackCount = 30000 every index stays below
30001 * 30001 < 2^31, the index loop emits 5399820000 indices, and the count returned
through vertexCount is that number reduced to `unsigned int`, 1104852704. -/
theorem sphere_index_count_counterexample :
    (sphereIndices 30000 30000).length = 5399820000
      ∧ createSphereVAO_vertexCount 30000 30000 = 1104852704
      ∧ createSphereVAO_vertexCount 30000 30000 ≠ (sphereIndices 30000 30000).length
      ∧ (30000 + 1) * (30000 + 1) < 2 ^ 31 := by
  have h : (sphereIndices 30000 30000).length = 5399820000 :=
    (sphereIndices_length 30000 30000).trans (by norm_num)
  have hc : createSphereVAO_vertexCount 30000 30000 = 1104852704 :=
    (createSphereVAO_vertexCount_eq 30000 30000).trans (by norm_num)
  refine ⟨h, hc, ?_, by norm_num⟩
  rw [hc, h]
  norm_num

/-- C27, amended. Sphere index count: for every sectorCount and stackCount, in
particular those at least 1, the index loop of createSphereVAO emits
6 * sectorCount * (stackCount - 1) indices; the count returned through vertexCount is
that number modulo 2^32, so it equals the number of emitted indices whenever that is
below 2^32; for the call createSphereVAO(64, 32, ...) it is 11904. -/
theorem sphere_index_count_amended (sectorCount stackCount : ℕ) :
    (sphereIndices sectorCount stackCount).length = 6 * sectorCount * (stackCount - 1)
      ∧ createSphereVAO_vertexCount sectorCount stackCount
        = (6 * sectorCount * (stackCount - 1)) % 2 ^ 32
      ∧ (6 * sectorCount * (stackCount - 1) < 2 ^ 32 →
          createSphereVAO_vertexCount sectorCount stackCount
            = (sphereIndices sectorCount stackCount).length)
      ∧ createSphereVAO_vertexCount 64 32 = 11904 := by
  have h := sphereIndices_length sectorCount stackCount
  have hc := createSphereVAO_vertexCount_eq sectorCount stackCount
  refine ⟨h, hc, ?_, (createSphereVAO_vertexCount_eq 64 32).trans (by norm_num)⟩
  intro hlt
  rw [hc, h, Nat.mod_eq_of_lt hlt]

/-- Witness for C27 amended: the call of `main`, 64 sectors and 32 stacks. -/
theorem sphere_index_count_amended_witness :
    createSphereVAO_vertexCount 64 32 = (sphereIndices 64 32).length
      ∧ (sphereIndices 64 32).length = 11904 :=
  ⟨(sphere_index_count_amended 64 32).2.2.1 (by norm_num),
   (sphere_index_count_amended 64 32).1⟩

end Assignment3

namespace Assignment4

/-! ## What `spawnNewRow` writes -/

theorem spawnsOnly_refl (g : Game) : SpawnsOnly g g := ⟨g.cars, g.trees, g.roadRows, g.drawn, rfl⟩

theorem spawnsOnly_trans {g g2 g3 : Game} (h1 : SpawnsOnly g g2) (h2 : SpawnsOnly g2 g3) :
    SpawnsOnly g g3 := by
  obtain ⟨c1, t1, r1, d1, rfl⟩ := h1
  obtain ⟨c2, t2, r2, d2, rfl⟩ := h2
  exact ⟨c2, t2, r2, d2, rfl⟩

theorem spawnsOnly_advance (g : Game) : SpawnsOnly g g.advance :=
  ⟨g.cars, g.trees, g.roadRows, g.drawn + 1, rfl⟩

theorem spawnsOnly_spawnCar (rowIndex : ℤ) (rowZ : ℚ) (movingRight : Bool) (g : Game) (i : ℕ) :
    SpawnsOnly g (spawnCar rowIndex rowZ movingRight g i) :=
  ⟨_, g.trees, g.roadRows, g.drawn + 1 + 1, rfl⟩

theorem spawnsOnly_spawnTree (rowZ : ℚ) (g : Game) (i : ℕ) :
    SpawnsOnly g (spawnTree rowZ g i) :=
  ⟨g.cars, _, g.roadRows, g.drawn + 1, rfl⟩

theorem spawnsOnly_foldl {α : Type} (f : Game → α → Game)
    (hf : ∀ g a, SpawnsOnly g (f g a)) : ∀ (l : List α) (g : Game), SpawnsOnly g (l.foldl f g) := by
  intro l
  induction l with
  | nil => intro g; exact spawnsOnly_refl g
  | cons a l ih => intro g; exact spawnsOnly_trans (hf g a) (ih (f g a))

theorem spawnsOnly_roadRows (g : Game) (rows : List ℤ) :
    SpawnsOnly g { g with roadRows := rows } := ⟨g.cars, g.trees, rows, g.drawn, rfl⟩

theorem spawnsOnly_spawnNewRow (g : Game) : SpawnsOnly g (spawnNewRow g) := by
  unfold spawnNewRow
  dsimp only
  split_ifs
  · exact spawnsOnly_trans
      (spawnsOnly_trans (spawnsOnly_trans (spawnsOnly_advance g) (spawnsOnly_advance _))
        (spawnsOnly_trans (spawnsOnly_advance _)
          (spawnsOnly_foldl _ (spawnsOnly_spawnCar _ _ _) _ _)))
      (spawnsOnly_roadRows _ _)
  · exact spawnsOnly_trans
      (spawnsOnly_trans (spawnsOnly_trans (spawnsOnly_advance g) (spawnsOnly_advance _))
        (spawnsOnly_trans (spawnsOnly_advance _)
          (spawnsOnly_foldl _ (spawnsOnly_spawnTree _) _ _)))
      (spawnsOnly_roadRows _ _)
  · exact spawnsOnly_trans (spawnsOnly_trans (spawnsOnly_advance g) (spawnsOnly_advance _))
      (spawnsOnly_roadRows _ _)

theorem spawnsOnly_iterate (n : ℕ) : ∀ g : Game, SpawnsOnly g (Nat.iterate spawnNewRow n g) := by
  induction n with
  | zero => intro g; exact spawnsOnly_refl g
  | succ n ih =>
    intro g
    rw [Function.iterate_succ_apply]
    exact spawnsOnly_trans (spawnsOnly_spawnNewRow g) (ih _)

theorem spawnsOnly_spawnLoop (currentRow : ℤ) (fuel : ℕ) :
    ∀ g : Game, SpawnsOnly g (spawnLoop currentRow fuel g) := by
  induction fuel with
  | zero => intro g; exact spawnsOnly_refl g
  | succ n ih =>
    intro g
    unfold spawnLoop
    split_ifs
    · exact spawnsOnly_trans (spawnsOnly_spawnNewRow g) (ih _)
    · exact spawnsOnly_refl g

/-- The fields that `spawnNewRow` never writes. -/
theorem SpawnsOnly.fields {g g2 : Game} (h : SpawnsOnly g g2) :
    g2.playerPosition = g.playerPosition ∧ g2.playerRotation = g.playerRotation
      ∧ g2.playerScore = g.playerScore ∧ g2.gameOver = g.gameOver
      ∧ g2.gameSpeed = g.gameSpeed ∧ g2.furthestRow = g.furthestRow
      ∧ g2.cameraPosition = g.cameraPosition
      ∧ g2.wPressed = g.wPressed ∧ g2.aPressed = g.aPressed ∧ g2.sPressed = g.sPressed
      ∧ g2.dPressed = g.dPressed ∧ g2.rPressed = g.rPressed
      ∧ g2.generator = g.generator := by
  obtain ⟨c, t, r, d, rfl⟩ := h
  exact ⟨rfl, rfl, rfl, rfl, rfl, rfl, rfl, rfl, rfl, rfl, rfl, rfl, rfl⟩

/-! ## Cars per lane -/

theorem trunc_eq_floor (x : ℚ) (h : 0 ≤ x) : Assignment5.trunc x = ⌊x⌋ := by
  unfold Assignment5.trunc
  rw [if_pos h]

/-- The binade of a positive rational. -/
theorem log_two_eq (x : ℚ) (e : ℤ) (h1 : (2 : ℚ) ^ e ≤ x) (h2 : x < (2 : ℚ) ^ (e + 1)) :
    Int.log 2 x = e := by
  have hx : 0 < x := lt_of_lt_of_le (by positivity) h1
  apply le_antisymm
  · have := (Int.lt_zpow_iff_log_lt (b := 2) (by norm_num) hx).mp (by exact_mod_cast h2)
    omega
  · exact (Int.zpow_le_iff_le_log (b := 2) (by norm_num) hx).mp (by exact_mod_cast h1)

theorem roundNearestEven_ge (q : ℚ) (a : ℤ) (h : (a : ℚ) ≤ q) : a ≤ roundNearestEven q := by
  have hf : a ≤ ⌊q⌋ := Int.le_floor.mpr h
  unfold roundNearestEven
  split_ifs <;> omega

theorem roundNearestEven_le (q : ℚ) (b : ℤ) (h : q ≤ (b : ℚ)) : roundNearestEven q ≤ b := by
  have hf : ⌊q⌋ ≤ b := by
    have := Int.floor_le q
    exact_mod_cast (this.trans h)
  unfold roundNearestEven
  split_ifs with h1 h2 h3
  · exact hf
  · have hlt : ((⌊q⌋ : ℤ) : ℚ) < b := by linarith
    have : ⌊q⌋ < b := by exact_mod_cast hlt
    omega
  · exact hf
  · have hlt : ((⌊q⌋ : ℤ) : ℚ) < b := by linarith
    have : ⌊q⌋ < b := by exact_mod_cast hlt
    omega

theorem ulp32_of_binade (x : ℚ) (e : ℤ) (he : -126 ≤ e) (h1 : (2 : ℚ) ^ e ≤ x)
    (h2 : x < (2 : ℚ) ^ (e + 1)) : ulp32 x = (2 : ℚ) ^ (e - 23) := by
  have hx : 0 < x := lt_of_lt_of_le (by positivity) h1
  unfold ulp32
  rw [abs_of_pos hx, log_two_eq x e h1 h2, max_eq_left he]

/-- Rounding to `float` is monotone against the multiples of the spacing. -/
theorem toFloat32_bounds (x : ℚ) (e : ℤ) (he : -126 ≤ e) (h1 : (2 : ℚ) ^ e ≤ x)
    (h2 : x < (2 : ℚ) ^ (e + 1)) (a b : ℤ) (ha : (a : ℚ) * 2 ^ (e - 23) ≤ x)
    (hb : x ≤ (b : ℚ) * 2 ^ (e - 23)) :
    (a : ℚ) * 2 ^ (e - 23) ≤ toFloat32 x ∧ toFloat32 x ≤ (b : ℚ) * 2 ^ (e - 23) := by
  have hu := ulp32_of_binade x e he h1 h2
  have hpos : (0 : ℚ) < 2 ^ (e - 23) := by positivity
  unfold toFloat32
  rw [hu]
  constructor
  · have := roundNearestEven_ge (x / 2 ^ (e - 23)) a (by rw [le_div_iff₀ hpos]; exact ha)
    have h3 : (a : ℚ) ≤ roundNearestEven (x / 2 ^ (e - 23)) := by exact_mod_cast this
    exact mul_le_mul_of_nonneg_right h3 hpos.le
  · have := roundNearestEven_le (x / 2 ^ (e - 23)) b (by rw [div_le_iff₀ hpos]; exact hb)
    have h3 : (roundNearestEven (x / 2 ^ (e - 23)) : ℚ) ≤ b := by exact_mod_cast this
    exact mul_le_mul_of_nonneg_right h3 hpos.le

/-- A sum in `[1, 3)` rounds to a `float` in `[1, 3]`. -/
theorem toFloat32_range (x : ℚ) (h1 : 1 ≤ x) (h3 : x < 3) :
    1 ≤ toFloat32 x ∧ toFloat32 x ≤ 3 := by
  by_cases h2 : x < 2
  · have := toFloat32_bounds x 0 (by norm_num) (by norm_num; exact h1) (by norm_num; exact h2)
      (2 ^ 23) (2 ^ 24) (by norm_num; exact h1) (by norm_num; exact h2.le)
    norm_num at this
    exact ⟨this.1, by linarith⟩
  · have := toFloat32_bounds x 1 (by norm_num) (by norm_num; linarith) (by norm_num; linarith)
      (2 ^ 23) (3 * 2 ^ 22) (by norm_num; linarith) (by norm_num; linarith)
    norm_num at this
    exact ⟨by linarith, this.2⟩

/-- For a draw in `[0, 1)` the number of cars of a road row is 1, 2 or 3. -/
theorem numCarsPerLane_range (u : ℚ) (h0 : 0 ≤ u) (h1 : u < 1) :
    numCarsPerLane u = 1 ∨ numCarsPerLane u = 2 ∨ numCarsPerLane u = 3 := by
  obtain ⟨ha, hb⟩ := toFloat32_range (1 + u * 2) (by linarith) (by linarith)
  unfold numCarsPerLane
  rw [trunc_eq_floor _ (by linarith)]
  have h1 : (1 : ℤ) ≤ ⌊toFloat32 (1 + u * 2)⌋ := Int.le_floor.mpr (by exact_mod_cast ha)
  have h3 : ⌊toFloat32 (1 + u * 2)⌋ ≤ 3 := by
    have := (Int.floor_le (toFloat32 (1 + u * 2))).trans hb
    exact_mod_cast this
  omega

/-- With the next two draws at 0.9 a row is a safe row without trees. -/
theorem spawnNewRow_safe (g : Game) (h1 : g.generator g.drawn = 9 / 10)
    (h2 : g.generator (g.drawn + 1) = 9 / 10) :
    spawnNewRow g = { g with roadRows := g.roadRows ++ [0], drawn := g.drawn + 1 + 1 } := by
  have e1 : ¬ ((9 : ℚ) / 10 < 1 / 2) := by norm_num
  have e2 : ¬ ((9 : ℚ) / 10 < 4 / 10) := by norm_num
  simp only [spawnNewRow, Game.draw, Game.advance, h1, h2, e1, e2, if_false]

theorem iterate_spawnNewRow_safe (n : ℕ) : ∀ g : Game,
    (∀ i, g.drawn ≤ i → g.generator i = 9 / 10) →
    Nat.iterate spawnNewRow n g
      = { g with roadRows := g.roadRows ++ List.replicate n 0, drawn := g.drawn + 2 * n } := by
  induction n with
  | zero => intro g _; simp
  | succ n ih =>
    intro g hg
    rw [Function.iterate_succ_apply,
      spawnNewRow_safe g (hg _ le_rfl) (hg _ (Nat.le_succ _)), ih]
    · simp only [List.append_assoc, List.singleton_append, List.replicate_succ]
      congr 1
      omega
    · intro i hi
      exact hg i (by simp only at hi; omega)

/-- The first row spawned with the generator `treeDraws`: a safe row with one tree at
`(2, -0.5, -10)`. -/
theorem spawnNewRow_treeDraws (g : Game) (hgen : g.generator = treeDraws) (hd : g.drawn = 0)
    (hr : g.roadRows = []) :
    spawnNewRow g
      = { g with trees := g.trees ++ [⟨⟨2, -1 / 2, -10⟩⟩], roadRows := [0], drawn := 4 } := by
  have e1 : ¬ ((9 : ℚ) / 10 < 1 / 2) := by norm_num
  have e2 : ((1 : ℚ) / 10 < 4 / 10) := by norm_num
  have e3 : numTrees 0 = 1 := by
    unfold numTrees
    rw [trunc_eq_floor _ (by norm_num)]
    norm_num
  have e4 : (-(GRID_WIDTH : ℚ) * MOVE_DISTANCE * (8 / 10)
      + 49 / 88 * ((GRID_WIDTH : ℚ) * MOVE_DISTANCE * (8 / 10)
        - -(GRID_WIDTH : ℚ) * MOVE_DISTANCE * (8 / 10))) = 2 := by
    norm_num [GRID_WIDTH, MOVE_DISTANCE]
  have d0 : treeDraws 0 = 9 / 10 := rfl
  have d1 : treeDraws (0 + 1) = 1 / 10 := rfl
  have d2 : treeDraws (0 + 1 + 1) = 0 := rfl
  have d3 : treeDraws (0 + 1 + 1 + 1) = 49 / 88 := rfl
  simp only [spawnNewRow, Game.draw, Game.advance, hgen, hd, hr, d0, d1, d2, d3, e1, e2, e3,
    if_false, if_true]
  norm_num [List.range_succ, spawnTree, Game.draw, Game.advance, treeDraws, GRID_WIDTH,
    MOVE_DISTANCE]

/-- The sample game in full. -/
theorem treeGame_eq :
    treeGame
      = { baseGame with
          cameraPosition := ⟨0, 10, -16⟩
          trees := [⟨⟨2, -1 / 2, -10⟩⟩]
          roadRows := 0 :: List.replicate 29 0
          drawn := 62 } := by
  unfold treeGame resetGame
  simp only [VISIBLE_ROWS]
  rw [show 15 * 2 = 29 + 1 from rfl, Function.iterate_succ_apply,
    spawnNewRow_treeDraws _ rfl rfl rfl, iterate_spawnNewRow_safe 29]
  · simp [baseGame]
    norm_num
  · intro i hi
    simp only at hi
    show treeDraws i = 9 / 10
    unfold treeDraws
    rw [if_neg (by omega), if_neg (by omega), if_neg (by omega)]

/-! ## Moves and trees -/

/-- The W branch lands on the cell it checked: an accepted forward move ends on a cell
for which `canMoveTo` holds. -/
theorem w_move_lands_on_checked_cell (k : Input) (g : Game) (hg : g.gameOver = false)
    (hW : k.KEY_W = true) (hA : k.KEY_A = false) (hS : k.KEY_S = false)
    (hD : k.KEY_D = false) (hR : k.KEY_R = false)
    (hch : (processInput k g).playerPosition ≠ g.playerPosition) :
    canMoveTo (processInput k g) (processInput k g).playerPosition = true := by
  simp only [processInput, processMoves, hg, hW, hA, hS, hD, hR, Bool.not_false,
    Bool.not_true, Bool.true_and, Bool.false_and, if_true, if_false] at hch ⊢
  by_cases h1 : (!g.wPressed) = true
  · simp only [h1, if_true] at hch ⊢
    by_cases h2 : (decide (g.playerPosition.z + MOVE_DISTANCE ≥ g.cameraPosition.z + 2)
        && canMoveTo g ⟨g.playerPosition.x, g.playerPosition.y,
          g.playerPosition.z + MOVE_DISTANCE⟩) = true
    · simp only [h2, if_true] at hch ⊢
      simp only [Bool.and_eq_true] at h2
      exact h2.2
    · simp only [h2] at hch
      exact absurd rfl hch
  · simp only [h1] at hch
    exact absurd rfl hch

/-- C21, the code at the failing input. In `treeGame` (after `resetGame`: player at
(0, 0, -10), one tree at (2, -0.5, -10), game not over) a press of A is accepted because
the cell checked, (-2, 0, -10), is free, but the player is moved to (2, 0, -10), onto the
tree, where `canMoveTo` fails. -/
theorem a_move_lands_on_tree :
    treeGame.gameOver = false
      ∧ treeGame.playerPosition = ⟨0, 0, -10⟩
      ∧ treeGame.trees = [⟨⟨2, -1 / 2, -10⟩⟩]
      ∧ canMoveTo treeGame ⟨-2, 0, -10⟩ = true
      ∧ (processInput { noInput with KEY_A := true } treeGame).playerPosition = ⟨2, 0, -10⟩
      ∧ canMoveTo (processInput { noInput with KEY_A := true } treeGame)
          (processInput { noInput with KEY_A := true } treeGame).playerPosition = false := by
  rw [treeGame_eq]
  refine ⟨rfl, rfl, rfl, ?_, ?_, ?_⟩
  · norm_num [canMoveTo]
  · norm_num [processInput, processMoves, canMoveTo, baseGame, noInput, MOVE_DISTANCE,
      GRID_WIDTH]
  · norm_num [processInput, processMoves, canMoveTo, baseGame, noInput, MOVE_DISTANCE,
      GRID_WIDTH]

/-! ## The frame and the player -/

/-- The game-state update never writes the player's position and rotation nor the
`static` flags of `processInput`. -/
theorem gameUpdate_player (dt : ℚ) (g : Game) :
    (gameUpdate dt g).playerPosition = g.playerPosition
      ∧ (gameUpdate dt g).playerRotation = g.playerRotation
      ∧ (gameUpdate dt g).wPressed = g.wPressed ∧ (gameUpdate dt g).aPressed = g.aPressed
      ∧ (gameUpdate dt g).sPressed = g.sPressed ∧ (gameUpdate dt g).dPressed = g.dPressed
      ∧ (gameUpdate dt g).rPressed = g.rPressed := by
  unfold gameUpdate
  split_ifs
  · dsimp only
    have h := (spawnsOnly_spawnLoop
      (Assignment5.trunc (((checkCollisions (updateCars dt g)).playerPosition.z + 10)
        / MOVE_DISTANCE))
      ((((Assignment5.trunc (((checkCollisions (updateCars dt g)).playerPosition.z + 10)
            / MOVE_DISTANCE)) + (VISIBLE_ROWS : ℤ)) % 2 ^ 64 + 1
          - ((if Assignment5.trunc (((checkCollisions (updateCars dt g)).playerPosition.z + 10)
                / MOVE_DISTANCE) > (checkCollisions (updateCars dt g)).furthestRow then
              { checkCollisions (updateCars dt g) with
                furthestRow := Assignment5.trunc
                  (((checkCollisions (updateCars dt g)).playerPosition.z + 10) / MOVE_DISTANCE)
                playerScore := Assignment5.trunc
                  (((checkCollisions (updateCars dt g)).playerPosition.z + 10) / MOVE_DISTANCE)
                gameSpeed := (checkCollisions (updateCars dt g)).gameSpeed + 1 / 100 }
            else checkCollisions (updateCars dt g)).roadRows.length : ℤ)).toNat)
      (if Assignment5.trunc (((checkCollisions (updateCars dt g)).playerPosition.z + 10)
            / MOVE_DISTANCE) > (checkCollisions (updateCars dt g)).furthestRow then
          { checkCollisions (updateCars dt g) with
            furthestRow := Assignment5.trunc
              (((checkCollisions (updateCars dt g)).playerPosition.z + 10) / MOVE_DISTANCE)
            playerScore := Assignment5.trunc
              (((checkCollisions (updateCars dt g)).playerPosition.z + 10) / MOVE_DISTANCE)
            gameSpeed := (checkCollisions (updateCars dt g)).gameSpeed + 1 / 100 }
        else checkCollisions (updateCars dt g))).fields
    obtain ⟨h1, h2, -, -, -, -, -, h8, h9, h10, h11, h12, -⟩ := h
    rw [h1, h2, h8, h9, h10, h11, h12]
    unfold checkCollisions updateCars
    split_ifs <;> exact ⟨rfl, rfl, rfl, rfl, rfl, rfl, rfl⟩
  · exact ⟨rfl, rfl, rfl, rfl, rfl, rfl, rfl⟩

/-- When the game is over the game-state update is skipped. -/
theorem gameUpdate_of_gameOver (dt : ℚ) (g : Game) (h : g.gameOver = true) :
    gameUpdate dt g = g := by
  unfold gameUpdate
  rw [if_neg (by simp [h])]

/-- When the game is over `processInput` skips the moves. -/
theorem processInput_of_gameOver (k : Input) (g : Game) (h : g.gameOver = true) :
    processInput k g
      = if k.KEY_R && !g.rPressed then { resetGame g with rPressed := true }
        else if !k.KEY_R then { g with rPressed := false }
        else g := by
  unfold processInput
  simp only [h, Bool.not_true, Bool.false_eq_true, if_false]
  cases hR : k.KEY_R <;> cases hr : g.rPressed <;> simp <;> exact h

/-! ## Game over -/

/-- C25. Game-over freeze: when gameOver is true and R is not pressed, a whole frame
(processInput, then the game-state update and the camera follow of the main loop)
leaves playerPosition, playerRotation, playerScore, furthestRow, gameSpeed, cars, trees,
roadRows and gameOver unchanged; and a frame that starts with gameOver true ends with
gameOver false only if it ran resetGame, on a new press of R. -/
theorem game_over_freeze (k : Input) (deltaTime : ℚ) (g : Game) (hg : g.gameOver = true) :
    (k.KEY_R = false →
        (gameFrame k deltaTime g).playerPosition = g.playerPosition
          ∧ (gameFrame k deltaTime g).playerRotation = g.playerRotation
          ∧ (gameFrame k deltaTime g).playerScore = g.playerScore
          ∧ (gameFrame k deltaTime g).furthestRow = g.furthestRow
          ∧ (gameFrame k deltaTime g).gameSpeed = g.gameSpeed
          ∧ (gameFrame k deltaTime g).cars = g.cars
          ∧ (gameFrame k deltaTime g).trees = g.trees
          ∧ (gameFrame k deltaTime g).roadRows = g.roadRows
          ∧ (gameFrame k deltaTime g).gameOver = true)
      ∧ ((gameFrame k deltaTime g).gameOver = false →
          k.KEY_R = true ∧ g.rPressed = false
            ∧ processInput k g = { resetGame g with rPressed := true }) := by
  have hp := processInput_of_gameOver k g hg
  constructor
  · intro hR
    have hp2 : processInput k g = { g with rPressed := false } := by
      rw [hp]; simp [hR]
    unfold gameFrame
    rw [hp2, gameUpdate_of_gameOver _ _ (by exact hg)]
    exact ⟨rfl, rfl, rfl, rfl, rfl, rfl, rfl, rfl, hg⟩
  · intro hfalse
    by_cases hreset : (k.KEY_R && !g.rPressed) = true
    · rw [if_pos hreset] at hp
      simp only [Bool.and_eq_true, Bool.not_eq_true'] at hreset
      exact ⟨hreset.1, hreset.2, hp⟩
    · rw [if_neg hreset] at hp
      have hover : (processInput k g).gameOver = true := by
        rw [hp]; split_ifs <;> exact hg
      unfold gameFrame at hfalse
      rw [gameUpdate_of_gameOver _ _ hover] at hfalse
      have : (cameraFollow deltaTime (processInput k g)).gameOver = true := hover
      rw [this] at hfalse
      exact absurd hfalse (by decide)

/-- Witness for C25: the sample game, stopped, with W held for a frame. -/
theorem game_over_freeze_witness :
    (gameFrame { noInput with KEY_W := true } 1
        { treeGame with gameOver := true }).playerPosition
      = ({ treeGame with gameOver := true } : Game).playerPosition
    ∧ (gameFrame { noInput with KEY_W := true } 1 { treeGame with gameOver := true }).gameOver
      = true :=
  have h := (game_over_freeze { noInput with KEY_W := true } 1
    { treeGame with gameOver := true } rfl).1 rfl
  ⟨h.1, h.2.2.2.2.2.2.2.2⟩

/-! ## One move per key press -/

/-- While the flag of the held movement key is set, the moves do nothing to the player. -/
theorem processMoves_held (m : MoveKey) (k : Input) (g : Game) (hk : k.onlyMove m)
    (hf : g.pressedFlag m = true) :
    (processMoves k g).playerPosition = g.playerPosition
      ∧ (processMoves k g).pressedFlag m = true
      ∧ (processMoves k g).rPressed = g.rPressed
      ∧ (processMoves k g).gameOver = g.gameOver := by
  have hW := hk .W
  have hA := hk .A
  have hS := hk .S
  have hD := hk .D
  cases m <;> simp [Input.pressed] at hW hA hS hD <;>
    simp only [Game.pressedFlag] at hf ⊢ <;>
    simp [processMoves, hW, hA, hS, hD, hf]

/-- After the moves the flag of the pressed movement key is set. -/
theorem processMoves_flag (m : MoveKey) (k : Input) (g : Game) (hk : k.onlyMove m) :
    (processMoves k g).pressedFlag m = true
      ∧ (processMoves k g).rPressed = g.rPressed
      ∧ (processMoves k g).gameOver = g.gameOver := by
  have hW := hk .W
  have hA := hk .A
  have hS := hk .S
  have hD := hk .D
  cases m <;> simp [Input.pressed] at hW hA hS hD <;>
    simp only [Game.pressedFlag] <;>
    simp only [processMoves, hW, hA, hS, hD, Bool.not_true, Bool.not_false, Bool.true_and,
      Bool.false_and, Bool.false_eq_true, if_true, if_false] <;>
    refine ⟨?_, ?_, ?_⟩ <;> split_ifs <;> simp_all

/-- The function `resetGame` puts the player back at the start, with the game not over,
and leaves the `static` flags of `processInput` and the generator alone. -/
theorem resetGame_fields (g : Game) :
    (resetGame g).playerPosition = ⟨0, 0, -10⟩ ∧ (resetGame g).gameOver = false
      ∧ (∀ m, (resetGame g).pressedFlag m = g.pressedFlag m)
      ∧ (resetGame g).rPressed = g.rPressed
      ∧ (resetGame g).generator = g.generator := by
  unfold resetGame
  dsimp only
  obtain ⟨h1, -, -, h4, -, -, -, h8, h9, h10, h11, h12, h13⟩ :=
    (spawnsOnly_iterate (VISIBLE_ROWS * 2)
      { playerPosition := ⟨0, 0, -10⟩, playerRotation := 0, cars := [], trees := [],
        roadRows := [], playerScore := 0, gameOver := false, gameSpeed := 1, furthestRow := 0,
        cameraPosition := ⟨0, 0 + 10, -10 - 6⟩, wPressed := g.wPressed,
        aPressed := g.aPressed, sPressed := g.sPressed, dPressed := g.dPressed,
        rPressed := g.rPressed, generator := g.generator, drawn := g.drawn }).fields
  refine ⟨h1, h4, ?_, h12, h13⟩
  intro m
  cases m
  · exact h8
  · exact h9
  · exact h10
  · exact h11

theorem pressedFlag_rPressed (g : Game) (b : Bool) (m : MoveKey) :
    ({ g with rPressed := b } : Game).pressedFlag m = g.pressedFlag m := by
  cases m <;> rfl

/-- The function `processInput` by cases: the moves unless the game is over, then the
reset on a new press of R, and `rPressed` following the key. -/
theorem processInput_cases (k : Input) (g : Game) :
    processInput k g =
      if k.KEY_R = true then
        (if (if g.gameOver = true then g else processMoves k g).rPressed = true then
          (if g.gameOver = true then g else processMoves k g)
        else { resetGame (if g.gameOver = true then g else processMoves k g) with
                rPressed := true })
      else { (if g.gameOver = true then g else processMoves k g) with rPressed := false } := by
  have e : (if (!g.gameOver) = true then processMoves k g else g)
      = if g.gameOver = true then g else processMoves k g := by
    cases g.gameOver <;> rfl
  unfold processInput
  dsimp only
  rw [e]
  generalize (if g.gameOver = true then g else processMoves k g) = g1
  cases hR : k.KEY_R <;> cases hr : g1.rPressed <;> simp [hr]

/-- The first call with the movement key pressed and the game not over sets its flag. -/
theorem processInput_first (m : MoveKey) (k : Input) (g : Game) (hg : g.gameOver = false)
    (hk : k.onlyMove m) :
    (processInput k g).pressedFlag m = true ∧ (processInput k g).rPressed = k.KEY_R := by
  obtain ⟨hf, -, -⟩ := processMoves_flag m k g hk
  have e : (if g.gameOver = true then g else processMoves k g) = processMoves k g := by
    rw [hg]; rfl
  rw [processInput_cases, e]
  split_ifs with h1 h2
  · exact ⟨hf, by rw [h2, h1]⟩
  · refine ⟨?_, h1.symm⟩
    rw [pressedFlag_rPressed, (resetGame_fields _).2.2.1 m]
    exact hf
  · refine ⟨?_, ?_⟩
    · rw [pressedFlag_rPressed]; exact hf
    · cases hR : k.KEY_R
      · rfl
      · exact absurd hR h1

/-- A later call, with the flag set and R not newly pressed, leaves the player where it
is and keeps the flag set. -/
theorem processInput_later (m : MoveKey) (k : Input) (g : Game) (hk : k.onlyMove m)
    (hf : g.pressedFlag m = true) (hR : k.KEY_R = true → g.rPressed = true) :
    (processInput k g).playerPosition = g.playerPosition
      ∧ (processInput k g).pressedFlag m = true
      ∧ (processInput k g).rPressed = k.KEY_R := by
  have hg1 : (if g.gameOver = true then g else processMoves k g).playerPosition
        = g.playerPosition
      ∧ (if g.gameOver = true then g else processMoves k g).pressedFlag m = true
      ∧ (if g.gameOver = true then g else processMoves k g).rPressed = g.rPressed := by
    obtain ⟨h1, h2, h3, -⟩ := processMoves_held m k g hk hf
    split_ifs
    · exact ⟨rfl, hf, rfl⟩
    · exact ⟨h1, h2, h3⟩
  rw [processInput_cases]
  generalize (if g.gameOver = true then g else processMoves k g) = g1 at hg1 ⊢
  obtain ⟨hp, hfl, hr⟩ := hg1
  split_ifs with h1 h2
  · exact ⟨hp, hfl, by rw [h2, h1]⟩
  · exact absurd (by rw [hr]; exact hR h1) h2
  · refine ⟨hp, ?_, ?_⟩
    · rw [pressedFlag_rPressed]; exact hfl
    · cases hkR : k.KEY_R
      · rfl
      · exact absurd hkR h1

/-- What a frame leaves of the player is what its `processInput` left. -/
theorem gameFrame_player (m : MoveKey) (k : Input) (dt : ℚ) (g : Game) :
    (gameFrame k dt g).playerPosition = (processInput k g).playerPosition
      ∧ (gameFrame k dt g).pressedFlag m = (processInput k g).pressedFlag m
      ∧ (gameFrame k dt g).rPressed = (processInput k g).rPressed := by
  obtain ⟨h1, -, h3, h4, h5, h6, h7⟩ := gameUpdate_player dt (processInput k g)
  unfold gameFrame cameraFollow
  dsimp only
  refine ⟨h1, ?_, h7⟩
  cases m <;> simp only [Game.pressedFlag] <;> assumption

/-- Frames after the first: with the flag of the held key set and R never newly pressed,
the player stays where it is. -/
theorem runFrames_held (m : MoveKey) :
    ∀ (rest : List (Input × ℚ)) (prev : Input × ℚ) (g : Game) (n : ℕ),
      g.pressedFlag m = true → g.rPressed = prev.1.KEY_R →
      List.Chain (fun a b : Input × ℚ => b.1.KEY_R = true → a.1.KEY_R = true) prev rest →
      (∀ x ∈ rest, x.1.onlyMove m) →
      (runFrames (rest.take n) g).playerPosition = g.playerPosition := by
  intro rest
  induction rest with
  | nil => intro _ _ n _ _ _ _; simp [runFrames]
  | cons x rest ih =>
    intro prev g n hf hr hchain hall
    cases n with
    | zero => simp [runFrames]
    | succ n =>
      rw [List.chain_cons] at hchain
      obtain ⟨hstep, hchain⟩ := hchain
      obtain ⟨h1, h2, h3⟩ := processInput_later m x.1 g (hall x (List.mem_cons_self _ _)) hf
        (fun h => by rw [hr]; exact hstep h)
      obtain ⟨f1, f2, f3⟩ := gameFrame_player m x.1 x.2 g
      rw [List.take_succ_cons]
      show (runFrames (rest.take n) (gameFrame x.1 x.2 g)).playerPosition = g.playerPosition
      rw [ih x (gameFrame x.1 x.2 g) n (by rw [f2]; exact h2) (by rw [f3]; exact h3) hchain
        (fun y hy => hall y (List.mem_cons_of_mem _ hy)), f1, h1]

/-- Frames run one after the other. -/
theorem runFrames_append (l1 l2 : List (Input × ℚ)) :
    ∀ g : Game, runFrames (l1 ++ l2) g = runFrames l2 (runFrames l1 g) := by
  induction l1 with
  | nil => intro g; rfl
  | cons x l1 ih => intro g; exact ih (gameFrame x.1 x.2 g)

/-- The first frame of `treeGame` with W pressed: the player steps forward to
(0, 0, -8), the game is not over, and the flag of R stays clear. -/
theorem treeGame_frame_wHeld :
    (gameFrame wHeld (1 / 60) treeGame).playerPosition = ⟨0, 0, -8⟩
      ∧ (gameFrame wHeld (1 / 60) treeGame).gameOver = false
      ∧ (gameFrame wHeld (1 / 60) treeGame).rPressed = false := by
  have hp : processInput wHeld treeGame
      = { treeGame with playerPosition := ⟨0, 0, -8⟩, wPressed := true } := by
    rw [treeGame_eq]
    norm_num [processInput, processMoves, canMoveTo, baseGame, noInput, wHeld, MOVE_DISTANCE,
      GRID_WIDTH]
  obtain ⟨f1, -, f3⟩ := gameFrame_player .W wHeld (1 / 60) treeGame
  refine ⟨by rw [f1, hp], ?_, by rw [f3, hp]; rw [treeGame_eq]; rfl⟩
  unfold gameFrame cameraFollow
  dsimp only
  rw [hp, treeGame_eq]
  unfold gameUpdate
  norm_num [updateCars, checkCollisions, baseGame, Assignment5.trunc, MOVE_DISTANCE,
    VISIBLE_ROWS, spawnLoop]

theorem onlyMove_wHeld : wHeld.onlyMove .W := by
  intro m2
  cases m2 <;> rfl

theorem onlyMove_wHeldReset : wHeldReset.onlyMove .W := by
  intro m2
  cases m2 <;> rfl

/-- C22, the code at a counterexample. From `treeGame`, W is pressed in two consecutive
calls of `processInput`, no other movement key is, and the game is not over at either
call; the second call also sees R newly pressed. The first call moves the player to
(0, 0, -8) and the second call, through `resetGame`, moves it back to (0, 0, -10): the
position changes in the second call too. -/
theorem one_move_per_press_counterexample :
    treeGame.gameOver = false
      ∧ wHeld.onlyMove .W ∧ wHeldReset.onlyMove .W
      ∧ (processInput wHeld treeGame).playerPosition ≠ treeGame.playerPosition
      ∧ (gameFrame wHeld (1 / 60) treeGame).gameOver = false
      ∧ (processInput wHeldReset (gameFrame wHeld (1 / 60) treeGame)).playerPosition
          ≠ (gameFrame wHeld (1 / 60) treeGame).playerPosition := by
  obtain ⟨h1, h2, h3⟩ := treeGame_frame_wHeld
  obtain ⟨f1, -, -⟩ := gameFrame_player .W wHeld (1 / 60) treeGame
  have e : (if (gameFrame wHeld (1 / 60) treeGame).gameOver = true
        then gameFrame wHeld (1 / 60) treeGame
        else processMoves wHeldReset (gameFrame wHeld (1 / 60) treeGame)).rPressed = false := by
    rw [h2]
    exact (processMoves_held .W wHeldReset _ onlyMove_wHeldReset
      (by rw [(gameFrame_player .W wHeld (1 / 60) treeGame).2.1]
          exact (processInput_first .W wHeld treeGame (by rw [treeGame_eq]; rfl)
            onlyMove_wHeld).1)).2.2.1.trans h3
  refine ⟨by rw [treeGame_eq]; rfl, onlyMove_wHeld, onlyMove_wHeldReset, ?_, h2, ?_⟩
  · rw [← f1, h1, treeGame_eq]
    simp [baseGame]
  · rw [processInput_cases, if_pos (show wHeldReset.KEY_R = true from rfl),
      if_neg (by rw [e]; simp), h1]
    generalize (if (gameFrame wHeld (1 / 60) treeGame).gameOver = true
      then gameFrame wHeld (1 / 60) treeGame
      else processMoves wHeldReset (gameFrame wHeld (1 / 60) treeGame)) = g1
    dsimp only
    rw [(resetGame_fields g1).1]
    simp

/-- C22, amended. In a sequence of consecutive frames whose first call of `processInput`
finds the game not over, in which one movement key is pressed in every call, no other
movement key is pressed, and R is pressed in a call after the first only if it was pressed
in the call before, `playerPosition` changes in at most the first call: after any number
`n` of the later frames the player is where the first frame left it, and the call of
`processInput` of the next frame leaves it there. -/
theorem one_move_per_press_amended (m : MoveKey) (first : Input × ℚ)
    (rest : List (Input × ℚ)) (g : Game) (hg : g.gameOver = false)
    (hfirst : first.1.onlyMove m) (hrest : ∀ x ∈ rest, x.1.onlyMove m)
    (hR : List.Chain (fun a b : Input × ℚ => b.1.KEY_R = true → a.1.KEY_R = true) first rest)
    (n : ℕ) :
    (runFrames (rest.take n) (gameFrame first.1 first.2 g)).playerPosition
        = (gameFrame first.1 first.2 g).playerPosition
      ∧ ∀ x : Input × ℚ, rest[n]? = some x →
          (processInput x.1 (runFrames (rest.take n) (gameFrame first.1 first.2 g))).playerPosition
            = (runFrames (rest.take n) (gameFrame first.1 first.2 g)).playerPosition := by
  obtain ⟨p1, p2⟩ := processInput_first m first.1 g hg hfirst
  obtain ⟨-, f2, f3⟩ := gameFrame_player m first.1 first.2 g
  have key : ∀ j : ℕ, (runFrames (rest.take j) (gameFrame first.1 first.2 g)).playerPosition
      = (gameFrame first.1 first.2 g).playerPosition := fun j =>
    runFrames_held m rest first (gameFrame first.1 first.2 g) j (by rw [f2]; exact p1)
      (by rw [f3]; exact p2) hR hrest
  refine ⟨key n, ?_⟩
  intro x hx
  have ht : rest.take (n + 1) = rest.take n ++ [x] := by
    rw [List.take_succ, hx]
    rfl
  have h1 := key (n + 1)
  rw [ht, runFrames_append] at h1
  rw [key n, ← h1]
  exact ((gameFrame_player m x.1 x.2 _).1).symm

/-- Witness for C22 amended: W held for three frames from `treeGame`; the call of the
third frame leaves the player where the first frame left it. -/
theorem one_move_per_press_amended_witness :
    (runFrames ([(wHeld, 1 / 60), (wHeld, 1 / 60)].take 1)
        (gameFrame wHeld (1 / 60) treeGame)).playerPosition
        = (gameFrame wHeld (1 / 60) treeGame).playerPosition
      ∧ ∀ x : Input × ℚ, [(wHeld, (1 / 60 : ℚ)), (wHeld, 1 / 60)][1]? = some x →
          (processInput x.1 (runFrames ([(wHeld, 1 / 60), (wHeld, 1 / 60)].take 1)
            (gameFrame wHeld (1 / 60) treeGame))).playerPosition
            = (runFrames ([(wHeld, 1 / 60), (wHeld, 1 / 60)].take 1)
                (gameFrame wHeld (1 / 60) treeGame)).playerPosition :=
  one_move_per_press_amended .W (wHeld, 1 / 60) [(wHeld, 1 / 60), (wHeld, 1 / 60)] treeGame
    (by rw [treeGame_eq]; rfl) onlyMove_wHeld
    (by intro x hx; simp at hx; rw [hx]; exact onlyMove_wHeld)
    (by simp [wHeld, noInput]) 1

/-! ## Rows, cars and trees -/

theorem numCarsPerLane_pos (u : ℚ) (h0 : 0 ≤ u) (h1 : u < 1) : 1 ≤ numCarsPerLane u := by
  rcases numCarsPerLane_range u h0 h1 with h | h | h <;> rw [h] <;> decide

/-- The car loop of `spawnNewRow` appends one car per iteration, each in the row being
spawned, and touches neither the trees nor `roadRows`. -/
theorem foldl_spawnCar (rowIndex : ℤ) (rowZ : ℚ) (movingRight : Bool) :
    ∀ (l : List ℕ) (g : Game),
      ∃ new : List Car, (l.foldl (spawnCar rowIndex rowZ movingRight) g).cars = g.cars ++ new
        ∧ new.length = l.length
        ∧ (∀ c ∈ new, c.rowIndex = rowIndex ∧ c.position.y = 0 ∧ c.position.z = rowZ)
        ∧ (l.foldl (spawnCar rowIndex rowZ movingRight) g).trees = g.trees
        ∧ (l.foldl (spawnCar rowIndex rowZ movingRight) g).roadRows = g.roadRows := by
  intro l
  induction l with
  | nil => intro g; exact ⟨[], by simp, rfl, by simp, rfl, rfl⟩
  | cons a l ih =>
    intro g
    obtain ⟨new, h1, h2, h3, h4, h5⟩ := ih (spawnCar rowIndex rowZ movingRight g a)
    have hc : ∃ c : Car, (spawnCar rowIndex rowZ movingRight g a).cars = g.cars ++ [c]
        ∧ c.rowIndex = rowIndex ∧ c.position.y = 0 ∧ c.position.z = rowZ :=
      ⟨_, rfl, rfl, rfl, rfl⟩
    obtain ⟨c, c1, c2, c3, c4⟩ := hc
    refine ⟨c :: new, ?_, by simp [h2], ?_, h4, h5⟩
    · rw [List.foldl_cons, h1, c1, List.append_assoc]
      rfl
    · intro d hd
      rcases List.mem_cons.mp hd with rfl | hd
      · exact ⟨c2, c3, c4⟩
      · exact h3 d hd

/-- The tree loop of `spawnNewRow` appends trees of the row being spawned and touches
neither the cars nor `roadRows`. -/
theorem foldl_spawnTree (rowZ : ℚ) :
    ∀ (l : List ℕ) (g : Game),
      ∃ new : List Tree, (l.foldl (spawnTree rowZ) g).trees = g.trees ++ new
        ∧ (∀ t ∈ new, t.position.z = rowZ)
        ∧ (l.foldl (spawnTree rowZ) g).cars = g.cars
        ∧ (l.foldl (spawnTree rowZ) g).roadRows = g.roadRows := by
  intro l
  induction l with
  | nil => intro g; exact ⟨[], by simp, by simp, rfl, rfl⟩
  | cons a l ih =>
    intro g
    obtain ⟨new, h1, h3, h4, h5⟩ := ih (spawnTree rowZ g a)
    have hc : ∃ t : Tree, (spawnTree rowZ g a).trees = g.trees ++ [t] ∧ t.position.z = rowZ :=
      ⟨_, rfl, rfl⟩
    obtain ⟨t, c1, c2⟩ := hc
    refine ⟨t :: new, ?_, ?_, h4, h5⟩
    · rw [List.foldl_cons, h1, c1, List.append_assoc]
      rfl
    · intro d hd
      rcases List.mem_cons.mp hd with rfl | hd
      · exact c2
      · exact h3 d hd

/-- What one call of `spawnNewRow` adds: one entry of `roadRows`, and either a road row
(entry 1, at least one car, no tree) or a safe row (entry 0, no car, possibly trees), the
cars and trees placed in the new row. -/
theorem spawnNewRow_spec (g : Game) (hgen : ∀ i, 0 ≤ g.generator i ∧ g.generator i < 1) :
    ∃ (newCars : List Car) (newTrees : List Tree) (e : ℤ),
      (spawnNewRow g).cars = g.cars ++ newCars
        ∧ (spawnNewRow g).trees = g.trees ++ newTrees
        ∧ (spawnNewRow g).roadRows = g.roadRows ++ [e]
        ∧ (∀ c ∈ newCars, c.rowIndex = (g.roadRows.length : ℤ) ∧ c.position.y = 0
            ∧ c.position.z = ((g.roadRows.length : ℤ) : ℚ) * MOVE_DISTANCE - 10)
        ∧ (∀ t ∈ newTrees, t.position.z = ((g.roadRows.length : ℤ) : ℚ) * MOVE_DISTANCE - 10)
        ∧ ((e = 1 ∧ newCars ≠ [] ∧ newTrees = []) ∨ (e = 0 ∧ newCars = [])) := by
  unfold spawnNewRow
  dsimp only
  split_ifs with h1 h2
  · obtain ⟨new, c1, c2, c3, c4, c5⟩ := foldl_spawnCar (g.roadRows.length : ℤ)
      (((g.roadRows.length : ℤ) : ℚ) * MOVE_DISTANCE - 10)
      (decide (g.advance.draw < 1 / 2))
      (List.range (numCarsPerLane g.advance.advance.draw).toNat) g.advance.advance.advance
    refine ⟨new, [], 1, c1, ?_, ?_, c3, by simp, Or.inl ⟨rfl, ?_, rfl⟩⟩
    · rw [List.append_nil]; exact c4
    · show _ ++ [1] = _ ++ [1]
      rw [c5]; rfl
    · have hpos := numCarsPerLane_pos g.advance.advance.draw (hgen _).1 (hgen _).2
      intro hnil
      rw [hnil, List.length_range] at c2
      have : (0 : ℤ) < numCarsPerLane g.advance.advance.draw := by linarith
      have h3 := Int.lt_toNat.mpr this
      simp at c2
      omega
  · obtain ⟨new, c1, c3, c4, c5⟩ := foldl_spawnTree
      (((g.roadRows.length : ℤ) : ℚ) * MOVE_DISTANCE - 10)
      (List.range (numTrees g.advance.advance.draw).toNat) g.advance.advance.advance
    refine ⟨[], new, 0, ?_, c1, ?_, by simp, c3, Or.inr ⟨rfl, rfl⟩⟩
    · rw [List.append_nil]; exact c4
    · show _ ++ [0] = _ ++ [0]
      rw [c5]; rfl
  · refine ⟨[], [], 0, ?_, ?_, rfl, by simp, by simp, Or.inr ⟨rfl, rfl⟩⟩
    · rw [List.append_nil]; rfl
    · rw [List.append_nil]; rfl

theorem updateCar_fields (gameSpeed deltaTime : ℚ) (car : Car) :
    (updateCar gameSpeed deltaTime car).rowIndex = car.rowIndex
      ∧ (updateCar gameSpeed deltaTime car).position.y = car.position.y
      ∧ (updateCar gameSpeed deltaTime car).position.z = car.position.z := by
  unfold updateCar
  dsimp only
  split_ifs <;> exact ⟨rfl, rfl, rfl⟩

theorem getElem?_lt_of_eq_some {l : List ℤ} {r : ℕ} {v : ℤ} (h : l[r]? = some v) :
    r < l.length := by
  by_contra hlt
  rw [List.getElem?_eq_none (by omega)] at h
  exact absurd h (by simp)

/-- The invariant is kept by `spawnNewRow`. -/
theorem rowInvariant_spawnNewRow (g : Game)
    (hgen : ∀ i, 0 ≤ g.generator i ∧ g.generator i < 1)
    (h : RowInvariant g) : RowInvariant (spawnNewRow g) := by
  obtain ⟨newCars, newTrees, e, hc, ht, hr, hnc, hnt, hcase⟩ := spawnNewRow_spec g hgen
  obtain ⟨i1, i2, i3⟩ := h
  have hlast : (g.roadRows ++ [e])[g.roadRows.length]? = some e := by
    rw [List.getElem?_append_right (le_refl _)]
    simp
  have hold : ∀ car ∈ g.cars, ∀ r : ℕ, car.rowIndex = (r : ℤ) → r < g.roadRows.length :=
    fun car hcar r hrow => getElem?_lt_of_eq_some ((i1 r).mpr ⟨car, hcar, hrow⟩)
  unfold RowInvariant
  rw [hc, ht, hr]
  refine ⟨?_, ?_, ?_⟩
  · intro r
    constructor
    · intro hsome
      have hlt : r < (g.roadRows ++ [e]).length := getElem?_lt_of_eq_some hsome
      rw [List.length_append, List.length_singleton] at hlt
      by_cases hr2 : r < g.roadRows.length
      · rw [List.getElem?_append_left hr2] at hsome
        obtain ⟨car, hcar, hrow⟩ := (i1 r).mp hsome
        exact ⟨car, List.mem_append_left _ hcar, hrow⟩
      · have hrL : r = g.roadRows.length := by omega
        subst hrL
        rw [hlast] at hsome
        rcases hcase with ⟨-, hne, -⟩ | ⟨he, -⟩
        · obtain ⟨car, hcar⟩ := List.exists_mem_of_ne_nil _ hne
          exact ⟨car, List.mem_append_right _ hcar, (hnc car hcar).1⟩
        · rw [he] at hsome
          exact absurd hsome (by simp)
    · rintro ⟨car, hcar, hrow⟩
      rcases List.mem_append.mp hcar with hcar | hcar
      · have hlt := hold car hcar r hrow
        rw [List.getElem?_append_left hlt]
        exact (i1 r).mpr ⟨car, hcar, hrow⟩
      · have hrL : r = g.roadRows.length := by
          have := (hnc car hcar).1
          rw [hrow] at this
          exact_mod_cast this
        rcases hcase with ⟨he, -, -⟩ | ⟨-, hnil⟩
        · rw [hrL, hlast, he]
        · rw [hnil] at hcar
          exact absurd hcar (List.not_mem_nil _)
  · intro car hcar
    rcases List.mem_append.mp hcar with hcar | hcar
    · exact i2 car hcar
    · obtain ⟨a, b, c⟩ := hnc car hcar
      exact ⟨b, by rw [c, a]⟩
  · intro tree htree
    rcases List.mem_append.mp htree with htree | htree
    · obtain ⟨r, hr1, hr2⟩ := i3 tree htree
      exact ⟨r, by rw [List.getElem?_append_left (getElem?_lt_of_eq_some hr1)]; exact hr1, hr2⟩
    · rcases hcase with ⟨-, -, hnil⟩ | ⟨he, -⟩
      · rw [hnil] at htree
        exact absurd htree (List.not_mem_nil _)
      · refine ⟨g.roadRows.length, by rw [hlast, he], ?_⟩
        rw [hnt tree htree]
        push_cast
        rfl

/-- The invariant is kept by `updateCars`, which moves cars along x only. -/
theorem rowInvariant_updateCars (deltaTime : ℚ) (g : Game) (h : RowInvariant g) :
    RowInvariant (updateCars deltaTime g) := by
  obtain ⟨i1, i2, i3⟩ := h
  refine ⟨?_, ?_, i3⟩
  · intro r
    rw [show (updateCars deltaTime g).roadRows = g.roadRows from rfl, i1 r]
    show _ ↔ ∃ car ∈ g.cars.map (updateCar g.gameSpeed deltaTime), car.rowIndex = (r : ℤ)
    constructor
    · rintro ⟨car, hcar, hrow⟩
      exact ⟨_, List.mem_map_of_mem _ hcar, by rw [(updateCar_fields _ _ car).1]; exact hrow⟩
    · rintro ⟨car, hcar, hrow⟩
      obtain ⟨c0, hc0, rfl⟩ := List.mem_map.mp hcar
      exact ⟨c0, hc0, by rw [← (updateCar_fields g.gameSpeed deltaTime c0).1]; exact hrow⟩
  · intro car hcar
    obtain ⟨c0, hc0, rfl⟩ := List.mem_map.mp hcar
    obtain ⟨a, b, c⟩ := updateCar_fields g.gameSpeed deltaTime c0
    rw [a, b, c]
    exact i2 c0 hc0

/-- The invariant is kept by any number of calls of `spawnNewRow`. -/
theorem rowInvariant_iterate (n : ℕ) : ∀ g : Game,
    (∀ i, 0 ≤ g.generator i ∧ g.generator i < 1) →
    RowInvariant g → RowInvariant (Nat.iterate spawnNewRow n g) := by
  induction n with
  | zero => intro g _ h; exact h
  | succ n ih =>
    intro g hgen h
    rw [Function.iterate_succ_apply]
    refine ih _ ?_ (rowInvariant_spawnNewRow g hgen h)
    rw [(spawnsOnly_spawnNewRow g).fields.2.2.2.2.2.2.2.2.2.2.2.2]
    exact hgen

/-- Every state of the world generator satisfies the invariant, and its generator still
yields values in `[0, 1)`. -/
theorem reached_rowInvariant (g : Game) (h : Reached g) :
    RowInvariant g ∧ ∀ i, 0 ≤ g.generator i ∧ g.generator i < 1 := by
  induction h with
  | reset g0 hgen =>
    refine ⟨?_, by rw [(resetGame_fields g0).2.2.2.2]; exact hgen⟩
    unfold resetGame
    dsimp only
    refine rowInvariant_iterate _ _ hgen ⟨?_, ?_, ?_⟩
    · intro r; simp
    · intro car hcar; exact absurd hcar (List.not_mem_nil _)
    · intro tree htree; exact absurd htree (List.not_mem_nil _)
  | spawn _ ih =>
    refine ⟨rowInvariant_spawnNewRow _ ih.2 ih.1, ?_⟩
    rw [(spawnsOnly_spawnNewRow _).fields.2.2.2.2.2.2.2.2.2.2.2.2]
    exact ih.2
  | update dt _ ih => exact ⟨rowInvariant_updateCars dt _ ih.1, ih.2⟩

/-- The draws of `treeDraws` lie in `[0, 1)`. -/
theorem treeDraws_range (i : ℕ) : 0 ≤ treeDraws i ∧ treeDraws i < 1 := by
  unfold treeDraws
  split_ifs <;> norm_num

/-- C23. Road and safe-row invariant: in every state reached from `resetGame` by calls of
`spawnNewRow` and `updateCars`, `roadRows[r] = 1` exactly when some car has `rowIndex = r`;
every car has `y = 0` and `z = rowIndex * MOVE_DISTANCE - 10`; every tree has
`z = r * MOVE_DISTANCE - 10` for a row `r` with `roadRows[r] = 0`; and a call of
`spawnNewRow` appends exactly one entry, 0 or 1, to `roadRows`. -/
theorem road_row_invariant (g : Game) (h : Reached g) :
    RowInvariant g
      ∧ ∃ e : ℤ, (spawnNewRow g).roadRows = g.roadRows ++ [e] ∧ (e = 0 ∨ e = 1) := by
  obtain ⟨hinv, hgen⟩ := reached_rowInvariant g h
  refine ⟨hinv, ?_⟩
  obtain ⟨_, _, e, -, -, hr, -, -, hcase⟩ := spawnNewRow_spec g hgen
  refine ⟨e, hr, ?_⟩
  rcases hcase with ⟨he, -, -⟩ | ⟨he, -⟩
  · exact Or.inr he
  · exact Or.inl he

/-- Witness for C23: the state after `resetGame` with the generator `treeDraws`. -/
theorem road_row_invariant_witness :
    Reached treeGame
      ∧ RowInvariant treeGame
      ∧ ∃ e : ℤ, (spawnNewRow treeGame).roadRows = treeGame.roadRows ++ [e] ∧ (e = 0 ∨ e = 1) :=
  ⟨Reached.reset baseGame treeDraws_range,
    road_row_invariant treeGame (Reached.reset baseGame treeDraws_range)⟩

end Assignment4
